import Mathlib

/-!
# git-lfs: prune orchestrator, transfer protocol client, content store and cleaning

A shallow embedding of `commands/command_prune.go`, `lfs/client.go`,
`gitmedia/gitmedia.go`, `lfs/pointer_clean.go` and `pointer/clean.go`.
Go loops over slices are written as left folds, `bytes.Buffer` values as the
list of chunks written to them, `int64` arithmetic as `Int` reduced to the
signed 64-bit range, and a call of `Exit` as an optional exit message that
stops the run.  Collaborators that live outside the embedded files (the file
system, the transfer queue, the HTTP transport) are fields of an environment
structure acting on an explicit state.
-/

set_option autoImplicit false

namespace GitLfs

/-! ## Data model -/

/-- The part of `lfs.Pointer` used by prune: the oid and the size (`int64`). -/
structure Pointer where
  Oid : String
  Size : Int
deriving DecidableEq, Repr

/-- Modelled from the spec: `lfs.StringSet` (its declaration is not part of the
embedded files) is a set of oids; it is kept here as the list of its members. -/
abbrev StringSet := List String

/-- The empty set, `lfs.NewStringSetWithCapacity(n)`; a nil `StringSet` behaves alike. -/
def NewStringSet : StringSet := []

/-- Membership test `s.Contains(oid)`. -/
def StringSet.Contains (s : StringSet) (oid : String) : Bool := decide (oid ∈ s)

/-- Insertion `s.Add(oid)`. -/
def StringSet.Add (s : StringSet) (oid : String) : StringSet :=
  if oid ∈ s then s else s ++ [oid]

/-- Reduction of an integer to the range of Go's `int64` (two's complement wrap). -/
def wrapInt64 (x : Int) : Int := (x + 2 ^ 63) % 2 ^ 64 - 2 ^ 63

/-- Length of what was written to a buffer, counted in characters; it is positive
exactly when `bytes.Buffer.Len` is, that is when some written chunk is non-empty. -/
def bufLen (chunks : List String) : Nat := (chunks.map String.length).sum

/-- Contents of a buffer, `bytes.Buffer.String`. -/
def bufString (chunks : List String) : String := String.join chunks

/-! ## Prune: the difference step (`prune`, lines 99-124) -/

/-- Variables updated by the loop over `localObjects`. -/
structure PruneScan where
  prunableObjects : List String
  totalSize : Int
  verboseOutput : List String
  verifyQueue : Option (List Pointer)
deriving DecidableEq, Repr

/-- Body of `for _, pointer := range localObjects`. -/
def pruneScanStep (humanizeBytes : Int → String) (retainedObjects : StringSet)
    (verifyRemote dryRun verbose : Bool) (st : PruneScan) (pointer : Pointer) : PruneScan :=
  if !retainedObjects.Contains pointer.Oid then
    { prunableObjects := st.prunableObjects ++ [pointer.Oid]
      totalSize := wrapInt64 (st.totalSize + pointer.Size)
      verboseOutput :=
        if verbose then
          st.verboseOutput ++ ["Prune " ++ pointer.Oid ++ " ," ++ humanizeBytes pointer.Size]
        else st.verboseOutput
      verifyQueue :=
        if verifyRemote && !dryRun then st.verifyQueue.map (fun q => q ++ [pointer])
        else st.verifyQueue }
  else st

/-- Lines 99-124 of `prune`: the queue is built only when `verifyRemote && !dryRun`,
then every local object that is not retained is appended to the prunable list. -/
def pruneScan (humanizeBytes : Int → String) (localObjects : List Pointer)
    (retainedObjects : StringSet) (verifyRemote dryRun verbose : Bool) : PruneScan :=
  localObjects.foldl (pruneScanStep humanizeBytes retainedObjects verifyRemote dryRun verbose)
    { prunableObjects := []
      totalSize := 0
      verboseOutput := []
      verifyQueue := if verifyRemote && !dryRun then some [] else none }

/-! ## Prune: the safety gate (`pruneCheckVerified`) -/

/-- The loop of `pruneCheckVerified`: one line per prunable oid that is not verified
and is reachable. -/
def pruneCheckVerifiedProblems (prunableObjects : List String)
    (reachableObjects verifiedObjects : StringSet) : List String :=
  prunableObjects.foldl
    (fun problems oid =>
      if !verifiedObjects.Contains oid then
        if reachableObjects.Contains oid then problems ++ [oid ++ "\n"] else problems
      else problems)
    []

/-- The function `pruneCheckVerified`: `some msg` when it calls `Exit` with `msg`,
`none` when it returns. -/
def pruneCheckVerified (prunableObjects : List String)
    (reachableObjects verifiedObjects : StringSet) : Option String :=
  let problems := pruneCheckVerifiedProblems prunableObjects reachableObjects verifiedObjects
  if bufLen problems > 0 then
    some ("Failed to find prunable objects on remote, aborting:\n" ++ bufString problems)
  else none

/-! ## Prune: the deletion phase (`pruneDeleteFiles`) -/

/-- Collaborators of prune acting on a state `σ` (the content store and whatever
else the file system holds). -/
structure PruneEnv (σ : Type) where
  /-- The function `humanizeBytes`. -/
  humanizeBytes : Int → String
  /-- The value `lfs.Config.FetchPruneConfig().PruneRemoteName`. -/
  PruneRemoteName : String
  /-- Everything `lfs.AllLocalObjectsChan()` delivers. -/
  AllLocalObjectsChan : σ → List Pointer
  /-- The function `lfs.LocalMediaPath(oid)`: the path or an error, and the state after. -/
  LocalMediaPath : String → σ → Except String String × σ
  /-- The function `os.Remove(path)`: the error if any, and the state after. -/
  Remove : String → σ → Option String × σ
  /-- The oids delivered by `verifyQueue.Watch()` for the objects added to the queue. -/
  Watch : List Pointer → σ → List String

/-- Variables updated by the loop of `pruneDeleteFiles`. -/
structure DeleteLoop (σ : Type) where
  problems : List String
  deletedFiles : Nat
  state : σ

/-- Body of `for i, oid := range prunableObjects` in `pruneDeleteFiles`; both
failure branches `continue` with the next oid. -/
def pruneDeleteStep {σ : Type} (env : PruneEnv σ) (acc : DeleteLoop σ) (oid : String) :
    DeleteLoop σ :=
  match env.LocalMediaPath oid acc.state with
  | (.error err, s1) =>
      { problems := acc.problems ++ ["Unable to find media path for " ++ oid ++ ": " ++ err ++ "\n"]
        deletedFiles := acc.deletedFiles
        state := s1 }
  | (.ok mediaFile, s1) =>
      match env.Remove mediaFile s1 with
      | (some err, s2) =>
          { problems := acc.problems ++ ["Failed to remove file " ++ mediaFile ++ ": " ++ err ++ "\n"]
            deletedFiles := acc.deletedFiles
            state := s2 }
      | (none, s2) =>
          { problems := acc.problems
            deletedFiles := acc.deletedFiles + 1
            state := s2 }

/-- What `pruneDeleteFiles` leaves behind. -/
structure DeleteResult (σ : Type) where
  /-- The final spinner message. -/
  finished : String
  deletedFiles : Nat
  problems : List String
  /-- The message given to `Exit`, when it is called. -/
  exit : Option String
  state : σ

/-- The function `pruneDeleteFiles`. -/
def pruneDeleteFiles {σ : Type} (env : PruneEnv σ) (prunableObjects : List String) (s : σ) :
    DeleteResult σ :=
  let r := prunableObjects.foldl (pruneDeleteStep env)
    { problems := [], deletedFiles := 0, state := s }
  { finished := "Deleted " ++ toString r.deletedFiles ++ " files"
    deletedFiles := r.deletedFiles
    problems := r.problems
    exit := if bufLen r.problems > 0 then some "Prune failed, see errors above" else none
    state := r.state }

/-! ## Prune: the whole run -/

/-- Observable outcome of a prune run. -/
structure PruneResult (σ : Type) where
  prunableObjects : List String
  totalSize : Int
  verboseOutput : List String
  /-- The value assigned to `lfs.Config.CurrentRemote`, if it is assigned. -/
  currentRemote : Option String
  /-- The objects added to the verification queue; `none` when no queue is built. -/
  verifyQueue : Option (List Pointer)
  /-- The set filled from `Watch()`; `none` when it is never created. -/
  verifiedObjects : Option StringSet
  /-- The messages given to `Print`. -/
  printed : List String
  /-- The result of `pruneDeleteFiles`; `none` when it is never called. -/
  deleted : Option (DeleteResult σ)
  /-- The message given to `Exit`, when the run ends through it. -/
  exit : Option String
  state : σ

/-- The loop `for oid := range verifyc { verifiedObjects.Add(oid) }`. -/
def collectVerified (watched : List String) : StringSet :=
  watched.foldl StringSet.Add NewStringSet

/-- Lines 99-153 of `prune`: everything after the wait barrier, given what the
tasks produced (`localObjects`, `retainedObjects`, `reachableObjects`). -/
def pruneAfterBarrier {σ : Type} (env : PruneEnv σ) (verifyRemote dryRun verbose : Bool)
    (localObjects : List Pointer) (retainedObjects reachableObjects : StringSet) (s : σ) :
    PruneResult σ :=
  let scan := pruneScan env.humanizeBytes localObjects retainedObjects verifyRemote dryRun verbose
  let currentRemote := if verifyRemote && !dryRun then some env.PruneRemoteName else none
  let verified : Option StringSet :=
    if verifyRemote && !dryRun then
      some (collectVerified (env.Watch (scan.verifyQueue.getD []) s))
    else none
  let gate : Option String :=
    if verifyRemote && !dryRun then
      pruneCheckVerified scan.prunableObjects reachableObjects (verified.getD NewStringSet)
    else none
  match gate with
  | some msg =>
      { prunableObjects := scan.prunableObjects
        totalSize := scan.totalSize
        verboseOutput := scan.verboseOutput
        currentRemote := currentRemote
        verifyQueue := scan.verifyQueue
        verifiedObjects := verified
        printed := []
        deleted := none
        exit := some msg
        state := s }
  | none =>
      if dryRun then
        { prunableObjects := scan.prunableObjects
          totalSize := scan.totalSize
          verboseOutput := scan.verboseOutput
          currentRemote := currentRemote
          verifyQueue := scan.verifyQueue
          verifiedObjects := verified
          printed := [toString scan.prunableObjects.length ++ " files would be pruned, " ++
            env.humanizeBytes scan.totalSize]
          deleted := none
          exit := none
          state := s }
      else
        let d := pruneDeleteFiles env scan.prunableObjects s
        { prunableObjects := scan.prunableObjects
          totalSize := scan.totalSize
          verboseOutput := scan.verboseOutput
          currentRemote := currentRemote
          verifyQueue := scan.verifyQueue
          verifiedObjects := verified
          printed := ["Pruning " ++ toString scan.prunableObjects.length ++ " files, " ++
            env.humanizeBytes scan.totalSize]
          deleted := some d
          exit := d.exit
          state := d.state }

/-- The task `pruneTaskGetLocalObjects`: appends everything the channel delivers. -/
def pruneTaskGetLocalObjects {σ : Type} (env : PruneEnv σ) (s : σ) : List Pointer :=
  (env.AllLocalObjectsChan s).foldl (fun out p => out ++ [p]) []

/-- The task `pruneTaskGetRetainedCurrentCheckout`: what it sends on `retainChan`. -/
def pruneTaskGetRetainedCurrentCheckout : List String := []

/-- The task `pruneTaskGetRetainedRecentRefs`: what it sends on `retainChan`. -/
def pruneTaskGetRetainedRecentRefs : List String := []

/-- The task `pruneTaskGetRetainedUnpushed`: what it sends on `retainChan`. -/
def pruneTaskGetRetainedUnpushed : List String := []

/-- The task `pruneTaskGetRetainedWorktree`: what it sends on `retainChan`. -/
def pruneTaskGetRetainedWorktree : List String := []

/-- The task `pruneTaskGetReachableObjects`: the set it is handed, as it leaves it. -/
def pruneTaskGetReachableObjects (outObjectSet : StringSet) : StringSet := outObjectSet

/-- The task `pruneTaskCollectRetained`: adds every oid received on `retainChan`. -/
def pruneTaskCollectRetained (received : List String) : StringSet :=
  received.foldl StringSet.Add NewStringSet

/-- A run of `prune` over the store `s` in which the retention tasks and the
reachability task have produced `retainedObjects` and `reachableObjects`: the local
object list is enumerated from the store, then lines 99-153 run. -/
def pruneRetaining {σ : Type} (env : PruneEnv σ) (verifyRemote dryRun verbose : Bool)
    (retainedObjects reachableObjects : StringSet) (s : σ) : PruneResult σ :=
  pruneAfterBarrier env verifyRemote dryRun verbose (pruneTaskGetLocalObjects env s)
    retainedObjects reachableObjects s

/-- The function `prune`: the tasks run to the barrier, then lines 99-153. -/
def prune {σ : Type} (env : PruneEnv σ) (verifyRemote dryRun verbose : Bool) (s : σ) :
    PruneResult σ :=
  let retainedObjects := pruneTaskCollectRetained
    (pruneTaskGetRetainedCurrentCheckout ++ pruneTaskGetRetainedRecentRefs ++
      pruneTaskGetRetainedUnpushed ++ pruneTaskGetRetainedWorktree)
  let reachableObjects : StringSet :=
    if verifyRemote then pruneTaskGetReachableObjects NewStringSet else NewStringSet
  pruneRetaining env verifyRemote dryRun verbose retainedObjects reachableObjects s

/-! ## Reference descriptions used to state the properties of prune -/

/-- Whether the deletion of `oid` succeeds from state `s` (path lookup and remove
both without error), and the state the attempt leaves. -/
def deleteSucceeds {σ : Type} (env : PruneEnv σ) (oid : String) (s : σ) : Bool × σ :=
  match env.LocalMediaPath oid s with
  | (.error _, s1) => (false, s1)
  | (.ok mediaFile, s1) =>
      match env.Remove mediaFile s1 with
      | (some _, s2) => (false, s2)
      | (none, s2) => (true, s2)

/-- The outcome of the deletion attempt of each oid of the list, in order, each
attempt starting from the state the previous one left. -/
def deleteOutcomes {σ : Type} (env : PruneEnv σ) : List String → σ → List Bool
  | [], _ => []
  | oid :: rest, s => (deleteSucceeds env oid s).1 :: deleteOutcomes env rest (deleteSucceeds env oid s).2

/-- A small content store for concrete runs: the state is the list of stored
objects, an object's file is named by its oid, every path lookup succeeds, and a
remove succeeds exactly when a file of that name is stored. Nothing is ever
verified by the remote. -/
def listStoreEnv : PruneEnv (List Pointer) where
  humanizeBytes := fun n => toString n ++ " B"
  PruneRemoteName := "origin"
  AllLocalObjectsChan := fun s => s
  LocalMediaPath := fun oid s => (.ok oid, s)
  Remove := fun path s =>
    if s.any (fun p => p.Oid == path) then (none, s.filter (fun p => p.Oid != path))
    else (some "no such file or directory", s)
  Watch := fun _ _ => []

/-! ## Transfer protocol client: data model (`lfs/client.go`) -/

/-- The constant `mediaType`. -/
def mediaType : String := "application/vnd.git-lfs+json; charset=utf-8"

/-- An `http.Header`, kept as the list of its keys (in canonical form) with the
first value of each. -/
abbrev Header := List (String × String)

/-- The method `Header.Get`: the value stored under the key, or the empty string. -/
def Header.Get (h : Header) (key : String) : String :=
  match h.find? (fun kv => kv.1 == key) with
  | some kv => kv.2
  | none => ""

/-- The method `Header.Set`: the value replaces whatever the key held. -/
def Header.Set (h : Header) (key value : String) : Header :=
  if h.any (fun kv => kv.1 == key) then
    h.map (fun kv => if kv.1 == key then (key, value) else kv)
  else h ++ [(key, value)]

/-- The struct `linkRelation`. -/
structure linkRelation where
  Href : String
  Header : List (String × String)
deriving DecidableEq, Repr

/-- The struct `objectError`. -/
structure objectError where
  Code : Int
  Message : String
deriving DecidableEq, Repr

/-- The struct `objectResource`; a nil map is `none`. -/
structure objectResource where
  Oid : String
  Size : Int
  Actions : Option (List (String × linkRelation))
  Links : Option (List (String × linkRelation))
  Error : Option objectError
deriving DecidableEq, Repr

/-- The struct `ClientError`. -/
structure ClientError where
  Message : String
  DocumentationUrl : String
  RequestId : String
deriving DecidableEq, Repr

/-- The method `(*ClientError).Error`. -/
def ClientError.Error (e : ClientError) : String :=
  let msg := e.Message
  let msg := if e.DocumentationUrl.length > 0 then msg ++ "\nDocs: " ++ e.DocumentationUrl else msg
  if e.RequestId.length > 0 then msg ++ "\nRequest ID: " ++ e.RequestId else msg

/-- Whether a request body can be rewound. -/
inductive Seek where
  /-- The body is no `io.Seeker`. -/
  | notSeeker
  /-- The method `Seek(0, 0)` succeeds. -/
  | seeks
  /-- The method `Seek(0, 0)` returns this error. -/
  | fails (err : String)
deriving DecidableEq, Repr

/-- A request body `io.ReadCloser`. -/
inductive Body where
  /-- No body (`nil`). -/
  | absent
  /-- A reader over `data`, currently at `offset`. -/
  | reader (data : String) (offset : Nat) (seek : Seek)
  /-- A `*countingReadCloser` around another body. -/
  | counting (inner : Body)
deriving DecidableEq, Repr

/-- The fields of `http.Request` the client touches. -/
structure Request where
  Method : String
  URL : String
  Header : Header
  Body : Body
  ContentLength : Int
  TransferEncoding : List String := []
deriving DecidableEq, Repr

/-- The fields of `http.Response` the client touches. -/
structure Response where
  StatusCode : Int
  Status : String
  Header : Header
  Body : String
  Request : Request
deriving DecidableEq, Repr

/-- The type `Creds`. -/
abbrev Creds := List (String × String)

/-- The Go `error` values that occur in the client, by dynamic type. -/
inductive GoError where
  /-- A value of `errors.New` or `fmt.Errorf`, or an error of a library call. -/
  | plain (msg : String)
  /-- A `*ClientError`. -/
  | client (e : ClientError)
  /-- A `notImplError`. -/
  | notImpl (msg : String)
deriving DecidableEq, Repr

/-- The method `Error()` of an error value. -/
def GoError.Error : GoError → String
  | .plain msg => msg
  | .client e => e.Error
  | .notImpl msg => msg

/-- Modelled from the spec: `WrappedError` is declared outside the embedded files;
`client.go` reads and writes its fields `Err` and `Panic` (the fatal flag of the
error classification) and stores context with `Set`. -/
structure WrappedError where
  Err : GoError
  Message : String
  Panic : Bool
  context : List (String × String)
deriving DecidableEq, Repr

/-- The method `(*WrappedError).Set`. -/
def WrappedError.Set (e : WrappedError) (key value : String) : WrappedError :=
  { e with context := Header.Set e.context key value }

/-- Modelled from the spec: `Errorf(err, format, args...)` is defined outside the
embedded files; it wraps `err`, or a new error made of the formatted message when
`err` is nil, so that `isNotImplError` can read the wrapped error back from `Err`.
The fatal flag a fresh error starts with is the parameter `panicDefault`. -/
def Errorf (panicDefault : Bool) (err : Option GoError) (message : String) : WrappedError :=
  match err with
  | none => { Err := .plain message, Message := message, Panic := panicDefault, context := [] }
  | some e =>
      { Err := e
        Message := if message.length > 0 then message else e.Error
        Panic := panicDefault
        context := [] }

/-- Modelled from the spec: `Error(err)` is `Errorf(err, "")`. -/
def Error (panicDefault : Bool) (err : GoError) : WrappedError :=
  Errorf panicDefault (some err) ""

/-- The function `newNotImplError`. -/
def newNotImplError : GoError := .notImpl "Not Implemented"

/-- The function `isNotImplError`: whether the wrapped error has a
`NotImplemented` method, which then answers true. -/
def isNotImplError (err : WrappedError) : Bool :=
  match err.Err with
  | .notImpl _ => true
  | _ => false

/-- Modelled from the spec: the resolved endpoint `{url, ssh-user-and-host}`. -/
structure Endpoint where
  Url : String
  SshUserAndHost : String
deriving DecidableEq, Repr

/-- The result of `sshAuthenticate`, of which `Href` and `Header` are read. -/
structure sshAuthResponse where
  Href : String
  Header : Header
deriving DecidableEq, Repr

/-- The JSON encoder and decoders of `encoding/json` at the types the client uses;
a decoder gives the value left in the target and the error, if any. -/
structure Codec where
  decodeClientError : String → ClientError × Option GoError
  decodeObjects : String → List objectResource × Option GoError
  decodeObject : String → objectResource × Option GoError
  marshalBatch : List objectResource → String → Except GoError String

/-- Collaborators of the client acting on a state `σ` (configuration, credential
store, network). -/
structure ClientEnv (σ : Type) where
  /-- The variable `UserAgent`. -/
  UserAgent : String
  /-- The fatal flag of a fresh `WrappedError`. -/
  errorPanic : Bool
  codec : Codec
  /-- The method `Config.Endpoint()`. -/
  Endpoint : σ → GitLfs.Endpoint
  /-- The function `sshAuthenticate(endpoint, operation, oid)`. -/
  sshAuthenticate : GitLfs.Endpoint → String → String → σ → sshAuthResponse × Option GoError
  /-- The function `ObjectUrl(endpoint, oid)`, with the URL as a string. -/
  ObjectUrl : GitLfs.Endpoint → String → Except GoError String
  /-- The error of `http.NewRequest(method, rawurl, nil)`, if any. -/
  NewRequest : String → String → Option GoError
  /-- The call `Config.HttpClient().Do(req)`. -/
  Do : Request → σ → (Option Response × Option GoError) × σ
  /-- The function `getCredsForAPI(req)`. -/
  getCredsForAPI : Request → σ → Except GoError Creds × σ
  /-- The function `saveCredentials(creds, res)`. -/
  saveCredentials : Option Creds → Response → σ → σ
  /-- The method `Config.PrivateAccess()`. -/
  PrivateAccess : σ → Bool
  /-- The method `Config.SetPrivateAccess()`. -/
  SetPrivateAccess : σ → σ
  /-- The call `url.Parse(s)`: `none` on error, else whether the URL is absolute. -/
  parseUrl : String → Option Bool
  /-- The call `base.ResolveReference(ref).String()`. -/
  ResolveReference : String → String → String
  /-- The function `checkRedirect(req, via)`. -/
  checkRedirect : Request → List Request → Option GoError

/-! ## Transfer protocol client: responses and errors -/

/-- A regular expression of the shape `\Abase(;|\z)`: the text starts with `base`,
which is followed by `;` or by the end of the text. -/
def matchesMediaType (base : String) (ctype : String) : Bool :=
  base.data.isPrefixOf ctype.data &&
    (match ctype.data.drop base.data.length with
     | [] => true
     | c :: _ => c == ';')

/-- The regular expression `lfsMediaTypeRE`. -/
def lfsMediaTypeRE (ctype : String) : Bool := matchesMediaType "application/vnd.git-lfs+json" ctype

/-- The regular expression `jsonMediaTypeRE`. -/
def jsonMediaTypeRE (ctype : String) : Bool := matchesMediaType "application/json" ctype

/-- The set `hiddenHeaders`. -/
def hiddenHeaders : List String := [ "Authorization" ]

/-- The table `defaultErrors`; each format is kept as the text before and after `%s`. -/
def defaultErrors : List (Int × (String × String)) :=
  [ (400, ("Client error: ", "")),
    (401, ("Authorization error: ", "\nCheck that you have proper access to the repository")),
    (403, ("Authorization error: ", "\nCheck that you have proper access to the repository")),
    (404, ("Repository or object not found: ",
      "\nCheck that it exists and that you have proper access to it")),
    (500, ("Server error: ", "")) ]

/-- The function `decodeApiResponse(res, obj)`: the value left in `obj` and the error. -/
def decodeApiResponse {α : Type} (panicDefault : Bool) (decode : String → α × Option GoError)
    (res : Response) (obj : α) : α × Option WrappedError :=
  let ctype := res.Header.Get "Content-Type"
  if !(lfsMediaTypeRE ctype || jsonMediaTypeRE ctype) then (obj, none)
  else
    match decode res.Body with
    | (v, none) => (v, none)
    | (v, some err) =>
        (v, some (Errorf panicDefault (some err)
          ("Unable to parse HTTP response for " ++ res.Request.Method ++ " " ++ res.Request.URL)))

/-- The function `defaultError`. -/
def defaultError (panicDefault : Bool) (res : Response) : WrappedError :=
  let msg :=
    match defaultErrors.lookup res.StatusCode with
    | some f => f.1 ++ res.Request.URL ++ f.2
    | none =>
        if res.StatusCode < 500 then
          "Client error: " ++ res.Request.URL ++ " from HTTP " ++ toString res.StatusCode
        else "Server error: " ++ res.Request.URL ++ " from HTTP " ++ toString res.StatusCode
  Error panicDefault (.plain msg)

/-- The function `handleResponse`. -/
def handleResponse {σ : Type} (env : ClientEnv σ) (res : Response) (creds : Option Creds)
    (s : σ) : Option WrappedError × σ :=
  let s1 := env.saveCredentials creds res s
  if res.StatusCode < 400 then (none, s1)
  else
    let cliErr : ClientError := { Message := "", DocumentationUrl := "", RequestId := "" }
    let wErr : WrappedError :=
      match decodeApiResponse env.errorPanic env.codec.decodeClientError res cliErr with
      | (_, some wErr) => wErr
      | (cliErr, none) =>
          if cliErr.Message.length = 0 then defaultError env.errorPanic res
          else Error env.errorPanic (.client cliErr)
    (some { wErr with
      Panic := decide (res.StatusCode > 499 ∧ res.StatusCode ≠ 501 ∧ res.StatusCode ≠ 509) }, s1)

/-- The function `setErrorHeaderContext`. -/
def setErrorHeaderContext (err : WrappedError) (pfx : String) (head : Header) : WrappedError :=
  head.foldl
    (fun e kv =>
      let contextKey := pfx ++ ":" ++ kv.1
      if kv.1 ∈ hiddenHeaders then e.Set contextKey "--" else e.Set contextKey (head.Get kv.1))
    err

/-- The function `setErrorRequestContext`. -/
def setErrorRequestContext {σ : Type} (env : ClientEnv σ) (err : WrappedError) (req : Request)
    (s : σ) : WrappedError :=
  setErrorHeaderContext
    ((err.Set "Endpoint" (env.Endpoint s).Url).Set "URL" (req.Method ++ " " ++ req.URL))
    "Response" req.Header

/-- The function `setErrorResponseContext`. -/
def setErrorResponseContext {σ : Type} (env : ClientEnv σ) (err : WrappedError) (res : Response)
    (s : σ) : WrappedError :=
  setErrorRequestContext env
    (setErrorHeaderContext (err.Set "Status" res.Status) "Request" res.Header) res.Request s

/-! ## Transfer protocol client: requests -/

/-- The function `doHttpRequest`; the response it returns is never nil. -/
def doHttpRequest {σ : Type} (env : ClientEnv σ) (req : Request) (creds : Option Creds) (s : σ) :
    (Response × Option WrappedError) × σ :=
  match env.Do req s with
  | ((resOpt, err), s1) =>
      let res : Response :=
        match resOpt with
        | some res => res
        | none => { StatusCode := 0, Status := "", Header := [], Body := "", Request := req }
      let (wErr, s2) :=
        match err with
        | some e =>
            (some (Errorf env.errorPanic (some e)
              ("Error for " ++ res.Request.Method ++ " " ++ res.Request.URL)), s1)
        | none => handleResponse env res creds s1
      match wErr with
      | some w => ((res, some (setErrorResponseContext env w res s2)), s2)
      | none => ((res, none), s2)

/-- The function `newClientRequest`; only the error of `http.NewRequest` can fail it. -/
def newClientRequest {σ : Type} (env : ClientEnv σ) (method rawurl : String)
    (header : List (String × String)) : Except GoError Request :=
  match env.NewRequest method rawurl with
  | some err => .error err
  | none =>
      let h := header.foldl (fun (h : Header) kv => h.Set kv.1 kv.2) []
      .ok { Method := method, URL := rawurl, Header := h.Set "User-Agent" env.UserAgent,
            Body := .absent, ContentLength := 0 }

/-- The function `newBatchClientRequest`. -/
def newBatchClientRequest {σ : Type} (env : ClientEnv σ) (method rawurl : String) :
    Except GoError Request :=
  match env.NewRequest method rawurl with
  | some err => .error err
  | none =>
      .ok { Method := method, URL := rawurl, Header := Header.Set [] "User-Agent" env.UserAgent,
            Body := .absent, ContentLength := 0 }

/-- The function `newBatchApiRequest`; an error of `sshAuthenticate` is only traced. -/
def newBatchApiRequest {σ : Type} (env : ClientEnv σ) (s : σ) : Except GoError Request :=
  let endpoint := env.Endpoint s
  let res := (env.sshAuthenticate endpoint "download" "" s).1
  let endpoint := if res.Href.length > 0 then { endpoint with Url := res.Href } else endpoint
  match env.ObjectUrl endpoint "batch" with
  | .error err => .error err
  | .ok u =>
      match newBatchClientRequest env "POST" u with
      | .error err => .error err
      | .ok req =>
          let h := req.Header.Set "Accept" mediaType
          .ok { req with Header := res.Header.foldl (fun (h : Header) kv => h.Set kv.1 kv.2) h }

/-- What an API request gives back: `(res, nil)` or `(res, wErr)` with `wErr` not
nil, where `res` may then be nil. -/
inductive ApiOutcome where
  | ok (res : Response)
  | failed (res : Option Response) (wErr : WrappedError)
deriving DecidableEq, Repr

/-- The function `doApiRequestWithRedirects`. The recursion on a 307 answer has no
bound of its own, so the depth is limited by `fuel`; `none` is fuel exhaustion. -/
def doApiRequestWithRedirects {σ : Type} (env : ClientEnv σ) :
    Nat → Request → List Request → Bool → σ → Option (ApiOutcome × σ)
  | 0, _, _, _, _ => none
  | fuel + 1, req, via, useCreds, s =>
      let credsResult : Except GoError (Option Creds) × σ :=
        if useCreds then
          match env.getCredsForAPI req s with
          | (.error err, s1) => (.error err, s1)
          | (.ok c, s1) => (.ok (some c), s1)
        else (.ok none, s)
      match credsResult with
      | (.error err, s1) => some (.failed none (Error env.errorPanic err), s1)
      | (.ok creds, s1) =>
          match doHttpRequest env req creds s1 with
          | ((res, some wErr), s2) => some (.failed (some res) wErr, s2)
          | ((res, none), s2) =>
              if res.StatusCode = 307 then
                let location := res.Header.Get "Location"
                let redirectTo :=
                  match env.parseUrl location with
                  | some false => env.ResolveReference req.URL location
                  | _ => location
                match newClientRequest env req.Method redirectTo [] with
                | .error err =>
                    some (.failed (some res) (Errorf env.errorPanic (some err) err.Error), s2)
                | .ok redirectedReq =>
                    let via := via ++ [req]
                    let realBody :=
                      match req.Body with
                      | .counting inner => inner
                      | b => b
                    match realBody with
                    | .reader data _ .seeks =>
                        let redirectedReq := { redirectedReq with
                          Body := .reader data 0 .seeks, ContentLength := req.ContentLength }
                        match env.checkRedirect redirectedReq via with
                        | some err =>
                            some (.failed (some res)
                              (Errorf env.errorPanic (some err) err.Error), s2)
                        | none => doApiRequestWithRedirects env fuel redirectedReq via useCreds s2
                    | .reader _ _ (.fails err) =>
                        some (.failed (some res) (Error env.errorPanic (.plain err)), s2)
                    | _ =>
                        some (.failed (some res) (Errorf env.errorPanic none
                          "Request body needs to be an io.Seeker to handle redirects."), s2)
              else some (.ok res, s2)

/-- The function `doAPIRequest`. -/
def doAPIRequest {σ : Type} (env : ClientEnv σ) (fuel : Nat) (req : Request) (s : σ) :
    Option (ApiOutcome × σ) :=
  let useCreds :=
    if req.Method = "GET" ∨ req.Method = "HEAD" then env.PrivateAccess s else true
  doApiRequestWithRedirects env fuel req [] useCreds s

/-- What `doApiBatchRequest` gives back: the response (nil only with an error), the
decoded objects and the error. -/
structure BatchOutcome where
  res : Option Response
  objs : List objectResource
  wErr : Option WrappedError
deriving DecidableEq, Repr

/-- The function `doApiBatchRequest`. -/
def doApiBatchRequest {σ : Type} (env : ClientEnv σ) (fuel : Nat) (req : Request) (s : σ) :
    Option (BatchOutcome × σ) :=
  match doAPIRequest env fuel req s with
  | none => none
  | some (.failed res wErr, s1) => some ({ res := res, objs := [], wErr := some wErr }, s1)
  | some (.ok res, s1) =>
      match decodeApiResponse env.errorPanic env.codec.decodeObjects res [] with
      | (objs, some wErr) =>
          some ({ res := some res, objs := objs,
                  wErr := some (setErrorResponseContext env wErr res s1) }, s1)
      | (objs, none) => some ({ res := some res, objs := objs, wErr := none }, s1)

/-- The request `Batch` sends: the request of `newBatchApiRequest` with the
marshalled body and its content headers. -/
def batchRequest (req : Request) (body : String) : Request :=
  { req with
    Header := (req.Header.Set "Content-Type" mediaType).Set "Content-Length"
      (toString body.utf8ByteSize)
    ContentLength := body.utf8ByteSize
    Body := .reader body 0 .seeks }

/-- The function `Batch`. It calls itself after a 401 answer with nothing that
bounds the recursion, so the depth is limited by `fuel`; `none` is fuel exhaustion. -/
def Batch {σ : Type} (env : ClientEnv σ) :
    Nat → List objectResource → String → σ →
      Option (Except WrappedError (List objectResource) × σ)
  | 0, _, _, _ => none
  | fuel + 1, objects, operation, s =>
      if objects.length = 0 then some (.ok [], s)
      else
        match env.codec.marshalBatch objects operation with
        | .error err => some (.error (Error env.errorPanic err), s)
        | .ok body =>
            match newBatchApiRequest env s with
            | .error err => some (.error (Error env.errorPanic err), s)
            | .ok req0 =>
                let req := batchRequest req0 body
                match doApiBatchRequest env (fuel + 1) req s with
                | none => none
                | some (out, s1) =>
                    match out.res with
                    | none =>
                        match out.wErr with
                        | some wErr => some (.error wErr, s1)
                        | none => some (.ok out.objs, s1)
                    | some res =>
                        if out.wErr.isSome ∧ res.StatusCode = 401 then
                          Batch env fuel objects operation (env.SetPrivateAccess s1)
                        else if out.wErr.isSome ∧ (res.StatusCode = 404 ∨ res.StatusCode = 410) then
                          some (.error (Error env.errorPanic newNotImplError), s1)
                        else if res.StatusCode ≠ 200 then
                          some (.error (Error env.errorPanic (.plain
                            ("Invalid status for " ++ req.Method ++ " " ++ req.URL ++ ": " ++
                              toString res.StatusCode))), s1)
                        else some (.ok out.objs, s1)

/-! ## URLs (`net/url`), as far as redirects need them -/

/-- The parts of a `url.URL`, without percent-escaping; the user information, when
there is one, stays in `Host`. -/
structure URL where
  Scheme : List Char
  Opaque : List Char
  Host : List Char
  Path : List Char
  RawQuery : List Char
  Fragment : List Char
deriving DecidableEq, Repr

/-- The text before the first occurrence of `sep` and the text after it, if any. -/
def cutAt (sep : Char) : List Char → List Char × Option (List Char)
  | [] => ([], none)
  | c :: cs =>
      if c = sep then ([], some cs)
      else ((cutAt sep cs).1.cons c, (cutAt sep cs).2)

/-- The function `getscheme` of `net/url`: the scheme and the rest, `none` when the
text begins with a colon ("missing protocol scheme"). -/
def getscheme (rawurl : List Char) : Option (List Char × List Char) :=
  let rec go : List Char → List Char → Option (List Char × List Char)
    | _, [] => some ([], rawurl)
    | seen, c :: cs =>
        if c.isAlpha then go (seen ++ [c]) cs
        else if c.isDigit ∨ c = '+' ∨ c = '-' ∨ c = '.' then
          if seen = [] then some ([], rawurl) else go (seen ++ [c]) cs
        else if c = ':' then
          if seen = [] then none else some (seen, cs)
        else some ([], rawurl)
  go [] rawurl

/-- The function `url.Parse`, for text without percent-escapes and control
characters: `none` is a parse error. -/
def urlParse (rawurl : String) : Option URL :=
  let (beforeFrag, frag) := cutAt '#' rawurl.data
  match getscheme beforeFrag with
  | none => none
  | some (scheme, rest) =>
      let (rest, query) := cutAt '?' rest
      if scheme ≠ [] ∧ rest.head? ≠ some '/' then
        some { Scheme := scheme, Opaque := rest, Host := [], Path := [],
               RawQuery := query.getD [], Fragment := frag.getD [] }
      else
        match rest with
        | '/' :: '/' :: authorityAndPath =>
            let host := authorityAndPath.takeWhile (fun c => c ≠ '/')
            let path := authorityAndPath.dropWhile (fun c => c ≠ '/')
            some { Scheme := scheme, Opaque := [], Host := host, Path := path,
                   RawQuery := query.getD [], Fragment := frag.getD [] }
        | _ =>
            some { Scheme := scheme, Opaque := [], Host := [], Path := rest,
                   RawQuery := query.getD [], Fragment := frag.getD [] }

/-- The method `(*URL).IsAbs`. -/
def URL.IsAbs (u : URL) : Bool := u.Scheme ≠ []

/-- The function `strings.Split(s, "/")`. -/
def splitSlash : List Char → List (List Char)
  | [] => [[]]
  | c :: cs =>
      if c = '/' then [] :: splitSlash cs
      else
        match splitSlash cs with
        | [] => [[c]]
        | first :: others => (c :: first) :: others

/-- The function `strings.Join(elems, "/")`. -/
def joinSlash : List (List Char) → List Char
  | [] => []
  | [e] => e
  | e :: es => e ++ '/' :: joinSlash es

/-- The text up to and including the last `/`, that is `base[:i+1]` for
`i = strings.LastIndex(base, "/")`. -/
def uptoLastSlash (base : List Char) : List Char :=
  (base.reverse.dropWhile (fun c => c ≠ '/')).reverse

/-- The function `resolvePath` of `net/url`. -/
def resolvePath (base ref : List Char) : List Char :=
  let full :=
    match ref with
    | [] => base
    | c :: _ => if c ≠ '/' then uptoLastSlash base ++ ref else ref
  if full = [] then []
  else
    let src := splitSlash full
    let dst := src.foldl
      (fun (dst : List (List Char)) elem =>
        if elem = ['.'] then dst
        else if elem = ['.', '.'] then dst.dropLast
        else dst ++ [elem])
      []
    let dst :=
      if src.getLast? = some ['.'] ∨ src.getLast? = some ['.', '.'] then dst ++ [[]] else dst
    '/' :: (joinSlash dst).dropWhile (fun c => c = '/')

/-- The method `(*URL).ResolveReference`. -/
def URL.ResolveReference (u ref : URL) : URL :=
  let url := if ref.Scheme = [] then { ref with Scheme := u.Scheme } else ref
  if ref.Scheme ≠ [] ∨ ref.Host ≠ [] then
    { url with Path := resolvePath ref.Path [] }
  else if ref.Opaque ≠ [] then
    { url with Host := [], Path := [] }
  else
    let url :=
      if ref.Path = [] ∧ ref.RawQuery = [] then
        { url with RawQuery := u.RawQuery,
                   Fragment := if ref.Fragment = [] then u.Fragment else url.Fragment }
      else url
    { url with Host := u.Host, Path := resolvePath u.Path ref.Path }

/-- The method `(*URL).String`. -/
def URL.String (u : URL) : String :=
  let scheme := if u.Scheme ≠ [] then u.Scheme ++ [':'] else []
  let body :=
    if u.Opaque ≠ [] then u.Opaque
    else
      (if u.Scheme ≠ [] ∨ u.Host ≠ [] then '/' :: '/' :: u.Host else []) ++
        (if u.Path ≠ [] ∧ u.Path.head? ≠ some '/' ∧ u.Host ≠ [] then ['/'] else []) ++ u.Path
  let query := if u.RawQuery ≠ [] then '?' :: u.RawQuery else []
  let fragment := if u.Fragment ≠ [] then '#' :: u.Fragment else []
  String.mk (scheme ++ body ++ query ++ fragment)

/-- The call `url.Parse(s)` as the client uses it: `none` on error, else whether
the URL is absolute. -/
def parseUrlIsAbs (s : String) : Option Bool := (urlParse s).map URL.IsAbs

/-- The call `base.ResolveReference(ref).String()` on the texts of two URLs that
parse; the reference itself otherwise. -/
def resolveReferenceString (base ref : String) : String :=
  match urlParse base, urlParse ref with
  | some b, some r => (b.ResolveReference r).String
  | _, _ => ref

/-! ## Descriptions used to state the properties of redirects -/

/-- The credentials `doApiRequestWithRedirects` attaches: those of
`getCredsForAPI` when `useCreds` is set, none otherwise. -/
def apiCreds {σ : Type} (env : ClientEnv σ) (useCreds : Bool) (req : Request) (s : σ) :
    Except GoError (Option Creds) × σ :=
  if useCreds then
    match env.getCredsForAPI req s with
    | (.error err, s1) => (.error err, s1)
    | (.ok c, s1) => (.ok (some c), s1)
  else (.ok none, s)

/-- The "real" body of a request: what a `*countingReadCloser` wraps, or the body
itself. -/
def realBody (b : Body) : Body :=
  match b with
  | .counting inner => inner
  | b => b

/-- Whether a body is an `io.Seeker`. -/
def Body.isSeeker : Body → Bool
  | .reader _ _ .seeks => true
  | .reader _ _ (.fails _) => true
  | _ => false

/-- Where a 307 answer to `req` sends the client: the `Location` header, resolved
against the URL of `req` when it parses as a URL that is not absolute. -/
def redirectTarget {σ : Type} (env : ClientEnv σ) (req : Request) (res : Response) : String :=
  match env.parseUrl (res.Header.Get "Location") with
  | some false => env.ResolveReference req.URL (res.Header.Get "Location")
  | _ => res.Header.Get "Location"

/-- The request `doApiRequestWithRedirects` re-issues after a 307 answer `res` to
`req` whose real body is a seekable reader over `data`: a new request for the
redirect target with the method of `req`, the body rewound to offset 0 and the
content length of `req`. -/
def redirectedRequest {σ : Type} (env : ClientEnv σ) (req : Request) (res : Response)
    (data : String) : Request :=
  { Method := req.Method
    URL := redirectTarget env req res
    Header := Header.Set [] "User-Agent" env.UserAgent
    Body := .reader data 0 .seeks
    ContentLength := req.ContentLength }

/-- An environment that keeps, next to the state of `env`, the list of the
requests handed to `Do`, in the order they were sent. -/
def withRequestLog {σ : Type} (env : ClientEnv σ) : ClientEnv (σ × List Request) where
  UserAgent := env.UserAgent
  errorPanic := env.errorPanic
  codec := env.codec
  Endpoint := fun s => env.Endpoint s.1
  sshAuthenticate := fun e operation oid s => env.sshAuthenticate e operation oid s.1
  ObjectUrl := env.ObjectUrl
  NewRequest := env.NewRequest
  Do := fun req s => ((env.Do req s.1).1, ((env.Do req s.1).2, s.2 ++ [req]))
  getCredsForAPI := fun req s => ((env.getCredsForAPI req s.1).1, ((env.getCredsForAPI req s.1).2, s.2))
  saveCredentials := fun creds res s => (env.saveCredentials creds res s.1, s.2)
  PrivateAccess := fun s => env.PrivateAccess s.1
  SetPrivateAccess := fun s => (env.SetPrivateAccess s.1, s.2)
  parseUrl := env.parseUrl
  ResolveReference := env.ResolveReference
  checkRedirect := env.checkRedirect

/-! ## Transfer protocol client: the legacy API and uploads -/

/-- The function `newApiRequest`; an error of `sshAuthenticate` is only traced. -/
def newApiRequest {σ : Type} (env : ClientEnv σ) (method oid : String) (s : σ) :
    Except GoError Request :=
  let endpoint := env.Endpoint s
  let objectOid := if method = "POST" ∧ oid ≠ "batch" then "" else oid
  let operation := if method = "POST" ∧ oid ≠ "batch" then "upload" else "download"
  let res := (env.sshAuthenticate endpoint operation oid s).1
  let endpoint := if res.Href.length > 0 then { endpoint with Url := res.Href } else endpoint
  match env.ObjectUrl endpoint objectOid with
  | .error err => .error err
  | .ok u =>
      match newClientRequest env method u res.Header with
      | .error err => .error err
      | .ok req => .ok { req with Header := req.Header.Set "Accept" mediaType }

/-- The method `(*objectResource).Rel`: the relation of that name in `Actions`
when `Actions` is not nil, in `Links` otherwise. -/
def objectResource.Rel (o : objectResource) (name : String) : Option linkRelation :=
  match o.Actions with
  | some actions => actions.lookup name
  | none => (o.Links.getD []).lookup name

/-- What `(*objectResource).NewRequest` gives back: a request, the error
`objectRelationDoesNotExist`, or the error of `newClientRequest`. -/
inductive RelRequest where
  | ok (req : Request)
  | doesNotExist
  | failed (err : GoError)
deriving DecidableEq, Repr

/-- The error value `objectRelationDoesNotExist`. -/
def objectRelationDoesNotExist : GoError := .plain "relation does not exist"

/-- The method `(*objectResource).NewRequest`. -/
def objectResource.NewRequest {σ : Type} (env : ClientEnv σ) (o : objectResource)
    (relation method : String) : RelRequest :=
  match o.Rel relation with
  | none => .doesNotExist
  | some rel =>
      match newClientRequest env method rel.Href rel.Header with
      | .error err => .failed err
      | .ok req => .ok req

/-- What `doLegacyApiRequest` gives back: `(res, obj, nil)` or an error, with
which the response may be nil. -/
inductive LegacyOutcome where
  | ok (res : Response) (obj : objectResource)
  | failed (res : Option Response) (wErr : WrappedError)
deriving DecidableEq, Repr

/-- The function `doLegacyApiRequest`. -/
def doLegacyApiRequest {σ : Type} (env : ClientEnv σ) (fuel : Nat) (req : Request) (s : σ) :
    Option (LegacyOutcome × σ) :=
  match doApiRequestWithRedirects env fuel req [] true s with
  | none => none
  | some (.failed res wErr, s1) => some (.failed res wErr, s1)
  | some (.ok res, s1) =>
      match decodeApiResponse env.errorPanic env.codec.decodeObject res
        { Oid := "", Size := 0, Actions := none, Links := none, Error := none } with
      | (_, some wErr) => some (.failed none (setErrorResponseContext env wErr res s1), s1)
      | (obj, none) => some (.ok res obj, s1)

/-- Collaborators of the transfer functions beyond those of the API client: the
local file system and the credentials of storage requests. -/
structure TransferEnv (σ : Type) where
  client : ClientEnv σ
  /-- The function `filepath.Base`. -/
  Base : String → String
  /-- The size reported by `os.Stat(path)`, or its error. -/
  Stat : String → σ → Except GoError Int
  /-- The function `LocalMediaPath(oid)`. -/
  LocalMediaPath : String → σ → Except GoError String × σ
  /-- The call `os.Open(path)`: the content the file gives when read, or the error. -/
  Open : String → σ → Except GoError String
  /-- The function `getCreds(req)`. -/
  getCreds : Request → σ → Except GoError (Option Creds) × σ
  /-- The call `json.Marshal` on an object resource. -/
  marshalObject : objectResource → Except GoError String

/-- The function `doStorageRequest`: the error, or the response when there is none. -/
def doStorageRequest {σ : Type} (env : TransferEnv σ) (req : Request) (s : σ) :
    Except WrappedError Response × σ :=
  match env.getCreds req s with
  | (.error err, s1) => (.error (Error env.client.errorPanic err), s1)
  | (.ok creds, s1) =>
      match doHttpRequest env.client req creds s1 with
      | ((_, some wErr), s2) => (.error wErr, s2)
      | ((res, none), s2) => (.ok res, s2)

/-- The function `UploadCheck`: `(nil, nil)` is `.ok none`. -/
def UploadCheck {σ : Type} (env : TransferEnv σ) (fuel : Nat) (oidPath : String) (s : σ) :
    Option (Except WrappedError (Option objectResource) × σ) :=
  let oid := env.Base oidPath
  match env.Stat oidPath s with
  | .error err => some (.error (Error env.client.errorPanic err), s)
  | .ok size =>
      let reqObj : objectResource :=
        { Oid := oid, Size := size, Actions := none, Links := none, Error := none }
      match env.marshalObject reqObj with
      | .error err => some (.error (Error env.client.errorPanic err), s)
      | .ok body =>
          match newApiRequest env.client "POST" oid s with
          | .error err => some (.error (Error env.client.errorPanic err), s)
          | .ok req0 =>
              match doLegacyApiRequest env.client fuel (batchRequest req0 body) s with
              | none => none
              | some (.failed _ wErr, s1) => some (.error wErr, s1)
              | some (.ok res obj, s1) =>
                  if res.StatusCode = 200 then some (.ok none, s1)
                  else
                    some (.ok (some { obj with
                      Oid := if obj.Oid = "" then oid else obj.Oid
                      Size := if obj.Size = 0 then reqObj.Size else obj.Size }), s1)

/-- The request `UploadObject` sends to the `upload` relation: the content headers
are completed and the body is the local file behind a `CallbackReader`, wrapped by
`ioutil.NopCloser` (which is no `io.Seeker`). -/
def uploadRequest (o : objectResource) (req : Request) (content : String) : Request :=
  let h :=
    if (req.Header.Get "Content-Type").length = 0 then
      req.Header.Set "Content-Type" "application/octet-stream"
    else req.Header
  { req with
    Header :=
      if h.Get "Transfer-Encoding" = "chunked" then h
      else h.Set "Content-Length" (toString o.Size)
    TransferEncoding := if h.Get "Transfer-Encoding" = "chunked" then [ "chunked" ] else []
    ContentLength := o.Size
    Body := .reader content 0 .notSeeker }

/-- The request `UploadObject` sends to the `verify` relation: the marshalled
object behind `ioutil.NopCloser`. -/
def verifyRequest (req : Request) (body : String) : Request :=
  { req with
    Header := (req.Header.Set "Content-Type" mediaType).Set "Content-Length"
      (toString body.utf8ByteSize)
    ContentLength := body.utf8ByteSize
    Body := .reader body 0 .notSeeker }

/-- The function `UploadObject`: `none` in the result is the nil error. -/
def UploadObject {σ : Type} (env : TransferEnv σ) (fuel : Nat) (o : objectResource) (s : σ) :
    Option (Option WrappedError × σ) :=
  match env.LocalMediaPath o.Oid s with
  | (.error err, s1) => some (some (Error env.client.errorPanic err), s1)
  | (.ok path, s1) =>
      match env.Open path s1 with
      | .error err => some (some (Error env.client.errorPanic err), s1)
      | .ok content =>
          match o.NewRequest env.client "upload" "PUT" with
          | .doesNotExist =>
              some (some (Error env.client.errorPanic objectRelationDoesNotExist), s1)
          | .failed err => some (some (Error env.client.errorPanic err), s1)
          | .ok req0 =>
              let req := uploadRequest o req0 content
              match doStorageRequest env req s1 with
              | (.error wErr, s2) => some (some wErr, s2)
              | (.ok res, s2) =>
                  if res.StatusCode > 299 then
                    some (some (Errorf env.client.errorPanic none
                      ("Invalid status for " ++ req.Method ++ " " ++ req.URL ++ ": " ++
                        toString res.StatusCode)), s2)
                  else
                    match o.NewRequest env.client "verify" "POST" with
                    | .doesNotExist => some (none, s2)
                    | .failed err => some (some (Error env.client.errorPanic err), s2)
                    | .ok vreq0 =>
                        match env.marshalObject o with
                        | .error err => some (some (Error env.client.errorPanic err), s2)
                        | .ok body =>
                            match doAPIRequest env.client fuel (verifyRequest vreq0 body) s2 with
                            | none => none
                            | some (.failed _ wErr, s3) => some (some wErr, s3)
                            | some (.ok _, s3) => some (none, s3)

/-- A transfer environment that keeps the list of the requests sent, as
`withRequestLog` does for the client. -/
def withTransferLog {σ : Type} (env : TransferEnv σ) : TransferEnv (σ × List Request) where
  client := withRequestLog env.client
  Base := env.Base
  Stat := fun path s => env.Stat path s.1
  LocalMediaPath := fun oid s => ((env.LocalMediaPath oid s.1).1, ((env.LocalMediaPath oid s.1).2, s.2))
  Open := fun path s => env.Open path s.1
  getCreds := fun req s => ((env.getCreds req s.1).1, ((env.getCreds req s.1).2, s.2))
  marshalObject := env.marshalObject

/-- The error of an API request, nil when it succeeded. -/
def ApiOutcome.wErr : ApiOutcome → Option WrappedError
  | .ok _ => none
  | .failed _ wErr => some wErr

/-! ## The content store layout (`gitmedia/gitmedia.go`) -/

/-- The bytes of a text of ASCII characters. A Go string is a sequence of bytes,
and the paths of the content store are kept as such. -/
def asciiBytes (s : String) : List Nat := s.data.map Char.toNat

/-- The slice `s[i:j]` of a Go string, given by its bytes. -/
def goSlice (s : List Nat) (i j : Nat) : List Nat := (s.drop i).take (j - i)

/-- The function `strings.Split(s, sep)` on bytes, for a one-byte separator. -/
def splitByte (sep : Nat) : List Nat → List (List Nat)
  | [] => [[]]
  | c :: cs =>
      if c = sep then [] :: splitByte sep cs
      else
        match splitByte sep cs with
        | [] => [[c]]
        | first :: others => (c :: first) :: others

/-- One path element met while cleaning a path below the root: an empty element
and `.` are dropped, `..` removes the element before it (nothing at the root), any
other element is appended. -/
def pathStep (p : List (List Nat)) (c : List Nat) : List (List Nat) :=
  if c = [] ∨ c = [46] then p
  else if c = [46, 46] then p.dropLast
  else p ++ [c]

/-- The function `filepath.Join(dir, elems...)` for an absolute, already cleaned
`dir`, with Unix separators: paths are kept as the list of their elements below the
root, which is the form `filepath.Clean` brings them to. -/
def filepathJoin (dir : List (List Nat)) (elems : List (List Nat)) : List (List Nat) :=
  (elems.flatMap (splitByte 47)).foldl pathStep dir

/-- The text of an absolute cleaned path. -/
def pathString (p : List (List Nat)) : List Nat := 47 :: [47].intercalate p

/-- What `LocalMediaPath` does: it returns a path, returns an error with a message,
or panics on a slice out of range. -/
inductive MediaPathResult where
  | path (p : List (List Nat))
  | error (msg : List Nat)
  | panics
deriving DecidableEq, Repr

/-- The function `LocalMediaPath` of `gitmedia.go`; `sha` is given by its bytes,
`LocalMediaDir` is the store root, an absolute cleaned path, and `MkdirAll` is
`os.MkdirAll(path, 0744)`. The slices `sha[0:2]` and `sha[2:4]` panic on fewer than
four bytes. -/
def LocalMediaPath {σ : Type} (MkdirAll : List (List Nat) → σ → Option (List Nat) × σ)
    (LocalMediaDir : List (List Nat)) (sha : List Nat) (s : σ) : MediaPathResult × σ :=
  if sha.length < 4 then (.panics, s)
  else
    let path := filepathJoin LocalMediaDir [goSlice sha 0 2, goSlice sha 2 4]
    match MkdirAll path s with
    | (some err, s1) =>
        (.error (asciiBytes "Error trying to create local media directory in '" ++
          pathString path ++ asciiBytes "': " ++ err), s1)
    | (none, s1) => (.path (filepathJoin path [sha]), s1)

/-- An oid, given by its bytes, made of hexadecimal digits. -/
def hexBytes (oid : List Nat) : Prop :=
  ∀ b ∈ oid, (48 ≤ b ∧ b ≤ 57) ∨ (97 ≤ b ∧ b ≤ 102) ∨ (65 ≤ b ∧ b ≤ 70)

instance hexBytes.decidable (oid : List Nat) : Decidable (hexBytes oid) := by
  unfold hexBytes
  infer_instance

/-- An oid made of lowercase hexadecimal digits. -/
def hexOid (oid : String) : Prop :=
  ∀ c ∈ oid.data, ('0' ≤ c ∧ c ≤ '9') ∨ ('a' ≤ c ∧ c ≤ 'f')

/-! ## Cleaning content into a pointer (`lfs/pointer_clean.go`, `pointer/clean.go`) -/

/-- Modelled from the spec: `lfs.PointerExtension` (its declaration is not part of
the embedded files), the record a content extension leaves in a pointer. -/
structure PointerExtension where
  Name : String
  Priority : Int
deriving DecidableEq, Repr

/-- Modelled from the spec: `lfs.Extension` (its declaration is not part of the
embedded files), a configured content extension with its priority. -/
structure Extension where
  Name : String
  Priority : Int
deriving DecidableEq, Repr

/-- The `error` values met while cleaning: the sentinel `NotAPointerError`, the
`*CleanedPointerError` of `pointer_clean.go` with the pointer decoded and the bytes
read, and any other error with its message. -/
inductive CleanError where
  | NotAPointerError
  | CleanedPointerError (Pointer : Option Pointer) (Bytes : List Nat)
  | other (msg : String)
deriving DecidableEq, Repr

/-- An `io.Reader`: the bytes it still delivers, and the error it reports after
them (`none` for a plain end of stream). -/
structure Reader where
  data : List Nat
  failure : Option CleanError := none
deriving DecidableEq, Repr

/-- The temporary directory: whether `TempFile` has already made sure that it
exists (`checkedTempDir == TempDir`), and its files with their contents. -/
structure TempState where
  checkedTempDir : Bool
  files : List (String × List Nat)
deriving DecidableEq, Repr

/-- The struct `cleanedAsset`: the name of the temporary file and the pointer, kept
as its oid and size with its extensions beside it. -/
structure cleanedAsset where
  Filename : String
  Pointer : Pointer
  Extensions : List PointerExtension
deriving DecidableEq, Repr

/-- What cleaning calls outside of `pointer_clean.go`: the sorted configured
extensions, `os.MkdirAll(TempDir)`, the name `ioutil.TempFile` picks, `DecodeFrom`
(the bytes read, the pointer decoded, the error, and the reader after the read),
`crypto/sha256`, `os.Open`, `pipeExtensions` and `os.Stat`. -/
structure CleanEnv where
  SortExtensions : Except CleanError (List Extension)
  MkdirAll : TempState → Option CleanError
  ioutilTempFile : List (String × List Nat) → Except CleanError String
  DecodeFrom : Reader → (List Nat × Option Pointer × Option CleanError) × Reader
  sha256 : List Nat → List Nat
  Open : String → TempState → Option CleanError
  pipeExtensions : String → String → String → List Extension → TempState →
    Except CleanError (String × String × List PointerExtension) × TempState
  Stat : String → TempState → Except CleanError Int

/-- The function `TempFile` of `gitmedia.go` (lines 29-38), with an empty name
prefix: the directory is created on the first call, then a new empty file is. -/
def TempFile (env : CleanEnv) (st : TempState) : Except CleanError String × TempState :=
  match (if st.checkedTempDir then none else env.MkdirAll st) with
  | some err => (.error err, st)
  | none =>
      match env.ioutilTempFile st.files with
      | .error err => (.error err, { st with checkedTempDir := true })
      | .ok name =>
          (.ok name, { checkedTempDir := true, files := st.files ++ [(name, [])] })

/-- Writing to the open temporary file: the bytes are appended to its contents. -/
def writeFile (st : TempState) (name : String) (bytes : List Nat) : TempState :=
  { st with files := st.files.map (fun f => if f.1 = name then (f.1, f.2 ++ bytes) else f) }

/-- One byte in lowercase hexadecimal, two digits. -/
def hexByte (b : Nat) : List Char :=
  ["0123456789abcdef".data.getD (b / 16 % 16) '0', "0123456789abcdef".data.getD (b % 16) '0']

/-- The function `hex.EncodeToString`. -/
def hexEncode (bytes : List Nat) : String := String.mk (bytes.flatMap hexByte)

/-- Modelled from the spec: `NewPointer` (its declaration is not part of the
embedded files) builds the pointer of the given oid, size and extensions. -/
def NewPointer (oid : String) (size : Int) (exts : List PointerExtension) :
    Pointer × List PointerExtension :=
  ({ Oid := oid, Size := size }, exts)

/-- Modelled from the spec: `CopyWithCallback` (its declaration is not part of the
embedded files) copies the stream to the writer while reporting progress against
the declared total; it returns what `io.Copy` does, the number of bytes written
(`int64`) and the error that ended the copy. The bytes written are returned too. -/
def CopyWithCallback (reader : Reader) (_totalSize : Int) :
    List Nat × Int × Option CleanError :=
  (reader.data, wrapInt64 reader.data.length, reader.failure)

/-- The function `copyToTemp` of `pointer_clean.go`. On an error the caller uses
none of the other results, so the result is the error or the oid, the size and the
name of the temporary file. The writer feeds the hash and the file; the progress
callback has no part in the result. -/
def copyToTemp (env : CleanEnv) (reader : Reader) (fileSize : Int) (st : TempState) :
    Except CleanError (String × Int × String) × TempState :=
  match TempFile env st with
  | (.error err, st1) => (.error err, st1)
  | (.ok tmp, st1) =>
      match env.DecodeFrom reader with
      | ((bytes, ptr, err), rest) =>
          if err.isNone ∧ bytes.length < 512 then
            (.error (.CleanedPointerError ptr bytes), st1)
          else
            let multi : Reader := { data := bytes ++ rest.data, failure := rest.failure }
            match CopyWithCallback multi fileSize with
            | (written, _, some err2) => (.error err2, writeFile st1 tmp written)
            | (written, size, none) =>
                (.ok (hexEncode (env.sha256 written), size, tmp), writeFile st1 tmp written)

/-- The function `PointerClean` of `pointer_clean.go`. -/
def PointerClean (env : CleanEnv) (reader : Reader) (fileName : String) (fileSize : Int)
    (st : TempState) : Except CleanError cleanedAsset × TempState :=
  match env.SortExtensions with
  | .error err => (.error err, st)
  | .ok extensions =>
      match copyToTemp env reader fileSize st with
      | (.error err, st1) => (.error err, st1)
      | (.ok (oid, size, tmp), st1) =>
          if extensions.length > 0 then
            match env.Open tmp st1 with
            | some err => (.error err, st1)
            | none =>
                match env.pipeExtensions tmp oid fileName extensions st1 with
                | (.error err, st2) => (.error err, st2)
                | (.ok (oid2, tmp2, exts), st2) =>
                    match env.Stat tmp2 st2 with
                    | .error err => (.error err, st2)
                    | .ok size2 =>
                        (.ok { Filename := tmp2, Pointer := (NewPointer oid2 size2 exts).1,
                               Extensions := (NewPointer oid2 size2 exts).2 }, st2)
          else
            (.ok { Filename := tmp, Pointer := (NewPointer oid size []).1,
                   Extensions := (NewPointer oid size []).2 }, st1)

/-- The method `Teardown` of `cleanedAsset`: `os.Remove(a.Filename)`. -/
def cleanedAsset.Teardown (a : cleanedAsset) (st : TempState) : Option CleanError × TempState :=
  if st.files.any (fun f => f.1 = a.Filename) then
    (none, { st with files := st.files.filter (fun f => f.1 ≠ a.Filename) })
  else (some (.other ("remove " ++ a.Filename ++ ": no such file or directory")), st)

/-- The function `Clean` of `pointer/clean.go`: everything read is hashed and
written to a temporary file; the asset is returned together with the error of the
copy. -/
def pointer.Clean (env : CleanEnv) (reader : Reader) (st : TempState) :
    (Option cleanedAsset × Option CleanError) × TempState :=
  match TempFile env st with
  | (.error err, st1) => ((none, some err), st1)
  | (.ok tmp, st1) =>
      ((some { Filename := tmp,
               Pointer := (NewPointer (hexEncode (env.sha256 reader.data))
                 (wrapInt64 reader.data.length) []).1,
               Extensions := [] }, reader.failure), writeFile st1 tmp reader.data)

/-- A stand-in for `crypto/sha256` in concrete runs: the sum of the bytes and their
number, as two bytes. -/
def sumDigest (bytes : List Nat) : List Nat := [bytes.sum % 256, bytes.length % 256]

/-- A `DecodeFrom` for concrete runs: it reads up to 1024 bytes and takes them for a
pointer when they begin with the byte `v` of `version`. -/
def prefixDecodeFrom (reader : Reader) :
    (List Nat × Option Pointer × Option CleanError) × Reader :=
  let bytes := reader.data.take 1024
  let rest : Reader := { reader with data := reader.data.drop 1024 }
  if bytes.head? = some 118 then
    ((bytes, some { Oid := "0a", Size := 1 }, none), rest)
  else ((bytes, none, some .NotAPointerError), rest)

/-- An environment for concrete runs of cleaning: no extensions are configured,
the temporary directory can be created, and new files are named after the number of
files there. -/
def plainCleanEnv : CleanEnv where
  SortExtensions := .ok []
  MkdirAll := fun _ => none
  ioutilTempFile := fun files => .ok (String.mk (List.replicate (files.length + 1) 't'))
  DecodeFrom := prefixDecodeFrom
  sha256 := sumDigest
  Open := fun _ _ => none
  pipeExtensions := fun tmp oid _ _ st => (.ok (oid, tmp, []), st)
  Stat := fun _ _ => .ok 0

/-! ## The prune command (`pruneCommand` and `init` of `command_prune.go`) -/

/-- The package variables that hold the flags of prune. -/
inductive PruneVar where
  | pruneDryRunArg
  | pruneVerboseArg
  | pruneVerifyArg
  | pruneDoNotVerifyArg
deriving DecidableEq, Repr

/-- The values of the four flag variables. -/
structure PruneArgs where
  pruneDryRunArg : Bool
  pruneVerboseArg : Bool
  pruneVerifyArg : Bool
  pruneDoNotVerifyArg : Bool
deriving DecidableEq, Repr

/-- A registration `Flags().BoolVarP(&v, name, shorthand, false, usage)`: the
variable the flag is stored in, its name and its one-letter shorthand (empty for
`BoolVar`). -/
structure BoolFlag where
  target : PruneVar
  name : String
  shorthand : String
deriving DecidableEq, Repr

/-- The registrations of `init` (lines 287-290), in order. -/
def pruneFlags : List BoolFlag :=
  [ { target := .pruneDryRunArg, name := "dry-run", shorthand := "d" },
    { target := .pruneDryRunArg, name := "verbose", shorthand := "v" },
    { target := .pruneDryRunArg, name := "verify-remote", shorthand := "c" },
    { target := .pruneDryRunArg, name := "no-verify-remote", shorthand := "" } ]

/-- Storing a value through the pointer a flag was registered with. -/
def PruneArgs.store (a : PruneArgs) (v : PruneVar) (b : Bool) : PruneArgs :=
  match v with
  | .pruneDryRunArg => { a with pruneDryRunArg := b }
  | .pruneVerboseArg => { a with pruneVerboseArg := b }
  | .pruneVerifyArg => { a with pruneVerifyArg := b }
  | .pruneDoNotVerifyArg => { a with pruneDoNotVerifyArg := b }

/-- Whether a command-line argument names the flag: `--name`, or `-s` for its
shorthand. -/
def BoolFlag.matches (f : BoolFlag) (arg : String) : Bool :=
  arg == "--" ++ f.name || (f.shorthand != "" && arg == "-" ++ f.shorthand)

/-- Parsing of the command line by the flag set: each registration first stores its
default `false`, then every argument that names a flag stores `true` in the
variable that flag was registered with. -/
def parseFlags (flags : List BoolFlag) (args : List String) : PruneArgs :=
  let defaults := flags.foldl (fun a f => a.store f.target false)
    { pruneDryRunArg := false, pruneVerboseArg := false, pruneVerifyArg := false,
      pruneDoNotVerifyArg := false }
  args.foldl
    (fun a arg => flags.foldl (fun a f => if f.matches arg then a.store f.target true else a) a)
    defaults

/-- What `pruneCommand` ends in: `Exit` with a message, or the call of `prune`. -/
inductive PruneCall where
  | exit (msg : String)
  | prune (verifyRemote dryRun verbose : Bool)
deriving DecidableEq, Repr

/-- The function `pruneCommand`; `PruneVerifyRemoteAlways` is the value of
`lfs.Config.FetchPruneConfig().PruneVerifyRemoteAlways`. -/
def pruneCommand (PruneVerifyRemoteAlways : Bool) (a : PruneArgs) : PruneCall :=
  if a.pruneVerifyArg && a.pruneDoNotVerifyArg then
    .exit "Cannot specify both --verify-remote and --no-verify-remote"
  else
    let verify := !a.pruneDoNotVerifyArg && (PruneVerifyRemoteAlways || a.pruneVerifyArg)
    .prune verify a.pruneDryRunArg a.pruneVerboseArg

/-- A run of `pruneCmd` on a command line: the flags registered by `init` are
parsed, then `pruneCommand` runs. -/
def runPruneCmd (PruneVerifyRemoteAlways : Bool) (args : List String) : PruneCall :=
  pruneCommand PruneVerifyRemoteAlways (parseFlags pruneFlags args)

/-! ## The checkout command (`command_checkout.go`) -/

/-- What `checkoutCommand` ends in: `Panic` with a message, or the call
`checkoutWithIncludeExclude(include, nil)`. -/
inductive CheckoutCall where
  | panic (msg : String)
  | checkoutWithIncludeExclude (includePaths : List String)
deriving DecidableEq, Repr

/-- The function `checkoutCommand`; `ConvertCwdFilesRelativeToRepo` is the error of
`lfs.ConvertCwdFilesRelativeToRepo` or the conversion its channels perform. The
slice starts as `make([]string, len(args))`, and each conversion is appended. -/
def checkoutCommand (ConvertCwdFilesRelativeToRepo : Except String (String → String))
    (args : List String) : CheckoutCall :=
  let rootedpaths : List String := List.replicate args.length ""
  match ConvertCwdFilesRelativeToRepo with
  | .error _ => .panic "Could not checkout"
  | .ok convert =>
      .checkoutWithIncludeExclude
        (args.foldl (fun rootedpaths arg => rootedpaths ++ [convert arg]) rootedpaths)

/-- Modelled from the spec: `lfs.WrappedPointer` (its declaration is not part of
the embedded files), a pointer with the name of the file it stands for. -/
structure WrappedPointer where
  Name : String
  Pointer : Pointer
deriving DecidableEq, Repr

/-- What `lfs.DecodePointerFromFile` returns: a pointer, or an error, which is one
for which `os.IsNotExist` holds, the value `lfs.NotAPointerError`, or another. -/
inductive DecodeFileResult where
  | pointer (p : Pointer)
  | notExist (err : String)
  | NotAPointerError
  | otherError (err : String)
deriving DecidableEq, Repr

/-- What `checkoutWithChan` calls outside of `command_checkout.go`: the errors of
`cmd.StdinPipe()` and `cmd.Start()`, the converter of
`lfs.ConvertRepoFilesRelativeToCwd`, `lfs.DecodePointerFromFile`,
`lfs.PointerSmudgeToFile`, and `cmd.Wait()` of `git update-index` fed the lines
written to its input. -/
structure CheckoutEnv (σ : Type) where
  StdinPipe : Option String
  Start : Option String
  ConvertRepoFilesRelativeToCwd : Except String (String → String)
  DecodePointerFromFile : String → σ → DecodeFileResult
  PointerSmudgeToFile : String → Pointer → σ → Option String × σ
  Wait : List String → σ → Option String × σ

/-- What a run of `checkoutWithChan` has done so far: the lines written to the
input of `git update-index`, the message of `Panic` once it is called, and the state
of the working copy. -/
structure CheckoutLoop (σ : Type) where
  indexInput : List String
  panic : Option String
  state : σ

/-- Lines 119-126: the file content is written and the path handed to the index. -/
def checkoutWrite {σ : Type} (env : CheckoutEnv σ) (toCwd : String → String)
    (acc : CheckoutLoop σ) (pointer : WrappedPointer) : CheckoutLoop σ :=
  let cwdfilepath := toCwd pointer.Name
  match env.PointerSmudgeToFile cwdfilepath pointer.Pointer acc.state with
  | (some _, s1) =>
      { indexInput := acc.indexInput
        panic := some "Could not checkout file"
        state := s1 }
  | (none, s1) =>
      { indexInput := acc.indexInput ++ [cwdfilepath ++ "\n"]
        panic := none
        state := s1 }

/-- Body of `for pointer := range in` (lines 102-127); after `Panic` nothing runs. -/
def checkoutStep {σ : Type} (env : CheckoutEnv σ) (toCwd : String → String)
    (acc : CheckoutLoop σ) (pointer : WrappedPointer) : CheckoutLoop σ :=
  if acc.panic.isSome then acc
  else
    match env.DecodePointerFromFile pointer.Name acc.state with
    | .NotAPointerError => acc
    | .otherError _ => { acc with panic := some ("Problem accessing " ++ pointer.Name) }
    | .notExist _ => checkoutWrite env toCwd acc pointer
    | .pointer filepointer =>
        if filepointer.Oid ≠ pointer.Pointer.Oid then acc
        else checkoutWrite env toCwd acc pointer

/-- The function `checkoutWithChan`, given the pointers the channel delivers. -/
def checkoutWithChan {σ : Type} (env : CheckoutEnv σ) (pointers : List WrappedPointer)
    (s : σ) : CheckoutLoop σ :=
  let start : CheckoutLoop σ := { indexInput := [], panic := none, state := s }
  match env.StdinPipe with
  | some _ => { start with panic := some "Could not update the index" }
  | none =>
      match env.Start with
      | some _ => { start with panic := some "Could not update the index" }
      | none =>
          match env.ConvertRepoFilesRelativeToCwd with
          | .error _ => { start with panic := some "Could not convert file paths" }
          | .ok toCwd =>
              let r := pointers.foldl (checkoutStep env toCwd) start
              if r.panic.isSome then r
              else
                match env.Wait r.indexInput r.state with
                | (some _, s1) => { r with panic := some "Error updating the git index", state := s1 }
                | (none, s1) => { r with state := s1 }

/-- A working copy for concrete runs: the state lists the files with what they
hold, either a pointer of some oid or other content; smudging a file fills it with
content, paths are not converted and `git update-index` succeeds. -/
def listCheckoutEnv : CheckoutEnv (List (String × Option String)) where
  StdinPipe := none
  Start := none
  ConvertRepoFilesRelativeToCwd := .ok (fun path => path)
  DecodePointerFromFile := fun name s =>
    match s.lookup name with
    | none => .notExist "no such file or directory"
    | some none => .NotAPointerError
    | some (some oid) => .pointer { Oid := oid, Size := 1 }
  PointerSmudgeToFile := fun path _ s =>
    (none, (path, none) :: s.filter (fun f => f.1 != path))
  Wait := fun _ s => (none, s)

/-- What the environment of a checkout sees of a run: a call of
`lfs.PointerSmudgeToFile` with its path and pointer, and the end of the input of
`git update-index` with the lines it was given. -/
inductive CheckoutEvent where
  | smudge (path : String) (pointer : Pointer)
  | updateIndex (lines : List String)
deriving DecidableEq, Repr

/-- The environment `env` keeping a record, in its own state, of every call of
`PointerSmudgeToFile` and of `Wait`, in the order of the calls; the results and the
working copy are those of `env`. -/
def withCheckoutLog {σ : Type} (env : CheckoutEnv σ) :
    CheckoutEnv (σ × List CheckoutEvent) where
  StdinPipe := env.StdinPipe
  Start := env.Start
  ConvertRepoFilesRelativeToCwd := env.ConvertRepoFilesRelativeToCwd
  DecodePointerFromFile := fun name s => env.DecodePointerFromFile name s.1
  PointerSmudgeToFile := fun path pointer s =>
    ((env.PointerSmudgeToFile path pointer s.1).1,
      ((env.PointerSmudgeToFile path pointer s.1).2, s.2 ++ [.smudge path pointer]))
  Wait := fun lines s =>
    ((env.Wait lines s.1).1, ((env.Wait lines s.1).2, s.2 ++ [.updateIndex lines]))

/-- Modelled from the spec: the file is missing or currently decodes to a pointer
with the oid `oid`. -/
def fileMissingOrSamePointer (r : DecodeFileResult) (oid : String) : Bool :=
  match r with
  | .notExist _ => true
  | .pointer filepointer => filepointer.Oid == oid
  | .NotAPointerError => false
  | .otherError _ => false

/-- Modelled from the spec: what a checkout of `pointers` is to do to the working
copy `s`, built from `env.DecodePointerFromFile` and `env.PointerSmudgeToFile`
alone. Each pointer in turn is written if and only if its file is missing or holds
a pointer of the same oid, and then its path is a line for the index; a file that
cannot be read, or a write that fails, ends the run; at the end the index is given
the lines. -/
def checkoutEvents {σ : Type} (env : CheckoutEnv σ) (toCwd : String → String) :
    List WrappedPointer → List String → σ → List CheckoutEvent
  | [], lines, _ => [.updateIndex lines]
  | p :: rest, lines, s =>
      if fileMissingOrSamePointer (env.DecodePointerFromFile p.Name s) p.Pointer.Oid then
        .smudge (toCwd p.Name) p.Pointer ::
          (match env.PointerSmudgeToFile (toCwd p.Name) p.Pointer s with
           | (some _, _) => []
           | (none, s1) => checkoutEvents env toCwd rest (lines ++ [toCwd p.Name ++ "\n"]) s1)
      else
        match env.DecodePointerFromFile p.Name s with
        | .otherError _ => []
        | _ => checkoutEvents env toCwd rest lines s

/-! ## Endpoint access in the configuration (`lfs/config.go`) -/

/-- The type `AuthType`. -/
abbrev AuthType := String

/-- The constant `AuthTypeNone`. -/
def AuthTypeNone : AuthType := "none"

/-- The constant `AuthTypeBasic`. -/
def AuthTypeBasic : AuthType := "basic"

/-- The function `strings.ToLower`, on text whose letters are ASCII. -/
def toLower (s : String) : String := String.mk (s.data.map Char.toLower)

/-- The function `strings.Split(s, sep)` for a one-character separator. -/
def splitChar (sep : Char) : List Char → List (List Char)
  | [] => [[]]
  | c :: cs =>
      if c = sep then [] :: splitChar sep cs
      else
        match splitChar sep cs with
        | [] => [[c]]
        | first :: others => (c :: first) :: others

/-- Reading a Go `map[string]string` kept as the list of its entries: the value and
whether the key is present. -/
def mapGet (m : List (String × String)) (key : String) : Option String :=
  (m.find? (fun kv => kv.1 == key)).map (fun kv => kv.2)

/-- The assignment `m[key] = value`. -/
def mapSet (m : List (String × String)) (key value : String) : List (String × String) :=
  if m.any (fun kv => kv.1 == key) then
    m.map (fun kv => if kv.1 == key then (key, value) else kv)
  else m ++ [(key, value)]

/-- The call `delete(m, key)`. -/
def mapDelete (m : List (String × String)) (key : String) : List (String × String) :=
  m.filter (fun kv => kv.1 != key)

/-- The field `gitConfig` of `Configuration`, the cache of the git configuration;
`none` is the nil map of a configuration that has not been loaded. -/
structure Configuration where
  gitConfig : Option (List (String × String))
deriving DecidableEq, Repr

/-- The loop of `loadGitConfig` (lines 326-334) as far as it fills `gitConfig`: each
line `key=value` is stored under the key in lower case. -/
def loadGitConfigLines (lines : List (List Char)) : List (String × String) :=
  lines.foldl
    (fun m line =>
      match cutAt '=' line with
      | (_, none) => m
      | (key, some value) => mapSet m (toLower (String.mk key)) (String.mk value))
    []

/-- The method `loadGitConfig`, as far as it fills `gitConfig`; `output` is the
text of the three listings of the git configuration joined by newlines. A loaded
configuration is left as it is. -/
def loadGitConfig (output : String) (c : Configuration) : Configuration :=
  match c.gitConfig with
  | some _ => c
  | none => { gitConfig := some (loadGitConfigLines (splitChar '\n' output.data)) }

/-- The method `GitConfig`: the value, whether the key is present, and the
configuration after the call. -/
def GitConfig (output : String) (c : Configuration) (key : String) :
    (String × Bool) × Configuration :=
  let c1 := loadGitConfig output c
  match (c1.gitConfig.getD []).find? (fun kv => kv.1 == toLower key) with
  | some kv => ((kv.2, true), c1)
  | none => (("", false), c1)

/-- The method `EndpointAccess`. -/
def EndpointAccess (output : String) (c : Configuration) (e : Endpoint) :
    AuthType × Configuration :=
  let key := "lfs." ++ e.Url ++ ".access"
  match GitConfig output c key with
  | ((v, ok), c1) => if ok ∧ v.length > 0 then (toLower v, c1) else (AuthTypeNone, c1)

/-- The method `SetEndpointAccess`, as far as the configuration in memory goes (the
local configuration file is written too): `none` is the run-time panic of an
assignment to the nil map. -/
def SetEndpointAccess (c : Configuration) (e : Endpoint) (authType : AuthType) :
    Option Configuration :=
  let key := "lfs." ++ e.Url ++ ".access"
  if authType = AuthTypeNone then
    some { gitConfig := c.gitConfig.map (fun m => mapDelete m key) }
  else
    match c.gitConfig with
    | none => none
    | some m => some { gitConfig := some (mapSet m key authType) }

/-! ## The tasks of prune up to the barrier (`prune`, lines 63-97) -/

/-- Where the task `pruneTaskCollectRetained` is: at the receive of its loop, after
`Add` and before the send on `progressChan`, or after `retainwait.Done()`. -/
inductive CollectorAt where
  | receiving
  | reporting
  | finished
deriving DecidableEq, Repr

/-- Where `prune` itself is: at `taskwait.Wait()` (line 95), at `close(retainChan)`
(line 96), at `retainwait.Wait()` (line 97), or at the difference step (line 99). -/
inductive MainAt where
  | waitTasks
  | closeRetainChan
  | waitRetain
  | difference
deriving DecidableEq, Repr

/-- The goroutines of `prune` and what they share, once all of them are started.
A retention-source task is `some oids` with the oids it has still to send, and
`none` after its `waitg.Done()`; `others` counts the other tasks of `taskwait`
(local objects, reachable objects) that have not called `Done`; the channels are
the items they buffer (`progressChan` by their number). -/
structure PruneTasks where
  producers : List (Option (List String))
  others : Nat
  taskwait : Nat
  retainChan : List String
  closed : Bool
  collector : CollectorAt
  retainedObjects : StringSet
  retainwait : Nat
  progressChan : Nat
  main : MainAt
deriving DecidableEq, Repr

/-- The state after lines 55-93: `taskwait` counts five tasks, six with
`verifyRemote`; the four retention-source tasks have everything still to send;
`retainwait` counts the collector. -/
def PruneTasks.start (currentCheckout recentRefs unpushed worktree : List String)
    (verifyRemote : Bool) : PruneTasks :=
  { producers := [some currentCheckout, some recentRefs, some unpushed, some worktree]
    others := if verifyRemote then 2 else 1
    taskwait := if verifyRemote then 5 + 1 else 5
    retainChan := []
    closed := false
    collector := .receiving
    retainedObjects := NewStringSet
    retainwait := 1
    progressChan := 0
    main := .waitTasks }

/-- One step of one goroutine. Both channels buffer 100 items; a send waits for
room, a receive for an item or for the close. -/
inductive PruneTasks.Step : PruneTasks → PruneTasks → Prop where
  /-- A retention-source task sends its next oid on `retainChan`. -/
  | send (st : PruneTasks) (i : Nat) (oid : String) (rest : List String) :
      st.producers[i]? = some (some (oid :: rest)) → st.retainChan.length < 100 →
      st.closed = false →
      Step st { st with producers := st.producers.set i (some rest)
                        retainChan := st.retainChan ++ [oid] }
  /-- A retention-source task has sent everything and runs `waitg.Done()`. -/
  | producerDone (st : PruneTasks) (i : Nat) :
      st.producers[i]? = some (some []) →
      Step st { st with producers := st.producers.set i none, taskwait := st.taskwait - 1 }
  /-- Another task of `taskwait` sends on `progressChan`. -/
  | otherProgress (st : PruneTasks) :
      0 < st.others → st.progressChan < 100 →
      Step st { st with progressChan := st.progressChan + 1 }
  /-- Another task of `taskwait` runs `waitg.Done()`. -/
  | otherDone (st : PruneTasks) :
      0 < st.others →
      Step st { st with others := st.others - 1, taskwait := st.taskwait - 1 }
  /-- The collector receives an oid and adds it to the retained set (lines 207-208). -/
  | collect (st : PruneTasks) (oid : String) (rest : List String) :
      st.collector = .receiving → st.retainChan = oid :: rest →
      Step st { st with retainChan := rest
                        retainedObjects := st.retainedObjects.Add oid
                        collector := .reporting }
  /-- The collector sends on `progressChan` (line 209). -/
  | report (st : PruneTasks) :
      st.collector = .reporting → st.progressChan < 100 →
      Step st { st with progressChan := st.progressChan + 1, collector := .receiving }
  /-- The collector finds `retainChan` closed and empty: its loop ends and
  `retainwait.Done()` runs. -/
  | collectorDone (st : PruneTasks) :
      st.collector = .receiving → st.retainChan = [] → st.closed = true →
      Step st { st with collector := .finished, retainwait := st.retainwait - 1 }
  /-- The task `pruneTaskDisplayProgress` receives from `progressChan`. -/
  | display (st : PruneTasks) :
      0 < st.progressChan →
      Step st { st with progressChan := st.progressChan - 1 }
  /-- The call `taskwait.Wait()` returns (line 95). -/
  | tasksDone (st : PruneTasks) :
      st.main = .waitTasks → st.taskwait = 0 →
      Step st { st with main := .closeRetainChan }
  /-- The call `close(retainChan)` (line 96). -/
  | close (st : PruneTasks) :
      st.main = .closeRetainChan →
      Step st { st with closed := true, main := .waitRetain }
  /-- The call `retainwait.Wait()` returns (line 97). -/
  | retainDone (st : PruneTasks) :
      st.main = .waitRetain → st.retainwait = 0 →
      Step st { st with main := .difference }

/-- What holds of the tasks of prune in every state they can reach, for the oids
the four retention-source tasks have to send: every such oid is retained, in the
channel or still to be sent by its task; `taskwait` counts the tasks that have not
called `Done`; no task is left once `taskwait.Wait()` has returned; the channel is
closed exactly from line 97 on; the collector ends only on the closed and empty
channel; `retainwait` counts the collector; the difference step is reached only
after the collector has ended. -/
structure PruneTasks.Invariant (scripts : List (List String)) (st : PruneTasks) : Prop where
  pending : ∀ (i : Nat) (script : List String), scripts[i]? = some script → ∀ oid ∈ script,
    oid ∈ st.retainedObjects ∨ oid ∈ st.retainChan ∨
      ∃ rest : List String, st.producers[i]? = some (some rest) ∧ oid ∈ rest
  sound : (∀ oid ∈ st.retainedObjects, ∃ script ∈ scripts, oid ∈ script) ∧
    (∀ oid ∈ st.retainChan, ∃ script ∈ scripts, oid ∈ script) ∧
    (∀ (i : Nat) (rest : List String), st.producers[i]? = some (some rest) → ∀ oid ∈ rest,
      ∃ script ∈ scripts, oid ∈ script)
  counted : st.taskwait = (st.producers.filter Option.isSome).length + st.others
  waited : st.main ≠ .waitTasks → ∀ p ∈ st.producers, p = none
  closedAt : st.closed = true ↔ (st.main = .waitRetain ∨ st.main = .difference)
  drained : st.collector = .finished → st.closed = true ∧ st.retainChan = []
  retainCounted : st.retainwait = if st.collector = .finished then 0 else 1
  released : st.main = .difference → st.collector = .finished

/-! ## A scripted server for concrete runs of the client -/

/-- What a scripted server answers to one request. -/
structure Answer where
  StatusCode : Int
  Header : Header
  Body : String
deriving DecidableEq, Repr

/-- State of a client talking to a scripted server: the answers still to come,
the requests sent so far, and whether the endpoint is marked private. -/
structure Wire where
  answers : List Answer
  sent : List Request
  privateAccess : Bool
deriving DecidableEq, Repr

/-- A client environment over a scripted server: every request is logged and gets
the next answer of the script (a transport error once the script is used up);
credentials are always available, there is no SSH endpoint, every URL is
well-formed and redirects are never refused. -/
def scriptedEnv (codec : Codec) : ClientEnv Wire where
  UserAgent := "git-lfs"
  errorPanic := true
  codec := codec
  Endpoint := fun _ => { Url := "https://git.example/repo.git/info/lfs", SshUserAndHost := "" }
  sshAuthenticate := fun _ _ _ _ => ({ Href := "", Header := [] }, none)
  ObjectUrl := fun e oid => .ok (e.Url ++ "/objects/" ++ oid)
  NewRequest := fun _ _ => none
  Do := fun req s =>
    match s.answers with
    | [] => ((none, some (.plain "connection refused")), { s with sent := s.sent ++ [req] })
    | a :: rest =>
        ((some { StatusCode := a.StatusCode, Status := "", Header := a.Header, Body := a.Body,
                 Request := req }, none),
          { s with answers := rest, sent := s.sent ++ [req] })
  getCredsForAPI := fun _ s => (.ok [("username", "user"), ("password", "secret")], s)
  saveCredentials := fun _ _ s => s
  PrivateAccess := fun s => s.privateAccess
  SetPrivateAccess := fun s => { s with privateAccess := true }
  parseUrl := parseUrlIsAbs
  ResolveReference := resolveReferenceString
  checkRedirect := fun _ _ => none

/-- A POST request with a seekable body that has been read to its end, for
concrete runs of redirects. -/
def seekablePost : Request :=
  { Method := "POST", URL := "https://h/old", Header := [],
    Body := .reader "payload" 7 .seeks, ContentLength := 7 }

/-- The same request with a body that is no `io.Seeker`. -/
def unseekablePost : Request :=
  { Method := "POST", URL := "https://h/old", Header := [],
    Body := .reader "payload" 7 .notSeeker, ContentLength := 7 }

/-- A server that answers 307 with `Location: /new/path`, then 200. -/
def redirectingServer : Wire :=
  { answers := [{ StatusCode := 307, Header := [("Location", "/new/path")], Body := "" },
                { StatusCode := 200, Header := [], Body := "" }],
    sent := [], privateAccess := false }

/-- A codec for concrete runs: a body decodes to one object whose oid is the body
text, and the batch request body is the operation name. -/
def plainCodec : Codec where
  decodeClientError := fun body => ({ Message := body, DocumentationUrl := "", RequestId := "" }, none)
  decodeObjects := fun body =>
    ([{ Oid := body, Size := 0, Actions := none, Links := none, Error := none }], none)
  decodeObject := fun body =>
    ({ Oid := body, Size := 0, Actions := none, Links := none, Error := none }, none)
  marshalBatch := fun _ operation => .ok operation

/-- A client environment over a scripted server in which SSH discovery fails with
an empty result. -/
def sshFailingEnv (codec : Codec) : ClientEnv Wire :=
  { scriptedEnv codec with
    sshAuthenticate := fun _ _ _ _ =>
      ({ Href := "", Header := [] }, some (.plain "ssh: connection refused")) }

/-- A transfer environment over a scripted server: every object is stored in a
local file named by its oid with the content `data`; `apiCredentials` says whether
`getCredsForAPI` succeeds, and storage requests carry no credentials. -/
def scriptedTransferEnv (apiCredentials : Bool) : TransferEnv Wire where
  client :=
    if apiCredentials then scriptedEnv plainCodec
    else
      { scriptedEnv plainCodec with
        getCredsForAPI := fun _ s => (.error (.plain "credentials unavailable"), s) }
  Base := fun path => path
  Stat := fun _ _ => .ok 4
  LocalMediaPath := fun oid s => (.ok oid, s)
  Open := fun _ _ => .ok "data"
  getCreds := fun _ s => (.ok none, s)
  marshalObject := fun o => .ok o.Oid

/-- An object resource with an `upload` and a `verify` relation. -/
def verifiedUpload : objectResource :=
  { Oid := "deadbeef", Size := 4,
    Actions := some [("upload", { Href := "https://storage.example/deadbeef", Header := [] }),
                     ("verify", { Href := "https://git.example/verify", Header := [] })],
    Links := none, Error := none }

/-! ## Arithmetic and buffer lemmas -/

theorem wrapInt64_add_left (a b : Int) : wrapInt64 (wrapInt64 a + b) = wrapInt64 (a + b) := by
  unfold wrapInt64
  have h : (a + 2 ^ 63) % 2 ^ 64 - 2 ^ 63 + b + 2 ^ 63 = (a + 2 ^ 63) % 2 ^ 64 + b := by ring
  have h2 : a + b + 2 ^ 63 = a + 2 ^ 63 + b := by ring
  rw [h, h2, Int.emod_add_emod]

theorem wrapInt64_of_inRange (x : Int) (hlo : -2 ^ 63 ≤ x) (hhi : x < 2 ^ 63) :
    wrapInt64 x = x := by
  unfold wrapInt64
  rw [Int.emod_eq_of_lt (by linarith) (by linarith)]
  ring

theorem bufLen_append (a b : List String) : bufLen (a ++ b) = bufLen a + bufLen b := by
  simp [bufLen]

theorem bufLen_pos_of_chunks_nonempty (chunks : List String)
    (hne : ∀ c ∈ chunks, 0 < c.length) : 0 < bufLen chunks ↔ chunks ≠ [] := by
  cases chunks with
  | nil => simp [bufLen]
  | cons c rest =>
      have hc := hne c (List.mem_cons_self c rest)
      simp [bufLen]
      omega

/-! ## The difference step -/

theorem pruneScan_fold_prunable (hb : Int → String) (retained : StringSet)
    (vr dr vb : Bool) (l : List Pointer) (st : PruneScan) :
    (l.foldl (pruneScanStep hb retained vr dr vb) st).prunableObjects =
      st.prunableObjects ++
        (l.filter (fun p => decide (p.Oid ∉ retained))).map Pointer.Oid := by
  induction l generalizing st with
  | nil => simp
  | cons p rest ih =>
      rw [List.foldl_cons, ih]
      by_cases hp : p.Oid ∈ retained
      · simp [pruneScanStep, StringSet.Contains, hp]
      · simp [pruneScanStep, StringSet.Contains, hp]

theorem pruneScan_fold_totalSize (hb : Int → String) (retained : StringSet)
    (vr dr vb : Bool) (l : List Pointer) (st : PruneScan)
    (hst : wrapInt64 st.totalSize = st.totalSize) :
    (l.foldl (pruneScanStep hb retained vr dr vb) st).totalSize =
      wrapInt64 (st.totalSize +
        ((l.filter (fun p => decide (p.Oid ∉ retained))).map Pointer.Size).sum) := by
  induction l generalizing st with
  | nil => simp [hst]
  | cons p rest ih =>
      rw [List.foldl_cons]
      by_cases hp : p.Oid ∈ retained
      · have hstep : pruneScanStep hb retained vr dr vb st p = st := by
          simp [pruneScanStep, StringSet.Contains, hp]
        rw [hstep, ih st hst]
        simp [hp]
      · rw [ih]
        · simp [pruneScanStep, StringSet.Contains, hp, wrapInt64_add_left, add_assoc]
        · simp [pruneScanStep, StringSet.Contains, hp]
          have h := wrapInt64_add_left (st.totalSize + p.Size) 0
          simpa using h

theorem pruneScan_fold_verifyQueue (hb : Int → String) (retained : StringSet)
    (vr dr vb : Bool) (l : List Pointer) (st : PruneScan) :
    (l.foldl (pruneScanStep hb retained vr dr vb) st).verifyQueue =
      if vr && !dr then
        st.verifyQueue.map (fun q => q ++ l.filter (fun p => decide (p.Oid ∉ retained)))
      else st.verifyQueue := by
  induction l generalizing st with
  | nil => cases h : st.verifyQueue <;> simp [h]
  | cons p rest ih =>
      rw [List.foldl_cons, ih]
      by_cases hp : p.Oid ∈ retained
      · simp [pruneScanStep, StringSet.Contains, hp]
      · by_cases hv : (vr && !dr) = true
        · cases hq : st.verifyQueue <;> simp [pruneScanStep, StringSet.Contains, hp, hv, hq]
        · simp [pruneScanStep, StringSet.Contains, hp, hv]

theorem pruneScan_prunable (hb : Int → String) (localObjects : List Pointer)
    (retained : StringSet) (vr dr vb : Bool) :
    (pruneScan hb localObjects retained vr dr vb).prunableObjects =
      (localObjects.filter (fun p => decide (p.Oid ∉ retained))).map Pointer.Oid := by
  simp [pruneScan, pruneScan_fold_prunable]

theorem pruneScan_totalSize (hb : Int → String) (localObjects : List Pointer)
    (retained : StringSet) (vr dr vb : Bool) :
    (pruneScan hb localObjects retained vr dr vb).totalSize =
      wrapInt64 ((localObjects.filter (fun p => decide (p.Oid ∉ retained))).map Pointer.Size).sum := by
  unfold pruneScan
  rw [pruneScan_fold_totalSize]
  · simp
  · simp [wrapInt64]

theorem pruneScan_verifyQueue (hb : Int → String) (localObjects : List Pointer)
    (retained : StringSet) (vr dr vb : Bool) :
    (pruneScan hb localObjects retained vr dr vb).verifyQueue =
      if vr && !dr then some (localObjects.filter (fun p => decide (p.Oid ∉ retained)))
      else none := by
  unfold pruneScan
  rw [pruneScan_fold_verifyQueue]
  by_cases hv : (vr && !dr) = true <;> simp [hv]

theorem pruneAfterBarrier_scan {σ : Type} (env : PruneEnv σ) (vr dr vb : Bool)
    (localObjects : List Pointer) (retained reachable : StringSet) (s : σ) :
    (pruneAfterBarrier env vr dr vb localObjects retained reachable s).prunableObjects =
        (pruneScan env.humanizeBytes localObjects retained vr dr vb).prunableObjects ∧
      (pruneAfterBarrier env vr dr vb localObjects retained reachable s).totalSize =
        (pruneScan env.humanizeBytes localObjects retained vr dr vb).totalSize ∧
      (pruneAfterBarrier env vr dr vb localObjects retained reachable s).verifyQueue =
        (pruneScan env.humanizeBytes localObjects retained vr dr vb).verifyQueue := by
  unfold pruneAfterBarrier
  simp only []
  split
  · exact ⟨rfl, rfl, rfl⟩
  · split <;> exact ⟨rfl, rfl, rfl⟩

theorem pruneAfterBarrier_prunable {σ : Type} (env : PruneEnv σ) (vr dr vb : Bool)
    (localObjects : List Pointer) (retained reachable : StringSet) (s : σ) :
    (pruneAfterBarrier env vr dr vb localObjects retained reachable s).prunableObjects =
      (localObjects.filter (fun p => decide (p.Oid ∉ retained))).map Pointer.Oid := by
  rw [(pruneAfterBarrier_scan env vr dr vb localObjects retained reachable s).1,
    pruneScan_prunable]

/-- C1: in `prune`, for every list of local objects and every retained set, the
prunable list is exactly the list of oids of the local objects whose oid is not in
the retained set, in the order of the local list, and `totalSize` is the sum of the
sizes of exactly those objects, taken in `int64` arithmetic: it is the exact sum
whenever that sum is an `int64` value. -/
theorem prune_prunable_is_local_minus_retained {σ : Type} (env : PruneEnv σ)
    (verifyRemote dryRun verbose : Bool) (localObjects : List Pointer)
    (retainedObjects reachableObjects : StringSet) (s : σ) :
    let r := pruneAfterBarrier env verifyRemote dryRun verbose localObjects retainedObjects
      reachableObjects s
    let kept := localObjects.filter (fun p => decide (p.Oid ∉ retainedObjects))
    r.prunableObjects = kept.map Pointer.Oid ∧
      r.totalSize = wrapInt64 (kept.map Pointer.Size).sum ∧
      (-2 ^ 63 ≤ (kept.map Pointer.Size).sum ∧ (kept.map Pointer.Size).sum < 2 ^ 63 →
        r.totalSize = (kept.map Pointer.Size).sum) := by
  intro r kept
  obtain ⟨h1, h2, _⟩ := pruneAfterBarrier_scan env verifyRemote dryRun verbose localObjects
    retainedObjects reachableObjects s
  have hp : r.prunableObjects = kept.map Pointer.Oid := by
    rw [h1, pruneScan_prunable]
  have ht : r.totalSize = wrapInt64 (kept.map Pointer.Size).sum := by
    rw [h2, pruneScan_totalSize]
  refine ⟨hp, ht, fun hr => ?_⟩
  rw [ht, wrapInt64_of_inRange _ hr.1 hr.2]

/-- C2 (as stated, refuted): with no local object and the retained set `{"abc"}`,
the union of the retained set and the prunable set is not the local set. -/
theorem prune_partition_union_counterexample :
    ¬ (([ "abc" ] : StringSet).toFinset ∪
        (pruneAfterBarrier listStoreEnv false false false [] [ "abc" ] [] []).prunableObjects.toFinset =
      (([] : List Pointer).map Pointer.Oid).toFinset) := by
  decide

/-- C2 (amended): after the difference step, for any local object list and any
retained set, no oid is both retained and prunable, the prunable set together with
the retained oids that are local is the local set, and the union of the retained set
and the prunable set is the local set exactly when every retained oid is local. -/
theorem prune_partition_of_local {σ : Type} (env : PruneEnv σ)
    (verifyRemote dryRun verbose : Bool) (localObjects : List Pointer)
    (retainedObjects reachableObjects : StringSet) (s : σ) :
    let r := pruneAfterBarrier env verifyRemote dryRun verbose localObjects retainedObjects
      reachableObjects s
    let Local := (localObjects.map Pointer.Oid).toFinset
    let Retained := retainedObjects.toFinset
    let Prunable := r.prunableObjects.toFinset
    Retained ∩ Prunable = ∅ ∧
      (Retained ∩ Local) ∪ Prunable = Local ∧
      (Retained ∪ Prunable = Local ↔ Retained ⊆ Local) := by
  intro r Local Retained Prunable
  have hp : ∀ oid, oid ∈ Prunable ↔ oid ∈ Local ∧ oid ∉ Retained := by
    intro oid
    have h := pruneAfterBarrier_prunable env verifyRemote dryRun verbose
      localObjects retainedObjects reachableObjects s
    simp only [Prunable, Local, Retained, r, h, List.mem_toFinset, List.mem_map,
      List.mem_filter, decide_eq_true_eq]
    constructor
    · rintro ⟨p, ⟨hpl, hpr⟩, rfl⟩
      exact ⟨⟨p, hpl, rfl⟩, hpr⟩
    · rintro ⟨⟨p, hpl, rfl⟩, hpr⟩
      exact ⟨p, ⟨hpl, hpr⟩, rfl⟩
  refine ⟨?_, ?_, ?_⟩
  · ext oid
    simp only [Finset.mem_inter, hp, Finset.not_mem_empty, iff_false]
    tauto
  · ext oid
    simp only [Finset.mem_union, Finset.mem_inter, hp]
    tauto
  · constructor
    · intro h oid ho
      rw [← h]
      exact Finset.mem_union_left _ ho
    · intro h
      ext oid
      simp only [Finset.mem_union, hp]
      constructor
      · rintro (ho | ho)
        · exact h ho
        · exact ho.1
      · intro ho
        by_cases hr : oid ∈ Retained
        · exact Or.inl hr
        · exact Or.inr ⟨ho, hr⟩

/-! ## The safety gate -/

theorem pruneCheckVerified_fold (reachable verified : StringSet) (l : List String)
    (acc : List String) :
    l.foldl
        (fun problems oid =>
          if !verified.Contains oid then
            if reachable.Contains oid then problems ++ [oid ++ "\n"] else problems
          else problems)
        acc =
      acc ++ (l.filter (fun oid => decide (oid ∉ verified ∧ oid ∈ reachable))).map
        (fun oid => oid ++ "\n") := by
  induction l generalizing acc with
  | nil => simp
  | cons oid rest ih =>
      rw [List.foldl_cons, ih]
      by_cases hv : oid ∈ verified <;> by_cases hr : oid ∈ reachable <;>
        simp [StringSet.Contains, hv, hr]

theorem pruneCheckVerifiedProblems_eq (prunable : List String) (reachable verified : StringSet) :
    pruneCheckVerifiedProblems prunable reachable verified =
      (prunable.filter (fun oid => decide (oid ∉ verified ∧ oid ∈ reachable))).map
        (fun oid => oid ++ "\n") := by
  unfold pruneCheckVerifiedProblems
  rw [pruneCheckVerified_fold]
  simp

theorem pruneCheckVerified_eq (prunable : List String) (reachable verified : StringSet) :
    pruneCheckVerified prunable reachable verified =
      if prunable.filter (fun oid => decide (oid ∉ verified ∧ oid ∈ reachable)) = [] then none
      else some ("Failed to find prunable objects on remote, aborting:\n" ++
        bufString ((prunable.filter (fun oid => decide (oid ∉ verified ∧ oid ∈ reachable))).map
          (fun oid => oid ++ "\n"))) := by
  unfold pruneCheckVerified
  simp only [pruneCheckVerifiedProblems_eq]
  have hpos := bufLen_pos_of_chunks_nonempty
    ((prunable.filter (fun oid => decide (oid ∉ verified ∧ oid ∈ reachable))).map
      (fun oid => oid ++ "\n"))
    (by
      intro c hc
      obtain ⟨oid, _, rfl⟩ := List.mem_map.1 hc
      rw [String.length_append]
      exact Nat.lt_of_lt_of_le (by decide) (Nat.le_add_left 1 oid.length))
  by_cases hnil : prunable.filter (fun oid => decide (oid ∉ verified ∧ oid ∈ reachable)) = []
  · rw [if_pos hnil, hnil]
    simp [bufLen]
  · have hne : (prunable.filter (fun oid => decide (oid ∉ verified ∧ oid ∈ reachable))).map
        (fun oid => oid ++ "\n") ≠ [] := by
      simpa using hnil
    rw [if_pos (hpos.2 hne), if_neg hnil]

theorem pruneCheckVerified_isSome_iff (prunable : List String) (reachable verified : StringSet) :
    (pruneCheckVerified prunable reachable verified).isSome = true ↔
      ∃ oid ∈ prunable, oid ∉ verified ∧ oid ∈ reachable := by
  rw [pruneCheckVerified_eq]
  by_cases hnil : prunable.filter (fun oid => decide (oid ∉ verified ∧ oid ∈ reachable)) = []
  · rw [if_pos hnil]
    simp only [Option.isSome_none, Bool.false_eq_true, false_iff]
    rintro ⟨oid, hmem, hv, hr⟩
    have : oid ∈ prunable.filter (fun oid => decide (oid ∉ verified ∧ oid ∈ reachable)) := by
      simp [List.mem_filter, hmem, hv, hr]
    rw [hnil] at this
    exact List.not_mem_nil _ this
  · rw [if_neg hnil]
    simp only [Option.isSome_some, true_iff]
    obtain ⟨oid, rest, hcons⟩ := List.exists_cons_of_ne_nil hnil
    have hmem : oid ∈ prunable.filter (fun oid => decide (oid ∉ verified ∧ oid ∈ reachable)) := by
      rw [hcons]
      exact List.mem_cons_self _ _
    rw [List.mem_filter] at hmem
    exact ⟨oid, hmem.1, by simpa using hmem.2⟩

/-- C3: `pruneCheckVerified` aborts the run if and only if some oid of the prunable
list is not in the verified set and is in the reachable set; when it aborts, the
reported problem list is exactly those offending oids, each on its own line, in
prunable-list order. Oids that are unverified and unreachable never cause an abort. -/
theorem pruneCheckVerified_aborts_iff_unverified_reachable (prunableObjects : List String)
    (reachableObjects verifiedObjects : StringSet) :
    let offending := prunableObjects.filter
      (fun oid => decide (oid ∉ verifiedObjects ∧ oid ∈ reachableObjects))
    ((pruneCheckVerified prunableObjects reachableObjects verifiedObjects).isSome = true ↔
        ∃ oid ∈ prunableObjects, oid ∉ verifiedObjects ∧ oid ∈ reachableObjects) ∧
      pruneCheckVerifiedProblems prunableObjects reachableObjects verifiedObjects =
        offending.map (fun oid => oid ++ "\n") ∧
      (offending ≠ [] →
        pruneCheckVerified prunableObjects reachableObjects verifiedObjects =
          some ("Failed to find prunable objects on remote, aborting:\n" ++
            String.join (offending.map (fun oid => oid ++ "\n")))) ∧
      ((∀ oid ∈ prunableObjects, oid ∉ verifiedObjects → oid ∉ reachableObjects) →
        pruneCheckVerified prunableObjects reachableObjects verifiedObjects = none) := by
  intro offending
  refine ⟨pruneCheckVerified_isSome_iff _ _ _, pruneCheckVerifiedProblems_eq _ _ _, ?_, ?_⟩
  · intro hne
    rw [pruneCheckVerified_eq, if_neg hne]
    rfl
  · intro hall
    have hiff := pruneCheckVerified_isSome_iff prunableObjects reachableObjects verifiedObjects
    cases hres : pruneCheckVerified prunableObjects reachableObjects verifiedObjects with
    | none => rfl
    | some msg =>
        rw [hres] at hiff
        obtain ⟨oid, hmem, hv, hr⟩ := hiff.1 rfl
        exact absurd hr (hall oid hmem hv)

/-! ## The run after the barrier -/

theorem pruneAfterBarrier_verified {σ : Type} (env : PruneEnv σ) (vb : Bool)
    (localObjects : List Pointer) (retained reachable : StringSet) (s : σ) :
    (pruneAfterBarrier env true false vb localObjects retained reachable s).verifiedObjects =
      some (collectVerified (env.Watch
        ((pruneScan env.humanizeBytes localObjects retained true false vb).verifyQueue.getD []) s)) := by
  unfold pruneAfterBarrier
  simp only []
  split
  · rfl
  · rfl

theorem pruneAfterBarrier_gate_fails {σ : Type} (env : PruneEnv σ) (vb : Bool)
    (localObjects : List Pointer) (retained reachable : StringSet) (s : σ) (msg : String)
    (hgate : pruneCheckVerified
      (pruneScan env.humanizeBytes localObjects retained true false vb).prunableObjects reachable
      (collectVerified (env.Watch
        ((pruneScan env.humanizeBytes localObjects retained true false vb).verifyQueue.getD []) s)) =
      some msg) :
    (pruneAfterBarrier env true false vb localObjects retained reachable s).deleted = none ∧
      (pruneAfterBarrier env true false vb localObjects retained reachable s).state = s ∧
      (pruneAfterBarrier env true false vb localObjects retained reachable s).exit = some msg ∧
      (pruneAfterBarrier env true false vb localObjects retained reachable s).printed = [] := by
  unfold pruneAfterBarrier
  simp [hgate]

/-- C4: in a verify-remote, non-dry-run prune, whenever some prunable oid is
reachable on the remote but not verified, the run ends through `Exit` before the
deletion phase: `pruneDeleteFiles` is never called, nothing is printed, and the
content store is left as it was. -/
theorem prune_aborts_before_delete_on_gate_failure {σ : Type} (env : PruneEnv σ)
    (verbose : Bool) (localObjects : List Pointer)
    (retainedObjects reachableObjects : StringSet) (s : σ)
    (hviolation : ∃ oid ∈ (pruneAfterBarrier env true false verbose localObjects
        retainedObjects reachableObjects s).prunableObjects,
      oid ∈ reachableObjects ∧
        oid ∉ ((pruneAfterBarrier env true false verbose localObjects retainedObjects
          reachableObjects s).verifiedObjects.getD NewStringSet)) :
    let r := pruneAfterBarrier env true false verbose localObjects retainedObjects
      reachableObjects s
    r.deleted = none ∧ r.state = s ∧ r.exit.isSome = true ∧ r.printed = [] := by
  intro r
  obtain ⟨oid, hmem, hreach, hnot⟩ := hviolation
  rw [(pruneAfterBarrier_scan env true false verbose localObjects retainedObjects
    reachableObjects s).1] at hmem
  rw [pruneAfterBarrier_verified, Option.getD_some] at hnot
  have hsome := (pruneCheckVerified_isSome_iff _ reachableObjects _).2 ⟨oid, hmem, hnot, hreach⟩
  obtain ⟨msg, hmsg⟩ := Option.isSome_iff_exists.1 hsome
  obtain ⟨h1, h2, h3, h4⟩ := pruneAfterBarrier_gate_fails env verbose localObjects
    retainedObjects reachableObjects s msg hmsg
  exact ⟨h1, h2, by rw [h3]; rfl, h4⟩

/-- C4 at the input of the spec: Reachable = {"abc"}, Verified = {},
Prunable = {"abc"}; the stored object is still there after the run. -/
theorem prune_aborts_before_delete_on_gate_failure_witness :
    (pruneAfterBarrier listStoreEnv true false false [⟨"abc", 3⟩] [] [ "abc" ]
        [⟨"abc", 3⟩]).prunableObjects = [ "abc" ] ∧
      (pruneAfterBarrier listStoreEnv true false false [⟨"abc", 3⟩] [] [ "abc" ]
        [⟨"abc", 3⟩]).verifiedObjects = some [] ∧
      (pruneAfterBarrier listStoreEnv true false false [⟨"abc", 3⟩] [] [ "abc" ]
        [⟨"abc", 3⟩]).deleted = none ∧
      (pruneAfterBarrier listStoreEnv true false false [⟨"abc", 3⟩] [] [ "abc" ]
        [⟨"abc", 3⟩]).state = [⟨"abc", 3⟩] :=
  have h := prune_aborts_before_delete_on_gate_failure listStoreEnv false [⟨"abc", 3⟩] []
    [ "abc" ] [⟨"abc", 3⟩] ⟨"abc", by decide, by decide, by decide⟩
  ⟨by decide, by decide, h.1, h.2.1⟩

/-- C5: when `dryRun` is true, whatever `verifyRemote` and `verbose` are, prune
never calls `pruneDeleteFiles`, leaves the content store as it was, builds no
verification queue, enqueues nothing for remote checking, does not switch the
current remote, does not exit, and prints only the count and total size of the
prunable objects. -/
theorem prune_dryRun_has_no_effect {σ : Type} (env : PruneEnv σ)
    (verifyRemote verbose : Bool) (localObjects : List Pointer)
    (retainedObjects reachableObjects : StringSet) (s : σ) :
    let r := pruneAfterBarrier env verifyRemote true verbose localObjects retainedObjects
      reachableObjects s
    r.deleted = none ∧ r.state = s ∧ r.verifyQueue = none ∧ r.verifiedObjects = none ∧
      r.currentRemote = none ∧ r.exit = none ∧
      r.printed = [toString r.prunableObjects.length ++ " files would be pruned, " ++
        env.humanizeBytes r.totalSize] ∧
      prune env verifyRemote true verbose s =
        pruneAfterBarrier env verifyRemote true verbose (pruneTaskGetLocalObjects env s)
          NewStringSet NewStringSet s := by
  intro r
  have hq := pruneScan_verifyQueue env.humanizeBytes localObjects retainedObjects
    verifyRemote true verbose
  simp only [Bool.not_true, Bool.and_false, Bool.false_eq_true, if_false] at hq
  refine ⟨?_, ?_, ?_, ?_, ?_, ?_, ?_, ?_⟩
  · simp [r, pruneAfterBarrier]
  · simp [r, pruneAfterBarrier]
  · simp [r, pruneAfterBarrier, hq]
  · simp [r, pruneAfterBarrier]
  · simp [r, pruneAfterBarrier]
  · simp [r, pruneAfterBarrier]
  · simp [r, pruneAfterBarrier]
  · cases verifyRemote <;> rfl

/-! ## The deletion phase -/

theorem length_append_newline_pos (a : String) : 0 < (a ++ "\n").length := by
  rw [String.length_append]
  exact Nat.lt_of_lt_of_le (by decide) (Nat.le_add_left 1 a.length)

theorem pruneDeleteStep_outcome {σ : Type} (env : PruneEnv σ) (acc : DeleteLoop σ)
    (oid : String) :
    (pruneDeleteStep env acc oid).state = (deleteSucceeds env oid acc.state).2 ∧
      (pruneDeleteStep env acc oid).deletedFiles =
        acc.deletedFiles + (if (deleteSucceeds env oid acc.state).1 then 1 else 0) ∧
      (∃ msg, 0 < String.length msg ∧
        (pruneDeleteStep env acc oid).problems =
          acc.problems ++ (if (deleteSucceeds env oid acc.state).1 then [] else [msg])) := by
  unfold pruneDeleteStep deleteSucceeds
  rcases hl : env.LocalMediaPath oid acc.state with ⟨res, s1⟩
  cases res with
  | error err =>
      exact ⟨rfl, rfl, _, length_append_newline_pos _, rfl⟩
  | ok mediaFile =>
      rcases hr : env.Remove mediaFile s1 with ⟨e, s2⟩
      cases e with
      | some err =>
          exact ⟨by simp [hr], by simp [hr],
            "Failed to remove file " ++ mediaFile ++ ": " ++ err ++ "\n",
            length_append_newline_pos _, by simp [hr]⟩
      | none =>
          exact ⟨by simp [hr], by simp [hr], "x", by decide, by simp [hr]⟩

theorem pruneDelete_fold {σ : Type} (env : PruneEnv σ) (oids : List String)
    (acc : DeleteLoop σ) :
    (oids.foldl (pruneDeleteStep env) acc).deletedFiles =
        acc.deletedFiles + (deleteOutcomes env oids acc.state).count true ∧
      (oids.foldl (pruneDeleteStep env) acc).problems.length =
        acc.problems.length + (deleteOutcomes env oids acc.state).count false ∧
      ((∀ c ∈ acc.problems, 0 < String.length c) →
        ∀ c ∈ (oids.foldl (pruneDeleteStep env) acc).problems, 0 < String.length c) := by
  induction oids generalizing acc with
  | nil => simp [deleteOutcomes]
  | cons oid rest ih =>
      obtain ⟨hs, hd, msg, hmsg, hp⟩ := pruneDeleteStep_outcome env acc oid
      obtain ⟨ih1, ih2, ih3⟩ := ih (pruneDeleteStep env acc oid)
      rw [List.foldl_cons, deleteOutcomes]
      rw [hs] at ih1 ih2
      refine ⟨?_, ?_, ?_⟩
      · rw [ih1, hd]
        cases hb : (deleteSucceeds env oid acc.state).1
        · simp [hb, List.count_cons]
        · simp [hb, List.count_cons]
          omega
      · rw [ih2, hp]
        cases hb : (deleteSucceeds env oid acc.state).1
        · simp [hb, List.count_cons]
          omega
        · simp [hb, List.count_cons]
      · intro hacc
        apply ih3
        intro c hc
        rw [hp] at hc
        rcases List.mem_append.1 hc with h | h
        · exact hacc c h
        · cases hb : (deleteSucceeds env oid acc.state).1
          · rw [hb] at h
            simp at h
            rw [h]
            exact hmsg
          · rw [hb] at h
            simp at h

theorem deleteOutcomes_length {σ : Type} (env : PruneEnv σ) (oids : List String) (s : σ) :
    (deleteOutcomes env oids s).length = oids.length := by
  induction oids generalizing s with
  | nil => rfl
  | cons oid rest ih => simp [deleteOutcomes, ih]

theorem pruneDeleteFiles_exit_iff {σ : Type} (env : PruneEnv σ) (oids : List String) (s : σ) :
    (pruneDeleteFiles env oids s).exit.isSome = true ↔ (pruneDeleteFiles env oids s).problems ≠ [] := by
  obtain ⟨_, _, h3⟩ := pruneDelete_fold env oids { problems := [], deletedFiles := 0, state := s }
  have hne := h3 (by simp)
  have hpos := bufLen_pos_of_chunks_nonempty _ hne
  unfold pruneDeleteFiles
  simp only []
  by_cases hb : 0 < bufLen (oids.foldl (pruneDeleteStep env)
      { problems := [], deletedFiles := 0, state := s }).problems
  · simp [hb, hpos.1 hb]
  · have hnil : (oids.foldl (pruneDeleteStep env)
        { problems := [], deletedFiles := 0, state := s }).problems = [] := by
      by_contra hcon
      exact hb (hpos.2 hcon)
    simp [hnil, bufLen]

/-- C6: `pruneDeleteFiles` attempts the deletion of every oid of the prunable list
even after earlier ones fail: for every list and every behaviour of path lookup and
remove, there is one attempt per oid, the number of files reported deleted is the
number of oids whose path lookup and remove both succeeded, one problem message is
accumulated per failed oid, and the run exits with failure if and only if at least
one oid failed. -/
theorem pruneDeleteFiles_counts_every_attempt {σ : Type} (env : PruneEnv σ)
    (prunableObjects : List String) (s : σ) :
    let r := pruneDeleteFiles env prunableObjects s
    let outcomes := deleteOutcomes env prunableObjects s
    outcomes.length = prunableObjects.length ∧
      r.deletedFiles = outcomes.count true ∧
      r.finished = "Deleted " ++ toString (outcomes.count true) ++ " files" ∧
      r.problems.length = outcomes.count false ∧
      r.deletedFiles + r.problems.length = prunableObjects.length ∧
      (r.exit.isSome = true ↔ false ∈ outcomes) := by
  intro r outcomes
  obtain ⟨h1, h2, _⟩ := pruneDelete_fold env prunableObjects
    { problems := [], deletedFiles := 0, state := s }
  have hlen := deleteOutcomes_length env prunableObjects s
  have hd : r.deletedFiles = outcomes.count true := by
    simpa [r, pruneDeleteFiles] using h1
  have hp : r.problems.length = outcomes.count false := by
    simpa [r, pruneDeleteFiles] using h2
  have hsum : outcomes.count true + outcomes.count false = outcomes.length := by
    have := List.count_true_add_count_false outcomes
    omega
  refine ⟨hlen, hd, ?_, hp, ?_, ?_⟩
  · show "Deleted " ++ toString r.deletedFiles ++ " files" = _
    rw [hd]
  · rw [hd, hp, hsum, hlen]
  · rw [pruneDeleteFiles_exit_iff]
    rw [← List.length_pos, hp, List.count_pos_iff]

/-! ## Idempotence -/

theorem pruneTaskGetLocalObjects_eq {σ : Type} (env : PruneEnv σ) (s : σ) :
    pruneTaskGetLocalObjects env s = env.AllLocalObjectsChan s := by
  have h : ∀ (l acc : List Pointer), l.foldl (fun out p => out ++ [p]) acc = acc ++ l := by
    intro l
    induction l with
    | nil => simp
    | cons p rest ih => intro acc; simp [ih]
  simp [pruneTaskGetLocalObjects, h]

theorem deleteSucceeds_store {σ : Type} (env : PruneEnv σ)
    (hLookup : ∀ oid s, ∀ p ∈ env.AllLocalObjectsChan (env.LocalMediaPath oid s).2,
      p ∈ env.AllLocalObjectsChan s)
    (hRemove : ∀ path s, ∀ p ∈ env.AllLocalObjectsChan (env.Remove path s).2,
      p ∈ env.AllLocalObjectsChan s)
    (hRemoved : ∀ oid s path, (env.LocalMediaPath oid s).1 = .ok path →
      (env.Remove path (env.LocalMediaPath oid s).2).1 = none →
      ∀ p ∈ env.AllLocalObjectsChan (env.Remove path (env.LocalMediaPath oid s).2).2,
        p.Oid ≠ oid)
    (oid : String) (s : σ) :
    (∀ p ∈ env.AllLocalObjectsChan (deleteSucceeds env oid s).2,
        p ∈ env.AllLocalObjectsChan s) ∧
      ((deleteSucceeds env oid s).1 = true →
        ∀ p ∈ env.AllLocalObjectsChan (deleteSucceeds env oid s).2, p.Oid ≠ oid) := by
  have hL := hLookup oid s
  have hRd := hRemoved oid s
  unfold deleteSucceeds
  split
  · rename_i err s1 hl
    rw [hl] at hL
    exact ⟨hL, by simp⟩
  · rename_i mediaFile s1 hl
    rw [hl] at hL hRd
    have hR := hRemove mediaFile s1
    have hRd2 := hRd mediaFile rfl
    split
    · rename_i err s2 hr
      rw [hr] at hR
      exact ⟨fun p hp => hL p (hR p hp), by simp⟩
    · rename_i s2 hr
      rw [hr] at hR hRd2
      exact ⟨fun p hp => hL p (hR p hp), fun _ => hRd2 rfl⟩

theorem pruneDeleteStep_store {σ : Type} (env : PruneEnv σ)
    (hLookup : ∀ oid s, ∀ p ∈ env.AllLocalObjectsChan (env.LocalMediaPath oid s).2,
      p ∈ env.AllLocalObjectsChan s)
    (hRemove : ∀ path s, ∀ p ∈ env.AllLocalObjectsChan (env.Remove path s).2,
      p ∈ env.AllLocalObjectsChan s)
    (hRemoved : ∀ oid s path, (env.LocalMediaPath oid s).1 = .ok path →
      (env.Remove path (env.LocalMediaPath oid s).2).1 = none →
      ∀ p ∈ env.AllLocalObjectsChan (env.Remove path (env.LocalMediaPath oid s).2).2,
        p.Oid ≠ oid)
    (acc : DeleteLoop σ) (oid : String) :
    (∀ p ∈ env.AllLocalObjectsChan (pruneDeleteStep env acc oid).state,
        p ∈ env.AllLocalObjectsChan acc.state) ∧
      acc.problems.length ≤ (pruneDeleteStep env acc oid).problems.length ∧
      ((pruneDeleteStep env acc oid).problems.length = acc.problems.length →
        ∀ p ∈ env.AllLocalObjectsChan (pruneDeleteStep env acc oid).state, p.Oid ≠ oid) := by
  obtain ⟨hs, _, msg, _, hp⟩ := pruneDeleteStep_outcome env acc oid
  obtain ⟨d1, d2⟩ := deleteSucceeds_store env hLookup hRemove hRemoved oid acc.state
  rw [hs, hp]
  refine ⟨d1, by simp, ?_⟩
  intro hlen
  cases hb : (deleteSucceeds env oid acc.state).1
  · rw [hb] at hlen
    simp at hlen
  · exact d2 hb

theorem pruneDelete_fold_store {σ : Type} (env : PruneEnv σ)
    (hLookup : ∀ oid s, ∀ p ∈ env.AllLocalObjectsChan (env.LocalMediaPath oid s).2,
      p ∈ env.AllLocalObjectsChan s)
    (hRemove : ∀ path s, ∀ p ∈ env.AllLocalObjectsChan (env.Remove path s).2,
      p ∈ env.AllLocalObjectsChan s)
    (hRemoved : ∀ oid s path, (env.LocalMediaPath oid s).1 = .ok path →
      (env.Remove path (env.LocalMediaPath oid s).2).1 = none →
      ∀ p ∈ env.AllLocalObjectsChan (env.Remove path (env.LocalMediaPath oid s).2).2,
        p.Oid ≠ oid)
    (oids : List String) (acc : DeleteLoop σ) :
    (∀ p ∈ env.AllLocalObjectsChan (oids.foldl (pruneDeleteStep env) acc).state,
        p ∈ env.AllLocalObjectsChan acc.state) ∧
      acc.problems.length ≤ (oids.foldl (pruneDeleteStep env) acc).problems.length ∧
      ((oids.foldl (pruneDeleteStep env) acc).problems.length = acc.problems.length →
        ∀ p ∈ env.AllLocalObjectsChan (oids.foldl (pruneDeleteStep env) acc).state,
          p.Oid ∉ oids) := by
  induction oids generalizing acc with
  | nil => simp
  | cons oid rest ih =>
      obtain ⟨s1, s2, s3⟩ := pruneDeleteStep_store env hLookup hRemove hRemoved acc oid
      obtain ⟨i1, i2, i3⟩ := ih (pruneDeleteStep env acc oid)
      rw [List.foldl_cons]
      refine ⟨fun p hp => s1 p (i1 p hp), le_trans s2 i2, ?_⟩
      intro hlen p hp
      have hstep : (pruneDeleteStep env acc oid).problems.length = acc.problems.length := by
        omega
      have hrest := i3 (by omega) p hp
      have hne := s3 hstep p (i1 p hp)
      simp only [List.mem_cons, not_or]
      exact ⟨hne, hrest⟩

theorem pruneAfterBarrier_completed {σ : Type} (env : PruneEnv σ) (vr vb : Bool)
    (localObjects : List Pointer) (retained reachable : StringSet) (s : σ)
    (hexit : (pruneAfterBarrier env vr false vb localObjects retained reachable s).exit = none) :
    (pruneAfterBarrier env vr false vb localObjects retained reachable s).state =
        (pruneDeleteFiles env
          ((localObjects.filter (fun p => decide (p.Oid ∉ retained))).map Pointer.Oid) s).state ∧
      (pruneDeleteFiles env
        ((localObjects.filter (fun p => decide (p.Oid ∉ retained))).map Pointer.Oid) s).exit = none := by
  rw [← pruneScan_prunable env.humanizeBytes localObjects retained vr false vb]
  unfold pruneAfterBarrier at hexit ⊢
  simp only [] at hexit ⊢
  split at hexit
  · simp at hexit
  · rename_i hgate
    simp only [Bool.false_eq_true, reduceIte] at hexit ⊢
    exact ⟨trivial, hexit⟩

theorem pruneAfterBarrier_nothing_prunable {σ : Type} (env : PruneEnv σ) (vr dr vb : Bool)
    (localObjects : List Pointer) (retained reachable : StringSet) (s : σ)
    (hall : ∀ p ∈ localObjects, p.Oid ∈ retained) :
    (pruneAfterBarrier env vr dr vb localObjects retained reachable s).prunableObjects = [] ∧
      (pruneAfterBarrier env vr dr vb localObjects retained reachable s).state = s ∧
      (pruneAfterBarrier env vr dr vb localObjects retained reachable s).exit = none ∧
      (∀ d, (pruneAfterBarrier env vr dr vb localObjects retained reachable s).deleted = some d →
        d.deletedFiles = 0 ∧ d.problems = []) := by
  have hscan : (pruneScan env.humanizeBytes localObjects retained vr dr vb).prunableObjects = [] := by
    rw [pruneScan_prunable]
    simp only [List.map_eq_nil_iff, List.filter_eq_nil_iff, decide_eq_true_eq, not_not]
    exact hall
  have hgate : ∀ verified, pruneCheckVerified [] reachable verified = none := by
    intro verified
    simp [pruneCheckVerified, pruneCheckVerifiedProblems, bufLen]
  unfold pruneAfterBarrier
  simp only [hscan, hgate, ite_self]
  cases dr
  · simp [pruneDeleteFiles, bufLen]
  · simp

/-- C7: prune is idempotent. On a content store where path lookup and remove
never add stored objects and where an object whose file was removed is no longer
enumerated, after a first non-dry-run prune that ran to completion (the gate passed
and every deletion succeeded), a second prune run over the resulting store with the
same retained set, whatever its flags, has an empty prunable list, deletes zero
files, reports no problem and leaves the store as it is. -/
theorem prune_twice_deletes_nothing {σ : Type} (env : PruneEnv σ)
    (hLookup : ∀ oid s, ∀ p ∈ env.AllLocalObjectsChan (env.LocalMediaPath oid s).2,
      p ∈ env.AllLocalObjectsChan s)
    (hRemove : ∀ path s, ∀ p ∈ env.AllLocalObjectsChan (env.Remove path s).2,
      p ∈ env.AllLocalObjectsChan s)
    (hRemoved : ∀ oid s path, (env.LocalMediaPath oid s).1 = .ok path →
      (env.Remove path (env.LocalMediaPath oid s).2).1 = none →
      ∀ p ∈ env.AllLocalObjectsChan (env.Remove path (env.LocalMediaPath oid s).2).2,
        p.Oid ≠ oid)
    (verifyRemote1 verbose1 verifyRemote2 dryRun2 verbose2 : Bool)
    (retainedObjects reachable1 reachable2 : StringSet) (s : σ)
    (hfirst : (pruneRetaining env verifyRemote1 false verbose1 retainedObjects reachable1 s).exit =
      none) :
    let r1 := pruneRetaining env verifyRemote1 false verbose1 retainedObjects reachable1 s
    let r2 := pruneRetaining env verifyRemote2 dryRun2 verbose2 retainedObjects reachable2 r1.state
    r2.prunableObjects = [] ∧ r2.state = r1.state ∧ r2.exit = none ∧
      (∀ d, r2.deleted = some d → d.deletedFiles = 0 ∧ d.problems = []) := by
  intro r1 r2
  obtain ⟨hstate, hdexit⟩ := pruneAfterBarrier_completed env verifyRemote1 verbose1
    (pruneTaskGetLocalObjects env s) retainedObjects reachable1 s hfirst
  have hnoprob := (pruneDeleteFiles_exit_iff env _ s).not.1 (by rw [hdexit]; simp)
  simp only [ne_eq, not_not] at hnoprob
  obtain ⟨f1, _, f3⟩ := pruneDelete_fold_store env hLookup hRemove hRemoved
    (((pruneTaskGetLocalObjects env s).filter
      (fun p => decide (p.Oid ∉ retainedObjects))).map Pointer.Oid)
    { problems := [], deletedFiles := 0, state := s }
  have hgone := f3 (by
    have : (pruneDeleteFiles env (((pruneTaskGetLocalObjects env s).filter
      (fun p => decide (p.Oid ∉ retainedObjects))).map Pointer.Oid) s).problems = [] := hnoprob
    simp only [pruneDeleteFiles] at this
    rw [this])
  have hall : ∀ p ∈ pruneTaskGetLocalObjects env r1.state, p.Oid ∈ retainedObjects := by
    intro p hp
    rw [pruneTaskGetLocalObjects_eq] at hp
    have hst : r1.state = (pruneDeleteFiles env (((pruneTaskGetLocalObjects env s).filter
      (fun p => decide (p.Oid ∉ retainedObjects))).map Pointer.Oid) s).state := hstate
    rw [hst] at hp
    have hin := f1 p hp
    have hnot := hgone p hp
    by_contra hret
    apply hnot
    refine List.mem_map.2 ⟨p, ?_, rfl⟩
    rw [List.mem_filter, pruneTaskGetLocalObjects_eq]
    exact ⟨hin, by simpa using hret⟩
  exact pruneAfterBarrier_nothing_prunable env verifyRemote2 dryRun2 verbose2
    (pruneTaskGetLocalObjects env r1.state) retainedObjects reachable2 r1.state hall

theorem listStoreEnv_lookup_keeps (oid : String) (s : List Pointer) :
    ∀ p ∈ listStoreEnv.AllLocalObjectsChan (listStoreEnv.LocalMediaPath oid s).2,
      p ∈ listStoreEnv.AllLocalObjectsChan s :=
  fun _ hp => hp

theorem listStoreEnv_remove_keeps (path : String) (s : List Pointer) :
    ∀ p ∈ listStoreEnv.AllLocalObjectsChan (listStoreEnv.Remove path s).2,
      p ∈ listStoreEnv.AllLocalObjectsChan s := by
  intro p hp
  simp only [listStoreEnv] at hp ⊢
  split at hp
  · exact (List.mem_filter.1 hp).1
  · exact hp

theorem listStoreEnv_removed (oid : String) (s : List Pointer) (path : String)
    (hl : (listStoreEnv.LocalMediaPath oid s).1 = .ok path)
    (hr : (listStoreEnv.Remove path (listStoreEnv.LocalMediaPath oid s).2).1 = none) :
    ∀ p ∈ listStoreEnv.AllLocalObjectsChan
      (listStoreEnv.Remove path (listStoreEnv.LocalMediaPath oid s).2).2, p.Oid ≠ oid := by
  intro p hp
  simp only [listStoreEnv, Except.ok.injEq] at hl hr hp
  subst hl
  split at hp
  · have := (List.mem_filter.1 hp).2
    simpa using this
  · rename_i hany
    rw [if_neg hany] at hr
    simp at hr

/-- C7 on a store holding two objects of which one is retained: the first run
deletes the other one and completes, and the second run finds nothing to prune. -/
theorem prune_twice_deletes_nothing_witness :
    (pruneRetaining listStoreEnv false false false [ "bbbb" ] []
        [⟨"aaaa", 1⟩, ⟨"bbbb", 2⟩]).state = [⟨"bbbb", 2⟩] ∧
      (pruneRetaining listStoreEnv false false true [ "bbbb" ] []
        (pruneRetaining listStoreEnv false false false [ "bbbb" ] []
          [⟨"aaaa", 1⟩, ⟨"bbbb", 2⟩]).state).prunableObjects = [] ∧
      (pruneRetaining listStoreEnv false false true [ "bbbb" ] []
        (pruneRetaining listStoreEnv false false false [ "bbbb" ] []
          [⟨"aaaa", 1⟩, ⟨"bbbb", 2⟩]).state).state =
        (pruneRetaining listStoreEnv false false false [ "bbbb" ] []
          [⟨"aaaa", 1⟩, ⟨"bbbb", 2⟩]).state :=
  have h := prune_twice_deletes_nothing listStoreEnv listStoreEnv_lookup_keeps
    listStoreEnv_remove_keeps listStoreEnv_removed false false false false true [ "bbbb" ] [] []
    [⟨"aaaa", 1⟩, ⟨"bbbb", 2⟩] (by decide)
  ⟨by decide, h.1, h.2.1⟩

/-! ## Error classification -/

theorem handleResponse_of_lt_400 {σ : Type} (env : ClientEnv σ) (res : Response)
    (creds : Option Creds) (s : σ) (h : res.StatusCode < 400) :
    handleResponse env res creds s = (none, env.saveCredentials creds res s) := by
  simp [handleResponse, h]

theorem handleResponse_of_ge_400 {σ : Type} (env : ClientEnv σ) (res : Response)
    (creds : Option Creds) (s : σ) (h : 400 ≤ res.StatusCode) :
    ∃ wErr, handleResponse env res creds s = (some wErr, env.saveCredentials creds res s) ∧
      wErr.Panic = decide (res.StatusCode > 499 ∧ res.StatusCode ≠ 501 ∧ res.StatusCode ≠ 509) := by
  have hn : ¬ res.StatusCode < 400 := not_lt.2 h
  simp only [handleResponse, hn, if_false]
  exact ⟨_, rfl, rfl⟩

/-- C8: `handleResponse` classifies responses by status code: for every status
below 400 it returns no error; for every status of 400 or more it returns an error
whose fatal (`Panic`) flag is true if and only if the status is greater than 499 and
is neither 501 nor 509. -/
theorem handleResponse_classifies_by_status {σ : Type} (env : ClientEnv σ) (res : Response)
    (creds : Option Creds) (s : σ) :
    (res.StatusCode < 400 → (handleResponse env res creds s).1 = none) ∧
      (400 ≤ res.StatusCode →
        ∃ wErr, (handleResponse env res creds s).1 = some wErr ∧
          (wErr.Panic = true ↔
            res.StatusCode > 499 ∧ res.StatusCode ≠ 501 ∧ res.StatusCode ≠ 509)) := by
  constructor
  · intro h
    rw [handleResponse_of_lt_400 env res creds s h]
  · intro h
    obtain ⟨wErr, hw, hp⟩ := handleResponse_of_ge_400 env res creds s h
    refine ⟨wErr, by rw [hw], ?_⟩
    rw [hp, decide_eq_true_iff]

/-! ## One attempt of the batch call -/

theorem doHttpRequest_of_error_status {σ : Type} (env : ClientEnv σ) (req : Request)
    (creds : Option Creds) (s s1 : σ) (res : Response)
    (hdo : env.Do req s = ((some res, none), s1)) (h : 400 ≤ res.StatusCode) :
    ∃ wErr, doHttpRequest env req creds s =
      ((res, some wErr), env.saveCredentials creds res s1) := by
  obtain ⟨w, hw, _⟩ := handleResponse_of_ge_400 env res creds s1 h
  simp only [doHttpRequest, hdo, hw]
  exact ⟨_, rfl⟩

theorem doHttpRequest_of_ok_status {σ : Type} (env : ClientEnv σ) (req : Request)
    (creds : Option Creds) (s s1 : σ) (res : Response)
    (hdo : env.Do req s = ((some res, none), s1)) (h : res.StatusCode < 400) :
    doHttpRequest env req creds s = ((res, none), env.saveCredentials creds res s1) := by
  simp only [doHttpRequest, hdo, handleResponse_of_lt_400 env res creds s1 h]

theorem doApiBatchRequest_of_error_status {σ : Type} (env : ClientEnv σ) (fuel : Nat)
    (req : Request) (s s1 s2 : σ) (c : Creds) (res : Response)
    (hpost : req.Method = "POST")
    (hcreds : env.getCredsForAPI req s = (.ok c, s1))
    (hdo : env.Do req s1 = ((some res, none), s2)) (h : 400 ≤ res.StatusCode) :
    ∃ wErr, doApiBatchRequest env (fuel + 1) req s =
      some ({ res := some res, objs := [], wErr := some wErr },
        env.saveCredentials (some c) res s2) := by
  obtain ⟨w, hw⟩ := doHttpRequest_of_error_status env req (some c) s1 s2 res hdo h
  refine ⟨w, ?_⟩
  simp [doApiBatchRequest, doAPIRequest, doApiRequestWithRedirects, hpost, hcreds, hw]

theorem doApiBatchRequest_of_200 {σ : Type} (env : ClientEnv σ) (fuel : Nat)
    (req : Request) (s s1 s2 : σ) (c : Creds) (res : Response)
    (hpost : req.Method = "POST")
    (hcreds : env.getCredsForAPI req s = (.ok c, s1))
    (hdo : env.Do req s1 = ((some res, none), s2)) (h : res.StatusCode = 200) :
    ∃ wErr, doApiBatchRequest env (fuel + 1) req s =
      some ({ res := some res
              objs := (decodeApiResponse env.errorPanic env.codec.decodeObjects res []).1
              wErr := wErr },
        env.saveCredentials (some c) res s2) := by
  have hlt : res.StatusCode < 400 := by omega
  have hw := doHttpRequest_of_ok_status env req (some c) s1 s2 res hdo hlt
  have h307 : ¬ res.StatusCode = 307 := by omega
  simp [doApiBatchRequest, doAPIRequest, doApiRequestWithRedirects, hpost, hcreds, hw, h307]
  rcases hd : decodeApiResponse env.errorPanic env.codec.decodeObjects res [] with ⟨objs, e⟩
  cases e with
  | none => exact ⟨none, by simp⟩
  | some w =>
      exact ⟨some (setErrorResponseContext env w res (env.saveCredentials (some c) res s2)),
        by simp⟩

theorem newBatchApiRequest_method {σ : Type} (env : ClientEnv σ) (s : σ) (req : Request)
    (h : newBatchApiRequest env s = .ok req) : req.Method = "POST" := by
  unfold newBatchApiRequest newBatchClientRequest at h
  simp only [] at h
  split at h
  · simp at h
  · split at h
    · simp at h
    · rename_i req1 hreq
      split at hreq
      · simp at hreq
      · simp only [Except.ok.injEq] at hreq h
        rw [← h, ← hreq]

theorem Batch_of_error_status {σ : Type} (env : ClientEnv σ) (fuel : Nat)
    (objects : List objectResource) (operation body : String) (req0 : Request)
    (s s1 s2 : σ) (c : Creds) (res : Response)
    (hne : objects ≠ [])
    (hm : env.codec.marshalBatch objects operation = .ok body)
    (hreq : newBatchApiRequest env s = .ok req0)
    (hcreds : env.getCredsForAPI (batchRequest req0 body) s = (.ok c, s1))
    (hdo : env.Do (batchRequest req0 body) s1 = ((some res, none), s2))
    (h : 400 ≤ res.StatusCode) :
    Batch env (fuel + 1) objects operation s =
      if res.StatusCode = 401 then
        Batch env fuel objects operation
          (env.SetPrivateAccess (env.saveCredentials (some c) res s2))
      else if res.StatusCode = 404 ∨ res.StatusCode = 410 then
        some (.error (Error env.errorPanic newNotImplError), env.saveCredentials (some c) res s2)
      else
        some (.error (Error env.errorPanic (.plain
          ("Invalid status for " ++ (batchRequest req0 body).Method ++ " " ++
            (batchRequest req0 body).URL ++ ": " ++ toString res.StatusCode))),
          env.saveCredentials (some c) res s2) := by
  have hpost : (batchRequest req0 body).Method = "POST" :=
    newBatchApiRequest_method env s req0 hreq
  obtain ⟨w, hw⟩ := doApiBatchRequest_of_error_status env fuel (batchRequest req0 body)
    s s1 s2 c res hpost hcreds hdo h
  have hlen : ¬ objects.length = 0 := by
    simpa [List.length_eq_zero] using hne
  have h200 : res.StatusCode ≠ 200 := by omega
  rw [Batch]
  simp only [hlen, if_false, hm, hreq, hw, Option.isSome_some, true_and, h200, ne_eq,
    not_false_eq_true, if_true]

theorem Batch_of_200 {σ : Type} (env : ClientEnv σ) (fuel : Nat)
    (objects : List objectResource) (operation body : String) (req0 : Request)
    (s s1 s2 : σ) (c : Creds) (res : Response)
    (hne : objects ≠ [])
    (hm : env.codec.marshalBatch objects operation = .ok body)
    (hreq : newBatchApiRequest env s = .ok req0)
    (hcreds : env.getCredsForAPI (batchRequest req0 body) s = (.ok c, s1))
    (hdo : env.Do (batchRequest req0 body) s1 = ((some res, none), s2))
    (h : res.StatusCode = 200) :
    Batch env (fuel + 1) objects operation s =
      some (.ok (decodeApiResponse env.errorPanic env.codec.decodeObjects res []).1,
        env.saveCredentials (some c) res s2) := by
  have hpost : (batchRequest req0 body).Method = "POST" :=
    newBatchApiRequest_method env s req0 hreq
  obtain ⟨w, hw⟩ := doApiBatchRequest_of_200 env fuel (batchRequest req0 body)
    s s1 s2 c res hpost hcreds hdo h
  have hlen : ¬ objects.length = 0 := by
    simpa [List.length_eq_zero] using hne
  rw [Batch]
  simp [hlen, hm, hreq, hw, h]

/-! ## The batch call against a scripted server -/

theorem decodeApiResponse_value {α : Type} (pd : Bool) (decode : String → α × Option GoError)
    (res : Response) (obj : α) :
    (decodeApiResponse pd decode res obj).1 =
      if lfsMediaTypeRE (res.Header.Get "Content-Type") ||
          jsonMediaTypeRE (res.Header.Get "Content-Type") then (decode res.Body).1
      else obj := by
  unfold decodeApiResponse
  simp only []
  by_cases hct : (lfsMediaTypeRE (res.Header.Get "Content-Type") ||
      jsonMediaTypeRE (res.Header.Get "Content-Type")) = true
  · simp only [hct, Bool.not_true, Bool.false_eq_true, if_false, if_true]
    rcases hdec : decode res.Body with ⟨v, e⟩
    cases e <;> rfl
  · have hct2 : (lfsMediaTypeRE (res.Header.Get "Content-Type") ||
        jsonMediaTypeRE (res.Header.Get "Content-Type")) = false := by
      simpa using hct
    simp [hct2]

theorem scriptedEnv_newBatchApiRequest (codec : Codec) :
    ∃ req0, ∀ s, newBatchApiRequest (scriptedEnv codec) s = .ok req0 :=
  ⟨{ Method := "POST"
     URL := "https://git.example/repo.git/info/lfs" ++ "/objects/" ++ "batch"
     Header := (Header.Set [] "User-Agent" "git-lfs").Set "Accept" mediaType
     Body := .absent
     ContentLength := 0 }, fun _ => rfl⟩

theorem scriptedEnv_Batch_of_error_status (codec : Codec) (fuel : Nat)
    (objects : List objectResource) (operation body : String) (a : Answer)
    (rest : List Answer) (sent : List Request) (pa : Bool)
    (hne : objects ≠ []) (hm : codec.marshalBatch objects operation = .ok body)
    (h : 400 ≤ a.StatusCode) :
    ∃ req, Batch (scriptedEnv codec) (fuel + 1) objects operation
        { answers := a :: rest, sent := sent, privateAccess := pa } =
      if a.StatusCode = 401 then
        Batch (scriptedEnv codec) fuel objects operation
          { answers := rest, sent := sent ++ [req], privateAccess := true }
      else if a.StatusCode = 404 ∨ a.StatusCode = 410 then
        some (.error (Error true newNotImplError),
          { answers := rest, sent := sent ++ [req], privateAccess := pa })
      else
        some (.error (Error true (.plain
          ("Invalid status for " ++ req.Method ++ " " ++ req.URL ++ ": " ++
            toString a.StatusCode))),
          { answers := rest, sent := sent ++ [req], privateAccess := pa }) := by
  obtain ⟨req0, hreq⟩ := scriptedEnv_newBatchApiRequest codec
  refine ⟨batchRequest req0 body, ?_⟩
  exact Batch_of_error_status (scriptedEnv codec) fuel objects operation body req0
    { answers := a :: rest, sent := sent, privateAccess := pa } _ _ _
    { StatusCode := a.StatusCode, Status := "", Header := a.Header, Body := a.Body,
      Request := batchRequest req0 body }
    hne hm (hreq _) rfl rfl h

theorem scriptedEnv_Batch_of_200 (codec : Codec) (fuel : Nat)
    (objects : List objectResource) (operation body : String) (a : Answer)
    (rest : List Answer) (sent : List Request) (pa : Bool)
    (hne : objects ≠ []) (hm : codec.marshalBatch objects operation = .ok body)
    (h : a.StatusCode = 200) :
    ∃ req, Batch (scriptedEnv codec) (fuel + 1) objects operation
        { answers := a :: rest, sent := sent, privateAccess := pa } =
      some (.ok (if lfsMediaTypeRE (a.Header.Get "Content-Type") ||
            jsonMediaTypeRE (a.Header.Get "Content-Type") then (codec.decodeObjects a.Body).1
          else []),
        { answers := rest, sent := sent ++ [req], privateAccess := pa }) := by
  obtain ⟨req0, hreq⟩ := scriptedEnv_newBatchApiRequest codec
  refine ⟨batchRequest req0 body, ?_⟩
  have hb := Batch_of_200 (scriptedEnv codec) fuel objects operation body req0
    { answers := a :: rest, sent := sent, privateAccess := pa } _ _ _
    { StatusCode := a.StatusCode, Status := "", Header := a.Header, Body := a.Body,
      Request := batchRequest req0 body }
    hne hm (hreq _) rfl rfl h
  rw [hb, decodeApiResponse_value]
  rfl

/-- C9 (as stated, refuted): against a server that answers 401, 401 and then 200,
a single `Batch` call sends three batch requests, not at most two, and the second
401 does not make it return an error: it returns the objects of the 200 answer. -/
theorem Batch_retry_once_counterexample :
    (Batch (scriptedEnv plainCodec) 3
        [{ Oid := "deadbeef", Size := 10, Actions := none, Links := none, Error := none }]
        "download"
        { answers := [{ StatusCode := 401, Header := [], Body := "" },
                      { StatusCode := 401, Header := [], Body := "" },
                      { StatusCode := 200,
                        Header := [("Content-Type", "application/vnd.git-lfs+json")],
                        Body := "deadbeef" }],
          sent := [], privateAccess := false }).map
      (fun r => (r.1.toBool, r.2.sent.length)) = some (true, 3) := by
  decide

/-- C9 (amended): when the batch endpoint answers 401, `Batch` marks the endpoint
as private and runs the batch call again, and it does so after every 401 answer,
however many there are: against a server that answers 401 any number of times and
then 200, a single `Batch` call (given fuel for that many calls) sends one batch
request per answer and returns the objects decoded from the 200 answer, without
error, leaving the endpoint marked private if there was a 401. -/
theorem Batch_retries_after_every_401 (codec : Codec) (objects : List objectResource)
    (operation body : String) (unauthorized : List Answer) (last : Answer)
    (rest : List Answer) (sent : List Request) (pa : Bool) (extra : Nat)
    (hne : objects ≠ []) (hm : codec.marshalBatch objects operation = .ok body)
    (h401 : ∀ a ∈ unauthorized, a.StatusCode = 401) (h200 : last.StatusCode = 200) :
    ∃ after, Batch (scriptedEnv codec) (extra + unauthorized.length + 1) objects operation
        { answers := unauthorized ++ last :: rest, sent := sent, privateAccess := pa } =
        some (.ok (if lfsMediaTypeRE (last.Header.Get "Content-Type") ||
              jsonMediaTypeRE (last.Header.Get "Content-Type") then
            (codec.decodeObjects last.Body).1
          else []), after) ∧
      after.sent.length = sent.length + unauthorized.length + 1 ∧
      after.answers = rest ∧
      after.privateAccess = (pa || !unauthorized.isEmpty) := by
  induction unauthorized generalizing sent pa with
  | nil =>
      obtain ⟨req, hreq⟩ := scriptedEnv_Batch_of_200 codec extra objects operation body last
        rest sent pa hne hm h200
      exact ⟨_, hreq, by simp, rfl, by simp⟩
  | cons a more ih =>
      have ha : a.StatusCode = 401 := h401 a (List.mem_cons_self _ _)
      obtain ⟨req, hreq⟩ := scriptedEnv_Batch_of_error_status codec
        (extra + more.length + 1) objects operation body a (more ++ last :: rest) sent pa
        hne hm (by omega)
      rw [if_pos ha] at hreq
      obtain ⟨after, h1, h2, h3, h4⟩ := ih (sent ++ [req]) true
        (fun x hx => h401 x (List.mem_cons_of_mem _ hx))
      refine ⟨after, ?_, ?_, h3, ?_⟩
      · show Batch (scriptedEnv codec) (extra + more.length + 1 + 1) objects operation
          { answers := a :: (more ++ last :: rest), sent := sent, privateAccess := pa } = _
        rw [hreq, h1]
      · rw [h2]
        simp
        omega
      · rw [h4]
        simp

/-- C9 (amended) on the server that answers 401, 401 and then 200. -/
theorem Batch_retries_after_every_401_witness :
    ∃ after, Batch (scriptedEnv plainCodec) (0 + 2 + 1)
        [{ Oid := "deadbeef", Size := 10, Actions := none, Links := none, Error := none }]
        "download"
        { answers := [{ StatusCode := 401, Header := [], Body := "" },
                      { StatusCode := 401, Header := [], Body := "" }] ++
            { StatusCode := 200, Header := [("Content-Type", "application/vnd.git-lfs+json")],
              Body := "deadbeef" } :: [],
          sent := [], privateAccess := false } =
        some (.ok [{ Oid := "deadbeef", Size := 0, Actions := none, Links := none,
                     Error := none }], after) ∧
      after.sent.length = 3 ∧ after.answers = [] ∧ after.privateAccess = true :=
  Batch_retries_after_every_401 plainCodec
    [{ Oid := "deadbeef", Size := 10, Actions := none, Links := none, Error := none }]
    "download" "download"
    [{ StatusCode := 401, Header := [], Body := "" },
     { StatusCode := 401, Header := [], Body := "" }]
    { StatusCode := 200, Header := [("Content-Type", "application/vnd.git-lfs+json")],
      Body := "deadbeef" }
    [] [] false 0 (by decide) rfl (by decide) rfl

/-- C10 (as stated, refuted): against a server that answers 404 on the batch
endpoint, `Batch` returns an error to its caller and no object resource, after the
single batch request: it sends no legacy per-object request. -/
theorem Batch_fallback_counterexample :
    (Batch (scriptedEnv plainCodec) 3
        [{ Oid := "deadbeef", Size := 10, Actions := none, Links := none, Error := none }]
        "download"
        { answers := [{ StatusCode := 404, Header := [], Body := "" },
                      { StatusCode := 200,
                        Header := [("Content-Type", "application/vnd.git-lfs+json")],
                        Body := "deadbeef" }],
          sent := [], privateAccess := false }).map
      (fun r => (r.1.toBool, r.2.sent.length)) = some (false, 1) := by
  decide

/-- C10 (amended): against a server that answers 404 or 410 on the batch endpoint,
`Batch` sends that one batch request and nothing else, and returns to its caller no
object resource but an error recognised by `isNotImplError`; the legacy per-object
calls are left to the caller. -/
theorem Batch_not_implemented_on_404_410 (codec : Codec) (fuel : Nat)
    (objects : List objectResource) (operation body : String) (a : Answer)
    (rest : List Answer) (sent : List Request) (pa : Bool)
    (hne : objects ≠ []) (hm : codec.marshalBatch objects operation = .ok body)
    (h : a.StatusCode = 404 ∨ a.StatusCode = 410) :
    ∃ wErr after, Batch (scriptedEnv codec) (fuel + 1) objects operation
        { answers := a :: rest, sent := sent, privateAccess := pa } =
        some (.error wErr, after) ∧
      isNotImplError wErr = true ∧
      after.sent.length = sent.length + 1 ∧ after.answers = rest ∧
      after.privateAccess = pa := by
  obtain ⟨req, hreq⟩ := scriptedEnv_Batch_of_error_status codec fuel objects operation body a
    rest sent pa hne hm (by omega)
  have h401 : ¬ a.StatusCode = 401 := by omega
  rw [if_neg h401, if_pos h] at hreq
  exact ⟨_, _, hreq, rfl, by simp, rfl, rfl⟩

/-- C10 (amended) on the server that answers 404 to the batch request. -/
theorem Batch_not_implemented_on_404_410_witness :
    ∃ wErr after, Batch (scriptedEnv plainCodec) (0 + 1)
        [{ Oid := "deadbeef", Size := 10, Actions := none, Links := none, Error := none }]
        "download"
        { answers := [{ StatusCode := 404, Header := [], Body := "" }], sent := [],
          privateAccess := false } =
        some (.error wErr, after) ∧
      isNotImplError wErr = true ∧
      after.sent.length = 0 + 1 ∧ after.answers = [] ∧ after.privateAccess = false :=
  Batch_not_implemented_on_404_410 plainCodec 0
    [{ Oid := "deadbeef", Size := 10, Actions := none, Links := none, Error := none }]
    "download" "download" { StatusCode := 404, Header := [], Body := "" } [] [] false
    (by decide) rfl (Or.inl rfl)

/-- C11 (as stated, refuted): against a server that answers 501 to the batch
request, `Batch` returns an error that `isNotImplError` does not recognise. -/
theorem Batch_501_counterexample :
    (Batch (scriptedEnv plainCodec) 1
        [{ Oid := "deadbeef", Size := 10, Actions := none, Links := none, Error := none }]
        "download"
        { answers := [{ StatusCode := 501, Header := [], Body := "" }], sent := [],
          privateAccess := false }).map
      (fun r => match r.1 with
        | .ok _ => none
        | .error wErr => some (isNotImplError wErr)) = some (some false) := by
  decide

/-- C11 (amended): a 501 or 509 response to the batch request is not classified
as fatal by `handleResponse`, but `Batch` does not treat it as "not implemented":
unlike for 404 and 410, it returns the generic "Invalid status" error, which
`isNotImplError` does not recognise, after that one batch request. -/
theorem Batch_generic_error_on_501_509 (codec : Codec) (fuel : Nat)
    (objects : List objectResource) (operation body : String) (a : Answer)
    (rest : List Answer) (sent : List Request) (pa : Bool)
    (hne : objects ≠ []) (hm : codec.marshalBatch objects operation = .ok body)
    (h : a.StatusCode = 501 ∨ a.StatusCode = 509) :
    (∀ (res : Response) (creds : Option Creds) (s : Wire), res.StatusCode = a.StatusCode →
        ∃ wErr, (handleResponse (scriptedEnv codec) res creds s).1 = some wErr ∧
          wErr.Panic = false) ∧
      ∃ req after, Batch (scriptedEnv codec) (fuel + 1) objects operation
          { answers := a :: rest, sent := sent, privateAccess := pa } =
          some (.error (Error true (.plain
            ("Invalid status for " ++ req.Method ++ " " ++ req.URL ++ ": " ++
              toString a.StatusCode))), after) ∧
        isNotImplError (Error true (.plain
            ("Invalid status for " ++ req.Method ++ " " ++ req.URL ++ ": " ++
              toString a.StatusCode))) = false ∧
        after.sent = sent ++ [req] ∧ after.answers = rest := by
  constructor
  · intro res creds s hres
    obtain ⟨wErr, hw, hp⟩ := handleResponse_of_ge_400 (scriptedEnv codec) res creds s
      (by omega)
    refine ⟨wErr, by rw [hw], ?_⟩
    rw [hp, decide_eq_false_iff_not]
    omega
  · obtain ⟨req, hreq⟩ := scriptedEnv_Batch_of_error_status codec fuel objects operation body
      a rest sent pa hne hm (by omega)
    have h401 : ¬ a.StatusCode = 401 := by omega
    have h404 : ¬ (a.StatusCode = 404 ∨ a.StatusCode = 410) := by omega
    rw [if_neg h401, if_neg h404] at hreq
    exact ⟨req, _, hreq, rfl, rfl, rfl⟩

/-- C11 (amended) on the server that answers 509 to the batch request. -/
theorem Batch_generic_error_on_501_509_witness :
    (∀ (res : Response) (creds : Option Creds) (s : Wire), res.StatusCode = 509 →
        ∃ wErr, (handleResponse (scriptedEnv plainCodec) res creds s).1 = some wErr ∧
          wErr.Panic = false) ∧
      ∃ req after, Batch (scriptedEnv plainCodec) (0 + 1)
          [{ Oid := "deadbeef", Size := 10, Actions := none, Links := none, Error := none }]
          "download"
          { answers := { StatusCode := 509, Header := [], Body := "" } :: [], sent := [],
            privateAccess := false } =
          some (.error (Error true (.plain
            ("Invalid status for " ++ req.Method ++ " " ++ req.URL ++ ": " ++
              toString (509 : Int)))), after) ∧
        isNotImplError (Error true (.plain
            ("Invalid status for " ++ req.Method ++ " " ++ req.URL ++ ": " ++
              toString (509 : Int)))) = false ∧
        after.sent = [] ++ [req] ∧ after.answers = [] :=
  Batch_generic_error_on_501_509 plainCodec 0
    [{ Oid := "deadbeef", Size := 10, Actions := none, Links := none, Error := none }]
    "download" "download" { StatusCode := 509, Header := [], Body := "" } [] [] false
    (by decide) rfl (Or.inr rfl)

/-! ## Redirects -/

theorem handleResponse_withRequestLog {σ : Type} (env : ClientEnv σ) (res : Response)
    (creds : Option Creds) (s : σ) (log : List Request) :
    handleResponse (withRequestLog env) res creds (s, log) =
      ((handleResponse env res creds s).1, ((handleResponse env res creds s).2, log)) := by
  unfold handleResponse
  by_cases h : res.StatusCode < 400
  · simp [h, withRequestLog]
  · simp [h, withRequestLog]

theorem doHttpRequest_withRequestLog {σ : Type} (env : ClientEnv σ) (req : Request)
    (creds : Option Creds) (s : σ) (log : List Request) :
    doHttpRequest (withRequestLog env) req creds (s, log) =
      ((doHttpRequest env req creds s).1, ((doHttpRequest env req creds s).2, log ++ [req])) := by
  unfold doHttpRequest
  rcases hdo : env.Do req s with ⟨⟨resOpt, err⟩, s1⟩
  have hdo2 : (withRequestLog env).Do req (s, log) = ((resOpt, err), (s1, log ++ [req])) := by
    simp [withRequestLog, hdo]
  rw [hdo2]
  cases err with
  | some e =>
      rfl
  | none =>
      simp only [handleResponse_withRequestLog]
      cases resOpt with
      | none =>
          rcases hh : handleResponse env
            { StatusCode := 0, Status := "", Header := [], Body := "", Request := req }
            creds s1 with ⟨w, s2⟩
          cases w <;> rfl
      | some res =>
          rcases hh : handleResponse env res creds s1 with ⟨w, s2⟩
          cases w <;> rfl

theorem apiCreds_withRequestLog {σ : Type} (env : ClientEnv σ) (useCreds : Bool)
    (req : Request) (s : σ) (log : List Request) :
    apiCreds (withRequestLog env) useCreds req (s, log) =
      ((apiCreds env useCreds req s).1, ((apiCreds env useCreds req s).2, log)) := by
  unfold apiCreds
  cases useCreds with
  | false => rfl
  | true =>
      simp only [if_true]
      rcases hc : env.getCredsForAPI req s with ⟨r, s1⟩
      have hc2 : (withRequestLog env).getCredsForAPI req (s, log) = (r, (s1, log)) := by
        simp [withRequestLog, hc]
      rw [hc2]
      cases r <;> rfl

theorem doApiRequestWithRedirects_of_307 {σ : Type} (env : ClientEnv σ) (fuel : Nat)
    (req : Request) (via : List Request) (useCreds : Bool) (s s1 s2 : σ)
    (creds : Option Creds) (res : Response)
    (hcreds : apiCreds env useCreds req s = (.ok creds, s1))
    (hres : doHttpRequest env req creds s1 = ((res, none), s2))
    (h307 : res.StatusCode = 307) :
    doApiRequestWithRedirects env (fuel + 1) req via useCreds s =
      match newClientRequest env req.Method (redirectTarget env req res) [] with
      | .error err =>
          some (.failed (some res) (Errorf env.errorPanic (some err) err.Error), s2)
      | .ok rreq =>
          match realBody req.Body with
          | .reader data _ .seeks =>
              match env.checkRedirect
                { rreq with Body := .reader data 0 .seeks, ContentLength := req.ContentLength }
                (via ++ [req]) with
              | some err =>
                  some (.failed (some res) (Errorf env.errorPanic (some err) err.Error), s2)
              | none =>
                  doApiRequestWithRedirects env fuel
                    { rreq with Body := .reader data 0 .seeks,
                                ContentLength := req.ContentLength }
                    (via ++ [req]) useCreds s2
          | .reader _ _ (.fails err) =>
              some (.failed (some res) (Error env.errorPanic (.plain err)), s2)
          | _ =>
              some (.failed (some res) (Errorf env.errorPanic none
                "Request body needs to be an io.Seeker to handle redirects."), s2) := by
  unfold apiCreds at hcreds
  rw [doApiRequestWithRedirects]
  simp only [hcreds, hres, h307, if_true, redirectTarget, realBody]

theorem doApiRequestWithRedirects_reissue {σ : Type} (env : ClientEnv σ) (fuel : Nat)
    (req : Request) (via : List Request) (useCreds : Bool) (s s1 s2 : σ)
    (creds : Option Creds) (res : Response) (data : String) (offset : Nat)
    (hcreds : apiCreds env useCreds req s = (.ok creds, s1))
    (hres : doHttpRequest env req creds s1 = ((res, none), s2))
    (h307 : res.StatusCode = 307)
    (hbody : realBody req.Body = .reader data offset .seeks)
    (hnew : env.NewRequest req.Method (redirectTarget env req res) = none)
    (hcheck : env.checkRedirect (redirectedRequest env req res data) (via ++ [req]) = none) :
    doApiRequestWithRedirects env (fuel + 1) req via useCreds s =
      doApiRequestWithRedirects env fuel (redirectedRequest env req res data) (via ++ [req])
        useCreds s2 := by
  rw [doApiRequestWithRedirects_of_307 env fuel req via useCreds s s1 s2 creds res hcreds hres
    h307]
  have hreq : newClientRequest env req.Method (redirectTarget env req res) [] =
      .ok { Method := req.Method, URL := redirectTarget env req res,
            Header := Header.Set [] "User-Agent" env.UserAgent, Body := .absent,
            ContentLength := 0 } := by
    simp [newClientRequest, hnew]
  rw [hreq]
  simp only [hbody]
  have hc : env.checkRedirect
      { Method := req.Method, URL := redirectTarget env req res,
        Header := Header.Set [] "User-Agent" env.UserAgent, Body := .reader data 0 .seeks,
        ContentLength := req.ContentLength } (via ++ [req]) = none := hcheck
  simp only [hc]
  rfl

theorem doApiRequestWithRedirects_of_error {σ : Type} (env : ClientEnv σ) (fuel : Nat)
    (req : Request) (via : List Request) (useCreds : Bool) (s s1 s2 : σ)
    (creds : Option Creds) (res : Response) (wErr : WrappedError)
    (hcreds : apiCreds env useCreds req s = (.ok creds, s1))
    (hres : doHttpRequest env req creds s1 = ((res, some wErr), s2)) :
    doApiRequestWithRedirects env (fuel + 1) req via useCreds s =
      some (.failed (some res) wErr, s2) := by
  unfold apiCreds at hcreds
  rw [doApiRequestWithRedirects]
  simp only [hcreds, hres]

theorem doApiRequestWithRedirects_of_ok {σ : Type} (env : ClientEnv σ) (fuel : Nat)
    (req : Request) (via : List Request) (useCreds : Bool) (s s1 s2 : σ)
    (creds : Option Creds) (res : Response)
    (hcreds : apiCreds env useCreds req s = (.ok creds, s1))
    (hres : doHttpRequest env req creds s1 = ((res, none), s2))
    (h307 : res.StatusCode ≠ 307) :
    doApiRequestWithRedirects env (fuel + 1) req via useCreds s = some (.ok res, s2) := by
  unfold apiCreds at hcreds
  rw [doApiRequestWithRedirects]
  simp only [hcreds, hres, h307, if_false]

theorem doApiRequestWithRedirects_of_no_creds {σ : Type} (env : ClientEnv σ) (fuel : Nat)
    (req : Request) (via : List Request) (useCreds : Bool) (s s1 : σ) (err : GoError)
    (hcreds : apiCreds env useCreds req s = (.error err, s1)) :
    doApiRequestWithRedirects env (fuel + 1) req via useCreds s =
      some (.failed none (Error env.errorPanic err), s1) := by
  unfold apiCreds at hcreds
  rw [doApiRequestWithRedirects]
  simp only [hcreds]

theorem doApiRequestWithRedirects_not_seeker {σ : Type} (env : ClientEnv σ) (fuel : Nat)
    (req : Request) (via : List Request) (useCreds : Bool) (s s1 s2 : σ)
    (creds : Option Creds) (res : Response)
    (hcreds : apiCreds env useCreds req s = (.ok creds, s1))
    (hres : doHttpRequest env req creds s1 = ((res, none), s2))
    (h307 : res.StatusCode = 307)
    (hbody : (realBody req.Body).isSeeker = false) :
    ∃ wErr, doApiRequestWithRedirects env (fuel + 1) req via useCreds s =
      some (.failed (some res) wErr, s2) := by
  rw [doApiRequestWithRedirects_of_307 env fuel req via useCreds s s1 s2 creds res hcreds hres
    h307]
  cases hn : newClientRequest env req.Method (redirectTarget env req res) [] with
  | error err => exact ⟨_, rfl⟩
  | ok rreq =>
      cases hb : realBody req.Body with
      | absent => exact ⟨_, rfl⟩
      | counting inner => exact ⟨_, rfl⟩
      | reader data offset seek =>
          rw [hb] at hbody
          cases seek with
          | notSeeker => exact ⟨_, rfl⟩
          | seeks => simp [Body.isSeeker] at hbody
          | fails err => simp [Body.isSeeker] at hbody

/-- C14: in `doApiRequestWithRedirects`, when the response status is 307 and the
request body (after unwrapping a counting reader) is not seekable, the call returns
an error and the only request sent is the original one; when the body is seekable
the request re-issued (once it is built and the redirect is not refused) has the
original method and content length and the same body rewound to offset 0. -/
theorem redirect_reuses_seekable_body {σ : Type} (env : ClientEnv σ) (fuel : Nat)
    (req : Request) (via : List Request) (useCreds : Bool) (s s1 s2 : σ)
    (log : List Request) (creds : Option Creds) (res : Response)
    (hcreds : apiCreds env useCreds req s = (.ok creds, s1))
    (hres : doHttpRequest env req creds s1 = ((res, none), s2))
    (h307 : res.StatusCode = 307) :
    ((realBody req.Body).isSeeker = false →
        ∃ wErr, doApiRequestWithRedirects (withRequestLog env) (fuel + 1) req via useCreds
            (s, log) = some (.failed (some res) wErr, (s2, log ++ [req]))) ∧
      (∀ data offset, realBody req.Body = .reader data offset .seeks →
        env.NewRequest req.Method (redirectTarget env req res) = none →
        env.checkRedirect (redirectedRequest env req res data) (via ++ [req]) = none →
        (redirectedRequest env req res data).Method = req.Method ∧
          (redirectedRequest env req res data).Body = .reader data 0 .seeks ∧
          (redirectedRequest env req res data).ContentLength = req.ContentLength ∧
          doApiRequestWithRedirects (withRequestLog env) (fuel + 1) req via useCreds (s, log) =
            doApiRequestWithRedirects (withRequestLog env) fuel
              (redirectedRequest env req res data) (via ++ [req]) useCreds
              (s2, log ++ [req])) := by
  have hcredsL : apiCreds (withRequestLog env) useCreds req (s, log) =
      (.ok creds, (s1, log)) := by
    rw [apiCreds_withRequestLog, hcreds]
  have hresL : doHttpRequest (withRequestLog env) req creds (s1, log) =
      ((res, none), (s2, log ++ [req])) := by
    rw [doHttpRequest_withRequestLog, hres]
  constructor
  · intro hbody
    exact doApiRequestWithRedirects_not_seeker (withRequestLog env) fuel req via useCreds
      (s, log) (s1, log) (s2, log ++ [req]) creds res hcredsL hresL h307 hbody
  · intro data offset hbody hnew hcheck
    refine ⟨rfl, rfl, rfl, ?_⟩
    exact doApiRequestWithRedirects_reissue (withRequestLog env) fuel req via useCreds
      (s, log) (s1, log) (s2, log ++ [req]) creds res data offset hcredsL hresL h307 hbody
      hnew hcheck

/-- C15: for every 307 response to a request with a seekable body (the new request
being built and the redirect not refused), `doApiRequestWithRedirects` sends a
second request, and sends it to the `Location` resolved against the URL of the
first request when `Location` is a relative reference, and to `Location` itself when
it is absolute; it returns what that second request gives. The requests are those
handed to `Do`, as the environment records them. `/new/path` against `https://h/old`
resolves to `https://h/new/path`. -/
theorem redirect_goes_to_resolved_location {σ : Type} (env : ClientEnv σ) (fuel : Nat)
    (req : Request) (via : List Request) (useCreds : Bool) (s s1 s2 s3 s4 : σ)
    (log : List Request) (creds creds2 : Option Creds) (res res2 : Response)
    (wErr2 : Option WrappedError) (data : String) (offset : Nat)
    (hcreds : apiCreds env useCreds req s = (.ok creds, s1))
    (hres : doHttpRequest env req creds s1 = ((res, none), s2))
    (h307 : res.StatusCode = 307)
    (hbody : realBody req.Body = .reader data offset .seeks)
    (hnew : env.NewRequest req.Method (redirectTarget env req res) = none)
    (hcheck : env.checkRedirect (redirectedRequest env req res data) (via ++ [req]) = none)
    (hcreds2 : apiCreds env useCreds (redirectedRequest env req res data) s2 =
      (.ok creds2, s3))
    (hres2 : doHttpRequest env (redirectedRequest env req res data) creds2 s3 =
      ((res2, wErr2), s4))
    (hlast : wErr2 = none → res2.StatusCode ≠ 307) :
    doApiRequestWithRedirects (withRequestLog env) (fuel + 2) req via useCreds (s, log) =
        some (match wErr2 with
          | none => .ok res2
          | some wErr => .failed (some res2) wErr,
          (s4, log ++ [req, redirectedRequest env req res data])) ∧
      (env.parseUrl (res.Header.Get "Location") = some false →
        (redirectedRequest env req res data).URL =
          env.ResolveReference req.URL (res.Header.Get "Location")) ∧
      (env.parseUrl (res.Header.Get "Location") = some true →
        (redirectedRequest env req res data).URL = res.Header.Get "Location") ∧
      parseUrlIsAbs "/new/path" = some false ∧
      resolveReferenceString "https://h/old" "/new/path" = "https://h/new/path" := by
  refine ⟨?_, ?_, ?_, by decide, by decide⟩
  · have hc1 : apiCreds (withRequestLog env) useCreds req (s, log) = (.ok creds, (s1, log)) := by
      rw [apiCreds_withRequestLog, hcreds]
    have hr1 : doHttpRequest (withRequestLog env) req creds (s1, log) =
        ((res, none), (s2, log ++ [req])) := by
      rw [doHttpRequest_withRequestLog, hres]
    have hc2 : apiCreds (withRequestLog env) useCreds (redirectedRequest env req res data)
        (s2, log ++ [req]) = (.ok creds2, (s3, log ++ [req])) := by
      rw [apiCreds_withRequestLog, hcreds2]
    have hr2 : doHttpRequest (withRequestLog env) (redirectedRequest env req res data) creds2
        (s3, log ++ [req]) =
        ((res2, wErr2), (s4, log ++ [req] ++ [redirectedRequest env req res data])) := by
      rw [doHttpRequest_withRequestLog, hres2]
    have hlog : log ++ [req] ++ [redirectedRequest env req res data] =
        log ++ [req, redirectedRequest env req res data] := by simp
    rw [hlog] at hr2
    have hstep := doApiRequestWithRedirects_reissue (withRequestLog env) (fuel + 1) req via
      useCreds (s, log) (s1, log) (s2, log ++ [req]) creds res data offset hc1 hr1 h307 hbody
      hnew hcheck
    rw [hstep]
    have hsame : redirectedRequest (withRequestLog env) req res data =
        redirectedRequest env req res data := rfl
    rw [hsame]
    cases wErr2 with
    | some w =>
        exact doApiRequestWithRedirects_of_error (withRequestLog env) fuel _ _ useCreds
          (s2, log ++ [req]) (s3, log ++ [req]) _ creds2 res2 w hc2 hr2
    | none =>
        exact doApiRequestWithRedirects_of_ok (withRequestLog env) fuel _ _ useCreds
          (s2, log ++ [req]) (s3, log ++ [req]) _ creds2 res2 hc2 hr2 (hlast rfl)
  · intro hp
    simp [redirectedRequest, redirectTarget, hp]
  · intro hp
    simp [redirectedRequest, redirectTarget, hp]

/-- C14 on a server that answers 307 and then 200: with a body that is no seeker
the call fails after the one request; with a seekable body two requests are sent,
the second with the same method, the body rewound and the same content length. -/
theorem redirect_reuses_seekable_body_witness :
    (∃ wErr, doApiRequestWithRedirects (withRequestLog (scriptedEnv plainCodec)) (1 + 1)
        unseekablePost [] true (redirectingServer, []) =
        some (.failed
          (some { StatusCode := 307, Status := "", Header := [("Location", "/new/path")],
                  Body := "", Request := unseekablePost })
          wErr,
          ({ answers := [{ StatusCode := 200, Header := [], Body := "" }],
             sent := [unseekablePost], privateAccess := false }, [] ++ [unseekablePost]))) ∧
      (doApiRequestWithRedirects (withRequestLog (scriptedEnv plainCodec)) 2 seekablePost []
          true (redirectingServer, [])).map
        (fun r => r.2.2.map (fun q => (q.Method, q.URL, q.Body, q.ContentLength))) =
        some [("POST", "https://h/old", .reader "payload" 7 .seeks, 7),
              ("POST", "https://h/new/path", .reader "payload" 0 .seeks, 7)] :=
  ⟨(redirect_reuses_seekable_body (scriptedEnv plainCodec) 1 unseekablePost [] true
      redirectingServer redirectingServer
      { answers := [{ StatusCode := 200, Header := [], Body := "" }],
        sent := [unseekablePost], privateAccess := false }
      [] (some [("username", "user"), ("password", "secret")])
      { StatusCode := 307, Status := "", Header := [("Location", "/new/path")], Body := "",
        Request := unseekablePost }
      rfl rfl rfl).1 rfl,
    by decide⟩

/-- C15 on a server that answers 307 with `Location: /new/path` to a request for
`https://h/old` and 200 to the next request: two requests are sent, the second to
`https://h/new/path`, and the 200 response is returned. -/
theorem redirect_goes_to_resolved_location_witness :
    (doApiRequestWithRedirects (withRequestLog (scriptedEnv plainCodec)) (0 + 2) seekablePost
        [] true (redirectingServer, [])).map
      (fun r => (match r.1 with
          | .ok res => some res.StatusCode
          | .failed _ _ => none,
        r.2.2.map (fun q => q.URL))) =
      some (some 200, [ "https://h/old", "https://h/new/path" ]) := by
  rw [(redirect_goes_to_resolved_location (scriptedEnv plainCodec) 0 seekablePost [] true
    redirectingServer redirectingServer
    { answers := [{ StatusCode := 200, Header := [], Body := "" }],
      sent := [seekablePost], privateAccess := false }
    { answers := [{ StatusCode := 200, Header := [], Body := "" }],
      sent := [seekablePost], privateAccess := false }
    { answers := [],
      sent := [seekablePost,
        { Method := "POST", URL := "https://h/new/path",
          Header := [("User-Agent", "git-lfs")], Body := .reader "payload" 0 .seeks,
          ContentLength := 7 }],
      privateAccess := false }
    [] (some [("username", "user"), ("password", "secret")])
    (some [("username", "user"), ("password", "secret")])
    { StatusCode := 307, Status := "", Header := [("Location", "/new/path")], Body := "",
      Request := seekablePost }
    { StatusCode := 200, Status := "", Header := [], Body := "",
      Request :=
        { Method := "POST", URL := "https://h/new/path",
          Header := [("User-Agent", "git-lfs")], Body := .reader "payload" 0 .seeks,
          ContentLength := 7 } }
    none "payload" 7 rfl rfl rfl rfl rfl rfl rfl rfl (fun _ => by decide)).1]
  rfl

/-! ## Building API requests -/

theorem newApiRequest_of_ssh {σ : Type} (env : ClientEnv σ) (method oid : String) (s : σ)
    (res : sshAuthResponse) (e : Option GoError)
    (hssh : env.sshAuthenticate (env.Endpoint s)
      (if method = "POST" ∧ oid ≠ "batch" then "upload" else "download") oid s = (res, e)) :
    newApiRequest env method oid s =
      match env.ObjectUrl
        (if res.Href.length > 0 then { env.Endpoint s with Url := res.Href } else env.Endpoint s)
        (if method = "POST" ∧ oid ≠ "batch" then "" else oid) with
      | .error err => .error err
      | .ok u =>
          match newClientRequest env method u res.Header with
          | .error err => .error err
          | .ok req => .ok { req with Header := req.Header.Set "Accept" mediaType } := by
  simp only [newApiRequest, hssh]

theorem newBatchApiRequest_of_ssh {σ : Type} (env : ClientEnv σ) (s : σ)
    (res : sshAuthResponse) (e : Option GoError)
    (hssh : env.sshAuthenticate (env.Endpoint s) "download" "" s = (res, e)) :
    newBatchApiRequest env s =
      match env.ObjectUrl
        (if res.Href.length > 0 then { env.Endpoint s with Url := res.Href } else env.Endpoint s)
        "batch" with
      | .error err => .error err
      | .ok u =>
          match newBatchClientRequest env "POST" u with
          | .error err => .error err
          | .ok req =>
              .ok { req with
                Header := res.Header.foldl (fun (h : Header) kv => h.Set kv.1 kv.2)
                  (req.Header.Set "Accept" mediaType) } := by
  simp only [newBatchApiRequest, hssh]

/-- C16: SSH discovery failure is non-fatal. Whenever `sshAuthenticate` returns an
error with an empty result, `newApiRequest` and `newBatchApiRequest` return what the
object URL derived from the statically configured endpoint and `http.NewRequest`
give: a request for that URL once both succeed, and otherwise their error, never
the SSH error. A non-empty href returned by SSH discovery replaces the endpoint URL
from which the object URL is derived. -/
theorem ssh_failure_is_not_fatal {σ : Type} (env : ClientEnv σ) (method oid : String) (s : σ) :
    (∀ err, env.sshAuthenticate (env.Endpoint s)
          (if method = "POST" ∧ oid ≠ "batch" then "upload" else "download") oid s =
          ({ Href := "", Header := [] }, some err) →
        newApiRequest env method oid s =
          match env.ObjectUrl (env.Endpoint s)
            (if method = "POST" ∧ oid ≠ "batch" then "" else oid) with
          | .error e => .error e
          | .ok u =>
              match env.NewRequest method u with
              | some e => .error e
              | none =>
                  .ok { Method := method, URL := u,
                        Header := (Header.Set [] "User-Agent" env.UserAgent).Set "Accept"
                          mediaType,
                        Body := .absent, ContentLength := 0 }) ∧
      (∀ err, env.sshAuthenticate (env.Endpoint s) "download" "" s =
          ({ Href := "", Header := [] }, some err) →
        newBatchApiRequest env s =
          match env.ObjectUrl (env.Endpoint s) "batch" with
          | .error e => .error e
          | .ok u =>
              match env.NewRequest "POST" u with
              | some e => .error e
              | none =>
                  .ok { Method := "POST", URL := u,
                        Header := (Header.Set [] "User-Agent" env.UserAgent).Set "Accept"
                          mediaType,
                        Body := .absent, ContentLength := 0 }) ∧
      (∀ res e u, env.sshAuthenticate (env.Endpoint s)
          (if method = "POST" ∧ oid ≠ "batch" then "upload" else "download") oid s = (res, e) →
        0 < res.Href.length →
        env.ObjectUrl { env.Endpoint s with Url := res.Href }
          (if method = "POST" ∧ oid ≠ "batch" then "" else oid) = .ok u →
        env.NewRequest method u = none →
        ∃ req, newApiRequest env method oid s = .ok req ∧ req.URL = u ∧ req.Method = method) ∧
      (∀ res e u, env.sshAuthenticate (env.Endpoint s) "download" "" s = (res, e) →
        0 < res.Href.length →
        env.ObjectUrl { env.Endpoint s with Url := res.Href } "batch" = .ok u →
        env.NewRequest "POST" u = none →
        ∃ req, newBatchApiRequest env s = .ok req ∧ req.URL = u ∧ req.Method = "POST") := by
  refine ⟨?_, ?_, ?_, ?_⟩
  · intro err hssh
    rw [newApiRequest_of_ssh env method oid s _ _ hssh]
    cases hu : env.ObjectUrl (env.Endpoint s)
        (if method = "POST" ∧ oid ≠ "batch" then "" else oid) with
    | error e => simp [hu]
    | ok u =>
        cases hn : env.NewRequest method u with
        | some e => simp [hu, newClientRequest, hn]
        | none => simp [hu, newClientRequest, hn]
  · intro err hssh
    rw [newBatchApiRequest_of_ssh env s _ _ hssh]
    cases hu : env.ObjectUrl (env.Endpoint s) "batch" with
    | error e => simp [hu]
    | ok u =>
        cases hn : env.NewRequest "POST" u with
        | some e => simp [hu, newBatchClientRequest, hn]
        | none => simp [hu, newBatchClientRequest, hn]
  · intro res e u hssh hlen hu hn
    rw [newApiRequest_of_ssh env method oid s _ _ hssh]
    simp only [hlen, if_true, hu, newClientRequest, hn]
    exact ⟨_, rfl, rfl, rfl⟩
  · intro res e u hssh hlen hu hn
    rw [newBatchApiRequest_of_ssh env s _ _ hssh]
    simp only [hlen, if_true, hu, newBatchClientRequest, hn]
    exact ⟨_, rfl, rfl, rfl⟩

/-- C16 in an environment where SSH discovery fails: both requests are built for
the object URL of the configured endpoint. -/
theorem ssh_failure_is_not_fatal_witness :
    (newApiRequest (sshFailingEnv plainCodec) "GET" "deadbeef" redirectingServer).toOption.map
        (fun req => req.URL) = some "https://git.example/repo.git/info/lfs/objects/deadbeef" ∧
      (newBatchApiRequest (sshFailingEnv plainCodec) redirectingServer).toOption.map
        (fun req => req.URL) = some "https://git.example/repo.git/info/lfs/objects/batch" :=
  ⟨by
      rw [(ssh_failure_is_not_fatal (sshFailingEnv plainCodec) "GET" "deadbeef"
        redirectingServer).1 (.plain "ssh: connection refused") rfl]
      decide,
    by
      rw [(ssh_failure_is_not_fatal (sshFailingEnv plainCodec) "GET" "deadbeef"
        redirectingServer).2.1 (.plain "ssh: connection refused") rfl]
      decide⟩

/-! ## Upload check -/

/-- C12: `UploadCheck` returns (no resource, no error), meaning "already present",
if and only if the local file is there, the request is built and the legacy API
request succeeds with status 200; for every other successful status it returns the
decoded object resource with its oid defaulted to the base name of the file when the
response oid is empty and its size defaulted to the local file size when the
response size is 0. -/
theorem UploadCheck_already_present_iff_200 {σ : Type} (env : TransferEnv σ) (fuel : Nat)
    (oidPath : String) (s : σ) :
    (∀ s1, UploadCheck env fuel oidPath s = some (.ok none, s1) ↔
        ∃ size body req0 res obj,
          env.Stat oidPath s = .ok size ∧
          env.marshalObject { Oid := env.Base oidPath, Size := size, Actions := none,
                              Links := none, Error := none } = .ok body ∧
          newApiRequest env.client "POST" (env.Base oidPath) s = .ok req0 ∧
          doLegacyApiRequest env.client fuel (batchRequest req0 body) s =
            some (.ok res obj, s1) ∧
          res.StatusCode = 200) ∧
      (∀ size body req0 res obj s1,
        env.Stat oidPath s = .ok size →
        env.marshalObject { Oid := env.Base oidPath, Size := size, Actions := none,
                            Links := none, Error := none } = .ok body →
        newApiRequest env.client "POST" (env.Base oidPath) s = .ok req0 →
        doLegacyApiRequest env.client fuel (batchRequest req0 body) s = some (.ok res obj, s1) →
        res.StatusCode ≠ 200 →
        UploadCheck env fuel oidPath s =
          some (.ok (some { obj with
            Oid := if obj.Oid = "" then env.Base oidPath else obj.Oid
            Size := if obj.Size = 0 then size else obj.Size }), s1)) := by
  constructor
  · intro s1
    constructor
    · intro h
      unfold UploadCheck at h
      simp only [] at h
      cases hstat : env.Stat oidPath s with
      | error err => simp [hstat] at h
      | ok size =>
          simp only [hstat] at h
          cases hm : env.marshalObject
              { Oid := env.Base oidPath, Size := size, Actions := none, Links := none,
                Error := none } with
          | error err => simp [hm] at h
          | ok body =>
              simp only [hm] at h
              cases hreq : newApiRequest env.client "POST" (env.Base oidPath) s with
              | error err => simp [hreq] at h
              | ok req0 =>
                  simp only [hreq] at h
                  cases hleg : doLegacyApiRequest env.client fuel (batchRequest req0 body) s with
                  | none => simp [hleg] at h
                  | some r =>
                      rcases r with ⟨out, s2⟩
                      cases out with
                      | failed res wErr => simp [hleg] at h
                      | ok res obj =>
                          simp only [hleg] at h
                          by_cases h200 : res.StatusCode = 200
                          · simp only [h200, if_true, Option.some.injEq, Prod.mk.injEq,
                              true_and] at h
                            subst h
                            refine ⟨size, body, req0, res, obj, ?_, ?_, ?_, ?_, h200⟩ <;>
                              first | rfl | assumption
                          · simp [h200] at h
    · rintro ⟨size, body, req0, res, obj, hstat, hm, hreq, hleg, h200⟩
      simp [UploadCheck, hstat, hm, hreq, hleg, h200]
  · intro size body req0 res obj s1 hstat hm hreq hleg h200
    simp [UploadCheck, hstat, hm, hreq, hleg, h200]

/-! ## Uploads -/

theorem doStorageRequest_withTransferLog {σ : Type} (env : TransferEnv σ) (req : Request)
    (s : σ) (log : List Request) :
    doStorageRequest (withTransferLog env) req (s, log) =
      match env.getCreds req s with
      | (.error err, s1) => (.error (Error env.client.errorPanic err), (s1, log))
      | (.ok creds, s1) =>
          match doHttpRequest env.client req creds s1 with
          | ((_, some wErr), s2) => (.error wErr, (s2, log ++ [req]))
          | ((res, none), s2) => (.ok res, (s2, log ++ [req])) := by
  unfold doStorageRequest
  rcases hc : env.getCreds req s with ⟨r, s1⟩
  have hc2 : (withTransferLog env).getCreds req (s, log) = (r, (s1, log)) := by
    simp [withTransferLog, hc]
  rw [hc2]
  cases r with
  | error err => rfl
  | ok creds =>
      have hcl : (withTransferLog env).client = withRequestLog env.client := rfl
      simp only [hcl, doHttpRequest_withRequestLog]
      rcases hh : doHttpRequest env.client req creds s1 with ⟨⟨res, w⟩, s2⟩
      cases w <;> rfl

theorem doAPIRequest_post_unseekable {σ : Type} (env : ClientEnv σ) (fuel : Nat)
    (req : Request) (s : σ) (log : List Request)
    (hpost : req.Method = "POST") (hbody : (realBody req.Body).isSeeker = false) :
    ∃ out s1 log1, doAPIRequest (withRequestLog env) (fuel + 1) req (s, log) =
        some (out, (s1, log1)) ∧
      (log1 = log ∨ log1 = log ++ [req]) ∧
      (∀ c s2, env.getCredsForAPI req s = (.ok c, s2) → log1 = log ++ [req]) ∧
      (∀ e s2, env.getCredsForAPI req s = (.error e, s2) →
        log1 = log ∧ out = .failed none (Error env.errorPanic e)) := by
  have huse : (if req.Method = "GET" ∨ req.Method = "HEAD" then
      (withRequestLog env).PrivateAccess (s, log) else true) = true := by
    simp [hpost]
  unfold doAPIRequest
  simp only [huse]
  rcases hc : env.getCredsForAPI req s with ⟨r, s1⟩
  cases r with
  | error e =>
      have hcreds : apiCreds (withRequestLog env) true req (s, log) =
          (.error e, (s1, log)) := by
        rw [apiCreds_withRequestLog]
        simp [apiCreds, hc]
      refine ⟨.failed none (Error env.errorPanic e), s1, log, ?_, Or.inl rfl, ?_, ?_⟩
      · exact doApiRequestWithRedirects_of_no_creds (withRequestLog env) fuel req [] true
          (s, log) (s1, log) e hcreds
      · intro c s2 h
        simp at h
      · intro e2 s2 h
        simp only [Prod.mk.injEq, Except.error.injEq] at h
        rw [h.1]
        exact ⟨rfl, rfl⟩
  | ok c =>
      have hcreds : apiCreds (withRequestLog env) true req (s, log) =
          (.ok (some c), (s1, log)) := by
        rw [apiCreds_withRequestLog]
        simp [apiCreds, hc]
      rcases hh : doHttpRequest env req (some c) s1 with ⟨⟨res, w⟩, s2⟩
      have hres : doHttpRequest (withRequestLog env) req (some c) (s1, log) =
          ((res, w), (s2, log ++ [req])) := by
        rw [doHttpRequest_withRequestLog, hh]
      have hsent : ∃ out, doApiRequestWithRedirects (withRequestLog env) (fuel + 1) req [] true
          (s, log) = some (out, (s2, log ++ [req])) := by
        cases w with
        | some wErr =>
            exact ⟨_, doApiRequestWithRedirects_of_error (withRequestLog env) fuel req [] true
              (s, log) (s1, log) (s2, log ++ [req]) (some c) res wErr hcreds hres⟩
        | none =>
            by_cases h307 : res.StatusCode = 307
            · obtain ⟨wErr, hw⟩ := doApiRequestWithRedirects_not_seeker (withRequestLog env) fuel
                req [] true (s, log) (s1, log) (s2, log ++ [req]) (some c) res hcreds hres h307
                hbody
              exact ⟨_, hw⟩
            · exact ⟨_, doApiRequestWithRedirects_of_ok (withRequestLog env) fuel req [] true
                (s, log) (s1, log) (s2, log ++ [req]) (some c) res hcreds hres h307⟩
      obtain ⟨out, hout⟩ := hsent
      refine ⟨out, s2, log ++ [req], hout, Or.inr rfl, fun _ _ _ => rfl, ?_⟩
      intro e s3 h
      simp at h

theorem UploadObject_upload_phase {σ : Type} (env : TransferEnv σ) (fuel : Nat)
    (o : objectResource) (s s1 s2 s3 : σ) (log : List Request) (path content : String)
    (req0 : Request) (creds : Option Creds) (res : Response)
    (hpath : env.LocalMediaPath o.Oid s = (.ok path, s1))
    (hopen : env.Open path s1 = .ok content)
    (hrel : o.NewRequest env.client "upload" "PUT" = .ok req0)
    (hcreds : env.getCreds (uploadRequest o req0 content) s1 = (.ok creds, s2))
    (hdo : env.client.Do (uploadRequest o req0 content) s2 = ((some res, none), s3)) :
    UploadObject (withTransferLog env) (fuel + 1) o (s, log) =
      if 400 ≤ res.StatusCode then
        some ((doHttpRequest env.client (uploadRequest o req0 content) creds s2).1.2,
          (env.client.saveCredentials creds res s3, log ++ [uploadRequest o req0 content]))
      else if res.StatusCode > 299 then
        some (some (Errorf env.client.errorPanic none
          ("Invalid status for " ++ (uploadRequest o req0 content).Method ++ " " ++
            (uploadRequest o req0 content).URL ++ ": " ++ toString res.StatusCode)),
          (env.client.saveCredentials creds res s3, log ++ [uploadRequest o req0 content]))
      else
        match o.NewRequest env.client "verify" "POST" with
        | .doesNotExist =>
            some (none,
              (env.client.saveCredentials creds res s3, log ++ [uploadRequest o req0 content]))
        | .failed err =>
            some (some (Error env.client.errorPanic err),
              (env.client.saveCredentials creds res s3, log ++ [uploadRequest o req0 content]))
        | .ok vreq0 =>
            match env.marshalObject o with
            | .error err =>
                some (some (Error env.client.errorPanic err),
                  (env.client.saveCredentials creds res s3,
                    log ++ [uploadRequest o req0 content]))
            | .ok body =>
                (doAPIRequest (withRequestLog env.client) (fuel + 1) (verifyRequest vreq0 body)
                  (env.client.saveCredentials creds res s3,
                    log ++ [uploadRequest o req0 content])).map
                  (fun r => (r.1.wErr, r.2)) := by
  have hpathL : (withTransferLog env).LocalMediaPath o.Oid (s, log) =
      (.ok path, (s1, log)) := by
    simp [withTransferLog, hpath]
  have hopenL : (withTransferLog env).Open path (s1, log) = .ok content := hopen
  have hrelL : o.NewRequest (withTransferLog env).client "upload" "PUT" = .ok req0 := hrel
  have hverL : o.NewRequest (withTransferLog env).client "verify" "POST" =
      o.NewRequest env.client "verify" "POST" := rfl
  have hstore := doStorageRequest_withTransferLog env (uploadRequest o req0 content) s1 log
  rw [hcreds] at hstore
  simp only [] at hstore
  unfold UploadObject
  simp only [hpathL, hopenL, hrelL, hverL]
  by_cases h400 : 400 ≤ res.StatusCode
  · obtain ⟨w, hw⟩ := doHttpRequest_of_error_status env.client (uploadRequest o req0 content)
      creds s2 s3 res hdo h400
    rw [hw] at hstore
    simp only [] at hstore
    simp only [hstore, h400, if_true, hw]
  · have hlt : res.StatusCode < 400 := by omega
    have hw := doHttpRequest_of_ok_status env.client (uploadRequest o req0 content)
      creds s2 s3 res hdo hlt
    rw [hw] at hstore
    simp only [] at hstore
    simp only [hstore, h400, if_false]
    by_cases h299 : res.StatusCode > 299
    · simp only [h299, if_true]
      rfl
    · simp only [h299, if_false]
      cases hv : o.NewRequest env.client "verify" "POST" with
      | doesNotExist => rfl
      | failed err => rfl
      | ok vreq0 =>
          simp only []
          cases hm : env.marshalObject o with
          | error err =>
              have hmL : (withTransferLog env).marshalObject o = .error err := hm
              simp only [hmL]
              rfl
          | ok body =>
              have hmL : (withTransferLog env).marshalObject o = .ok body := hm
              have hcl : (withTransferLog env).client = withRequestLog env.client := rfl
              simp only [hmL, hcl]
              cases hapi : doAPIRequest (withRequestLog env.client) (fuel + 1)
                  (verifyRequest vreq0 body)
                  (env.client.saveCredentials creds res s3,
                    log ++ [uploadRequest o req0 content]) with
              | none => rfl
              | some r =>
                  rcases r with ⟨out, st⟩
                  cases out <;> rfl

theorem objectResource_NewRequest_ok {σ : Type} (env : ClientEnv σ) (o : objectResource)
    (relation method : String) (rel : linkRelation) (req : Request)
    (hrel : o.Rel relation = some rel)
    (hreq : o.NewRequest env relation method = .ok req) :
    req.Method = method ∧ req.URL = rel.Href := by
  unfold objectResource.NewRequest newClientRequest at hreq
  simp only [hrel] at hreq
  cases hn : env.NewRequest method rel.Href with
  | some err => simp [hn] at hreq
  | none =>
      simp only [hn, RelRequest.ok.injEq] at hreq
      rw [← hreq]
      exact ⟨rfl, rfl⟩

/-- C13 (as stated, refuted): the resource has an `upload` and a `verify` relation,
the local file opens and the storage answers 200, but credentials for the API
cannot be obtained: `UploadObject` returns an error and the only request sent is the
PUT of the upload; no POST is issued to the `verify` relation. -/
theorem UploadObject_verify_counterexample :
    (verifiedUpload.Rel "verify").isSome = true ∧
      (UploadObject (scriptedTransferEnv false) 1 verifiedUpload
          { answers := [{ StatusCode := 200, Header := [], Body := "" },
                        { StatusCode := 200, Header := [], Body := "" }],
            sent := [], privateAccess := false }).map
        (fun r => (r.1.isSome, r.2.sent.map (fun q => q.Method))) = some (true, [ "PUT" ]) := by
  decide

/-- C13 (amended): `UploadObject`, for a resource with an upload relation whose
local file opens and whose storage request gets a response: returns an error
whenever the storage response status is greater than 299; when the status is below
300 and the resource has no verify relation it returns success without issuing any
further request; when a verify relation exists it issues at most one POST to it,
never a second request, and exactly one once the request is built and credentials
are obtained, and returns the outcome of that request (or the error that kept it
from being sent). -/
theorem UploadObject_verifies_at_most_once {σ : Type} (env : TransferEnv σ) (fuel : Nat)
    (o : objectResource) (s s1 s2 s3 : σ) (log : List Request) (path content : String)
    (req0 : Request) (creds : Option Creds) (res : Response)
    (hpath : env.LocalMediaPath o.Oid s = (.ok path, s1))
    (hopen : env.Open path s1 = .ok content)
    (hrel : o.NewRequest env.client "upload" "PUT" = .ok req0)
    (hcreds : env.getCreds (uploadRequest o req0 content) s1 = (.ok creds, s2))
    (hdo : env.client.Do (uploadRequest o req0 content) s2 = ((some res, none), s3)) :
    (res.StatusCode > 299 →
        ∃ wErr, UploadObject (withTransferLog env) (fuel + 1) o (s, log) =
          some (some wErr,
            (env.client.saveCredentials creds res s3, log ++ [uploadRequest o req0 content]))) ∧
      (res.StatusCode ≤ 299 → o.Rel "verify" = none →
        UploadObject (withTransferLog env) (fuel + 1) o (s, log) =
          some (none,
            (env.client.saveCredentials creds res s3, log ++ [uploadRequest o req0 content]))) ∧
      (res.StatusCode ≤ 299 → ∀ rel, o.Rel "verify" = some rel →
        ∃ out after log1, UploadObject (withTransferLog env) (fuel + 1) o (s, log) =
            some (out, (after, log1)) ∧
          (log1 = log ++ [uploadRequest o req0 content] ∨
            ∃ vreq, log1 = log ++ [uploadRequest o req0 content] ++ [vreq] ∧
              vreq.Method = "POST" ∧ vreq.URL = rel.Href) ∧
          (∀ vreq0 body c s4, o.NewRequest env.client "verify" "POST" = .ok vreq0 →
            env.marshalObject o = .ok body →
            env.client.getCredsForAPI (verifyRequest vreq0 body)
              (env.client.saveCredentials creds res s3) = (.ok c, s4) →
            log1 = log ++ [uploadRequest o req0 content] ++ [verifyRequest vreq0 body] ∧
              (doAPIRequest (withRequestLog env.client) (fuel + 1) (verifyRequest vreq0 body)
                (env.client.saveCredentials creds res s3,
                  log ++ [uploadRequest o req0 content])).map (fun r => (r.1.wErr, r.2)) =
                some (out, (after, log1)))) := by
  have hup := UploadObject_upload_phase env fuel o s s1 s2 s3 log path content req0 creds res
    hpath hopen hrel hcreds hdo
  refine ⟨?_, ?_, ?_⟩
  · intro h299
    by_cases h400 : 400 ≤ res.StatusCode
    · obtain ⟨w, hw⟩ := doHttpRequest_of_error_status env.client (uploadRequest o req0 content)
        creds s2 s3 res hdo h400
      rw [if_pos h400, hw] at hup
      exact ⟨w, hup⟩
    · rw [if_neg h400, if_pos h299] at hup
      exact ⟨_, hup⟩
  · intro h299 hnone
    have h400 : ¬ 400 ≤ res.StatusCode := by omega
    have hgt : ¬ res.StatusCode > 299 := by omega
    rw [if_neg h400, if_neg hgt] at hup
    have hv : o.NewRequest env.client "verify" "POST" = .doesNotExist := by
      simp [objectResource.NewRequest, hnone]
    rw [hv] at hup
    exact hup
  · intro h299 rel hsome
    have h400 : ¬ 400 ≤ res.StatusCode := by omega
    have hgt : ¬ res.StatusCode > 299 := by omega
    rw [if_neg h400, if_neg hgt] at hup
    cases hv : o.NewRequest env.client "verify" "POST" with
    | doesNotExist =>
        simp [objectResource.NewRequest, hsome] at hv
        cases hn : newClientRequest env.client "POST" rel.Href rel.Header <;> simp [hn] at hv
    | failed err =>
        rw [hv] at hup
        refine ⟨_, _, _, hup, Or.inl rfl, ?_⟩
        intro vreq0 body c s4 h
        simp at h
    | ok vreq0 =>
        rw [hv] at hup
        obtain ⟨hmeth, hurl⟩ := objectResource_NewRequest_ok env.client o "verify" "POST" rel
          vreq0 hsome hv
        cases hm : env.marshalObject o with
        | error err =>
            rw [hm] at hup
            refine ⟨_, _, _, hup, Or.inl rfl, ?_⟩
            intro vreq1 body c s4 _ h
            simp at h
        | ok body =>
            rw [hm] at hup
            simp only [] at hup
            obtain ⟨out, s5, log1, hapi, hlog, hone, _⟩ := doAPIRequest_post_unseekable
              env.client fuel (verifyRequest vreq0 body)
              (env.client.saveCredentials creds res s3)
              (log ++ [uploadRequest o req0 content]) hmeth rfl
            rw [hapi] at hup
            refine ⟨out.wErr, s5, log1, hup, ?_, ?_⟩
            · rcases hlog with h | h
              · exact Or.inl h
              · exact Or.inr ⟨verifyRequest vreq0 body, h, hmeth, hurl⟩
            · intro vreq1 body1 c s4 hv1 hm1 hc
              simp only [RelRequest.ok.injEq] at hv1
              simp only [Except.ok.injEq] at hm1
              subst hv1
              subst hm1
              refine ⟨hone c s4 hc, ?_⟩
              rw [hapi]
              rfl

/-- C13 (amended) on a storage that answers 200 and an API that answers 200 to the
verify request: the PUT and one POST are sent and the upload succeeds. -/
theorem UploadObject_verifies_at_most_once_witness :
    ∃ out after log1, UploadObject (withTransferLog (scriptedTransferEnv true)) (0 + 1)
        verifiedUpload
        ({ answers := [{ StatusCode := 200, Header := [], Body := "" },
                       { StatusCode := 200, Header := [], Body := "" }],
           sent := [], privateAccess := false }, []) = some (out, (after, log1)) ∧
      (log1 = [] ++ [uploadRequest verifiedUpload
            { Method := "PUT", URL := "https://storage.example/deadbeef",
              Header := [("User-Agent", "git-lfs")], Body := .absent, ContentLength := 0 }
            "data"] ∨
        ∃ vreq, log1 = [] ++ [uploadRequest verifiedUpload
            { Method := "PUT", URL := "https://storage.example/deadbeef",
              Header := [("User-Agent", "git-lfs")], Body := .absent, ContentLength := 0 }
            "data"] ++ [vreq] ∧
          vreq.Method = "POST" ∧ vreq.URL = "https://git.example/verify") :=
  have h := (UploadObject_verifies_at_most_once (scriptedTransferEnv true) 0 verifiedUpload
    { answers := [{ StatusCode := 200, Header := [], Body := "" },
                  { StatusCode := 200, Header := [], Body := "" }],
      sent := [], privateAccess := false }
    { answers := [{ StatusCode := 200, Header := [], Body := "" },
                  { StatusCode := 200, Header := [], Body := "" }],
      sent := [], privateAccess := false }
    { answers := [{ StatusCode := 200, Header := [], Body := "" },
                  { StatusCode := 200, Header := [], Body := "" }],
      sent := [], privateAccess := false }
    { answers := [{ StatusCode := 200, Header := [], Body := "" }],
      sent := [uploadRequest verifiedUpload
        { Method := "PUT", URL := "https://storage.example/deadbeef",
          Header := [("User-Agent", "git-lfs")], Body := .absent, ContentLength := 0 }
        "data"],
      privateAccess := false }
    [] "deadbeef" "data"
    { Method := "PUT", URL := "https://storage.example/deadbeef",
      Header := [("User-Agent", "git-lfs")], Body := .absent, ContentLength := 0 }
    none
    { StatusCode := 200, Status := "", Header := [], Body := "",
      Request := uploadRequest verifiedUpload
        { Method := "PUT", URL := "https://storage.example/deadbeef",
          Header := [("User-Agent", "git-lfs")], Body := .absent, ContentLength := 0 }
        "data" }
    rfl rfl rfl rfl rfl).2.2 (by decide)
    { Href := "https://git.example/verify", Header := [] } rfl
  have ⟨out, after, log1, h1, h2, _⟩ := h
  ⟨out, after, log1, h1, h2⟩

/-! ## The content store layout -/

theorem splitByte_of_no_sep (sep : Nat) (l : List Nat) (h : sep ∉ l) :
    splitByte sep l = [l] := by
  induction l with
  | nil => rfl
  | cons c cs ih =>
      have hc : c ≠ sep := fun hc => h (by simp [hc])
      have hcs : sep ∉ cs := fun hcs => h (List.mem_cons_of_mem _ hcs)
      simp [splitByte, hc, ih hcs]

theorem pathStep_of_plain (p : List (List Nat)) (c : List Nat) (h1 : c ≠ []) (h2 : c ≠ [46])
    (h3 : c ≠ [46, 46]) : pathStep p c = p ++ [c] := by
  simp [pathStep, h1, h2, h3]

theorem filepathJoin_of_plain (elems : List (List Nat)) :
    ∀ dir : List (List Nat),
      (∀ e ∈ elems, 47 ∉ e ∧ e ≠ [] ∧ e ≠ [46] ∧ e ≠ [46, 46]) →
      filepathJoin dir elems = dir ++ elems := by
  induction elems with
  | nil => intro dir _; simp [filepathJoin]
  | cons e es ih =>
      intro dir h
      obtain ⟨hs, h1, h2, h3⟩ := h e (List.mem_cons_self _ _)
      have hes : ∀ x ∈ es, 47 ∉ x ∧ x ≠ [] ∧ x ≠ [46] ∧ x ≠ [46, 46] :=
        fun x hx => h x (List.mem_cons_of_mem _ hx)
      have ih2 := ih (dir ++ [e]) hes
      simp only [filepathJoin] at ih2 ⊢
      simp only [List.flatMap_cons, List.foldl_append, splitByte_of_no_sep _ _ hs,
        List.foldl_cons, List.foldl_nil]
      rw [pathStep_of_plain dir e h1 h2 h3, ih2]
      simp

theorem goSlice_mem (s : List Nat) (i j : Nat) (c : Nat) (h : c ∈ goSlice s i j) :
    c ∈ s := by
  simp only [goSlice] at h
  exact List.mem_of_mem_drop (List.mem_of_mem_take h)

theorem goSlice_length (s : List Nat) (i j : Nat) (h : j ≤ s.length) (hij : i ≤ j) :
    (goSlice s i j).length = j - i := by
  simp only [goSlice, List.length_take, List.length_drop]
  omega

theorem hexBytes_plain (oid : List Nat) (hp : hexBytes oid) (b : Nat) (hb : b ∈ oid) :
    b ≠ 47 ∧ b ≠ 46 := by
  rcases hp b hb with h | h | h <;> omega

theorem goSlice_plain (s : List Nat) (i j : Nat) (hp : hexBytes s) (h : j ≤ s.length)
    (hij : i + 2 = j) :
    47 ∉ goSlice s i j ∧ goSlice s i j ≠ [] ∧ goSlice s i j ≠ [46] ∧
      goSlice s i j ≠ [46, 46] := by
  have hl := goSlice_length s i j h (by omega)
  refine ⟨fun hm => (hexBytes_plain s hp _ (goSlice_mem s i j _ hm)).1 rfl, ?_, ?_, ?_⟩
  · intro he
    rw [he] at hl
    simp at hl
    omega
  · intro he
    rw [he] at hl
    simp at hl
    omega
  · intro he
    have hm : 46 ∈ goSlice s i j := by rw [he]; decide
    exact (hexBytes_plain s hp _ (goSlice_mem s i j _ hm)).2 rfl

theorem hexBytes_self_plain (s : List Nat) (hp : hexBytes s) (h : 4 ≤ s.length) :
    47 ∉ s ∧ s ≠ [] ∧ s ≠ [46] ∧ s ≠ [46, 46] := by
  refine ⟨fun hm => (hexBytes_plain s hp _ hm).1 rfl, ?_, ?_, ?_⟩ <;>
  · intro he
    rw [he] at h
    revert h
    decide

theorem LocalMediaPath_of_hex {σ : Type}
    (MkdirAll : List (List Nat) → σ → Option (List Nat) × σ)
    (dir : List (List Nat)) (oid : List Nat) (s s1 : σ)
    (hlen : 4 ≤ oid.length) (hhex : hexBytes oid)
    (hmk : MkdirAll (filepathJoin dir [goSlice oid 0 2, goSlice oid 2 4]) s = (none, s1)) :
    LocalMediaPath MkdirAll dir oid s =
      (.path (dir ++ [goSlice oid 0 2, goSlice oid 2 4, oid]), s1) := by
  have hj : filepathJoin dir [goSlice oid 0 2, goSlice oid 2 4] =
      dir ++ [goSlice oid 0 2, goSlice oid 2 4] := by
    apply filepathJoin_of_plain
    intro e he
    simp only [List.mem_cons, List.mem_singleton, List.not_mem_nil, or_false] at he
    rcases he with he | he
    · rw [he]; exact goSlice_plain oid 0 2 hhex (by omega) rfl
    · rw [he]; exact goSlice_plain oid 2 4 hhex (by omega) rfl
  have hj2 : filepathJoin (dir ++ [goSlice oid 0 2, goSlice oid 2 4]) [oid] =
      (dir ++ [goSlice oid 0 2, goSlice oid 2 4]) ++ [oid] := by
    apply filepathJoin_of_plain
    intro e he
    simp only [List.mem_singleton] at he
    rw [he]
    exact hexBytes_self_plain oid hhex hlen
  have hn : ¬ oid.length < 4 := by omega
  rw [hj] at hmk
  simp only [LocalMediaPath, hn, if_false, hj, hmk, hj2]
  simp

/-- C17: for every oid of at least 4 bytes, all of them hexadecimal digits, for
which the directory can be created, `LocalMediaPath(oid)` returns with no error the
path made of the store root, `oid[0:2]`, `oid[2:4]` and the oid; two such oids that
get the same path are equal, so distinct oids get distinct paths. -/
theorem LocalMediaPath_layout_of_hex_oid {σ : Type}
    (MkdirAll : List (List Nat) → σ → Option (List Nat) × σ)
    (dir : List (List Nat)) (oid : List Nat) (s s1 : σ)
    (hlen : 4 ≤ oid.length) (hhex : hexBytes oid)
    (hmk : MkdirAll (filepathJoin dir [goSlice oid 0 2, goSlice oid 2 4]) s = (none, s1)) :
    LocalMediaPath MkdirAll dir oid s =
        (.path (dir ++ [goSlice oid 0 2, goSlice oid 2 4, oid]), s1) ∧
      (∀ (oid2 : List Nat) (s2 s3 : σ), 4 ≤ oid2.length → hexBytes oid2 →
        MkdirAll (filepathJoin dir [goSlice oid2 0 2, goSlice oid2 2 4]) s2 = (none, s3) →
        (LocalMediaPath MkdirAll dir oid2 s2).1 = (LocalMediaPath MkdirAll dir oid s).1 →
        oid2 = oid) := by
  refine ⟨LocalMediaPath_of_hex MkdirAll dir oid s s1 hlen hhex hmk, ?_⟩
  intro oid2 s2 s3 hlen2 hhex2 hmk2 heq
  rw [LocalMediaPath_of_hex MkdirAll dir oid s s1 hlen hhex hmk,
    LocalMediaPath_of_hex MkdirAll dir oid2 s2 s3 hlen2 hhex2 hmk2] at heq
  simp only [MediaPathResult.path.injEq, List.append_cancel_left_eq, List.cons.injEq,
    and_true] at heq
  exact heq.2.2

/-- C17 on the oid `abcdef` below `/repo/.git/media`: the path is
`/repo/.git/media/ab/cd/abcdef`. -/
theorem LocalMediaPath_layout_of_hex_oid_witness :
    (LocalMediaPath (fun _ (s : Unit) => (none, s))
        [asciiBytes "repo", asciiBytes ".git", asciiBytes "media"] (asciiBytes "abcdef")
        ()).1 =
      .path [asciiBytes "repo", asciiBytes ".git", asciiBytes "media", asciiBytes "ab",
        asciiBytes "cd", asciiBytes "abcdef"] := by
  rw [(LocalMediaPath_layout_of_hex_oid (fun _ (s : Unit) => (none, s))
    [asciiBytes "repo", asciiBytes ".git", asciiBytes "media"] (asciiBytes "abcdef") () ()
    (by decide) (by decide) rfl).1]
  decide

/-! ## Cleaning content into a pointer -/

theorem hexByte_hexDigit (b : Nat) (c : Char) (h : c ∈ hexByte b) :
    ('0' ≤ c ∧ c ≤ '9') ∨ ('a' ≤ c ∧ c ≤ 'f') := by
  have key : ∀ n : Fin 16,
      ('0' ≤ "0123456789abcdef".data.getD n.val '0' ∧
        "0123456789abcdef".data.getD n.val '0' ≤ '9') ∨
      ('a' ≤ "0123456789abcdef".data.getD n.val '0' ∧
        "0123456789abcdef".data.getD n.val '0' ≤ 'f') := by decide
  simp only [hexByte, List.mem_cons, List.mem_singleton, List.not_mem_nil, or_false] at h
  rcases h with h | h
  · rw [h]
    exact key ⟨b / 16 % 16, Nat.mod_lt _ (by decide)⟩
  · rw [h]
    exact key ⟨b % 16, Nat.mod_lt _ (by decide)⟩

theorem hexEncode_hexOid (bytes : List Nat) : hexOid (hexEncode bytes) := by
  intro c hc
  simp only [hexEncode, List.mem_flatMap] at hc
  obtain ⟨b, _, hb⟩ := hc
  exact hexByte_hexDigit b c hb

theorem hexEncode_length (bytes : List Nat) : (hexEncode bytes).length = 2 * bytes.length := by
  show (bytes.flatMap hexByte).length = 2 * bytes.length
  induction bytes with
  | nil => rfl
  | cons b bs ih =>
      simp only [List.flatMap_cons, List.length_append, ih, List.length_cons, hexByte,
        List.length_nil]
      omega

theorem TempFile_ok {env : CleanEnv} {st st1 : TempState} {tmp : String}
    (h : TempFile env st = (.ok tmp, st1)) :
    st1 = { checkedTempDir := true, files := st.files ++ [(tmp, [])] } := by
  unfold TempFile at h
  split at h
  · simp at h
  · split at h
    · simp at h
    · simp only [Prod.mk.injEq, Except.ok.injEq] at h
      rw [← h.2, ← h.1]

theorem TempFile_error {env : CleanEnv} {st st1 : TempState} {err : CleanError}
    (h : TempFile env st = (.error err, st1)) : st1.files = st.files := by
  unfold TempFile at h
  split at h
  · simp only [Prod.mk.injEq] at h
    rw [← h.2]
  · split at h
    · simp only [Prod.mk.injEq] at h
      rw [← h.2]
    · simp at h

theorem writeFile_length (st : TempState) (name : String) (bytes : List Nat) :
    (writeFile st name bytes).files.length = st.files.length := by
  simp [writeFile]

theorem writeFile_names (st : TempState) (name : String) (bytes : List Nat) :
    (writeFile st name bytes).files.map Prod.fst = st.files.map Prod.fst := by
  simp only [writeFile, List.map_map]
  apply List.map_congr_left
  intro f _
  simp only [Function.comp]
  split <;> rfl

theorem copyToTemp_of_TempFile_error (env : CleanEnv) (reader : Reader) (fileSize : Int)
    (st st1 : TempState) (err : CleanError) (h : TempFile env st = (.error err, st1)) :
    copyToTemp env reader fileSize st = (.error err, st1) := by
  simp only [copyToTemp, h]

theorem copyToTemp_of_pointer (env : CleanEnv) (reader rest : Reader) (fileSize : Int)
    (st st1 : TempState) (tmp : String) (bytes : List Nat) (ptr : Option Pointer)
    (htmp : TempFile env st = (.ok tmp, st1))
    (hdec : env.DecodeFrom reader = ((bytes, ptr, none), rest))
    (hlen : bytes.length < 512) :
    copyToTemp env reader fileSize st = (.error (.CleanedPointerError ptr bytes), st1) := by
  simp [copyToTemp, htmp, hdec, hlen]

theorem copyToTemp_of_content (env : CleanEnv) (reader rest : Reader) (fileSize : Int)
    (st st1 : TempState) (tmp : String) (bytes : List Nat) (ptr : Option Pointer)
    (err : Option CleanError)
    (htmp : TempFile env st = (.ok tmp, st1))
    (hdec : env.DecodeFrom reader = ((bytes, ptr, err), rest))
    (hnot : ¬ (err = none ∧ bytes.length < 512)) :
    copyToTemp env reader fileSize st =
      (match rest.failure with
        | some err2 => .error err2
        | none => .ok (hexEncode (env.sha256 (bytes ++ rest.data)),
            wrapInt64 (bytes ++ rest.data).length, tmp),
        writeFile st1 tmp (bytes ++ rest.data)) := by
  have hnot2 : ¬ (err.isNone = true ∧ bytes.length < 512) := by
    rw [Option.isNone_iff_eq_none]
    exact hnot
  simp only [copyToTemp, htmp, hdec, hnot2, if_false, CopyWithCallback]
  cases rest.failure <;> rfl

theorem PointerClean_of_content (env : CleanEnv) (reader rest : Reader) (fileName : String)
    (fileSize : Int) (st st1 : TempState) (tmp : String) (bytes : List Nat)
    (ptr : Option Pointer) (err : Option CleanError)
    (hext : env.SortExtensions = .ok [])
    (htmp : TempFile env st = (.ok tmp, st1))
    (hdec : env.DecodeFrom reader = ((bytes, ptr, err), rest))
    (hnot : ¬ (err = none ∧ bytes.length < 512)) :
    PointerClean env reader fileName fileSize st =
      (match rest.failure with
        | some err2 => .error err2
        | none => .ok { Filename := tmp,
                        Pointer := { Oid := hexEncode (env.sha256 (bytes ++ rest.data)),
                                     Size := wrapInt64 (bytes ++ rest.data).length },
                        Extensions := [] },
        writeFile st1 tmp (bytes ++ rest.data)) := by
  simp only [PointerClean, hext,
    copyToTemp_of_content env reader rest fileSize st st1 tmp bytes ptr err htmp hdec hnot]
  cases rest.failure <;> simp [NewPointer]

theorem PointerClean_of_TempFile_error (env : CleanEnv) (reader : Reader) (fileName : String)
    (fileSize : Int) (st st1 : TempState) (extensions : List Extension) (err : CleanError)
    (hext : env.SortExtensions = .ok extensions)
    (htmp : TempFile env st = (.error err, st1)) :
    PointerClean env reader fileName fileSize st = (.error err, st1) := by
  simp only [PointerClean, hext, copyToTemp_of_TempFile_error env reader fileSize st st1 err htmp]

/-- C18: cleaning with no extensions configured. `DecodeFrom` reads a prefix of
the stream and hands it back. When the input is not detected as an encoded pointer
(`DecodeFrom` reports an error or has read 512 bytes or more), every asset
`PointerClean` returns has as oid the lowercase hexadecimal SHA-256 of exactly the
bytes of the input, those taken by the detection read included once and in order,
and as size the number of these bytes (as an `int64`); it does return such an asset
once the temporary file is created and the stream is read without error. `Clean` of
`pointer/clean.go` returns, once its temporary file is created, an asset with the
same oid and size, together with the error of the copy. -/
theorem PointerClean_hashes_exact_input (env : CleanEnv) (reader rest : Reader)
    (fileName : String) (fileSize : Int) (st : TempState) (bytes : List Nat)
    (ptr : Option Pointer) (err : Option CleanError)
    (hext : env.SortExtensions = .ok [])
    (hdec : env.DecodeFrom reader = ((bytes, ptr, err), rest))
    (hread : bytes ++ rest.data = reader.data ∧ rest.failure = reader.failure)
    (hnot : ¬ (err = none ∧ bytes.length < 512)) :
    (∀ asset st2, PointerClean env reader fileName fileSize st = (.ok asset, st2) →
        asset.Pointer.Oid = hexEncode (env.sha256 reader.data) ∧
        asset.Pointer.Size = wrapInt64 reader.data.length ∧
        (reader.data.length < 2 ^ 63 → asset.Pointer.Size = reader.data.length) ∧
        asset.Extensions = []) ∧
      (∀ tmp st1, TempFile env st = (.ok tmp, st1) → reader.failure = none →
        PointerClean env reader fileName fileSize st =
          (.ok { Filename := tmp,
                 Pointer := { Oid := hexEncode (env.sha256 reader.data),
                              Size := wrapInt64 reader.data.length },
                 Extensions := [] },
            writeFile st1 tmp reader.data)) ∧
      hexOid (hexEncode (env.sha256 reader.data)) ∧
      (∀ asset cerr st2, pointer.Clean env reader st = ((some asset, cerr), st2) →
        asset.Pointer.Oid = hexEncode (env.sha256 reader.data) ∧
        asset.Pointer.Size = wrapInt64 reader.data.length) ∧
      (∀ tmp st1, TempFile env st = (.ok tmp, st1) →
        pointer.Clean env reader st =
          ((some { Filename := tmp,
                   Pointer := { Oid := hexEncode (env.sha256 reader.data),
                                Size := wrapInt64 reader.data.length },
                   Extensions := [] }, reader.failure),
            writeFile st1 tmp reader.data)) := by
  have hsize : reader.data.length < 2 ^ 63 →
      wrapInt64 reader.data.length = reader.data.length := by
    intro h
    apply wrapInt64_of_inRange
    · have : (0 : Int) ≤ reader.data.length := Int.natCast_nonneg _
      omega
    · exact_mod_cast h
  have hok : ∀ tmp st1, TempFile env st = (.ok tmp, st1) → reader.failure = none →
      PointerClean env reader fileName fileSize st =
        (.ok { Filename := tmp,
               Pointer := { Oid := hexEncode (env.sha256 reader.data),
                            Size := wrapInt64 reader.data.length },
               Extensions := [] },
          writeFile st1 tmp reader.data) := by
    intro tmp st1 htmp hfail
    rw [PointerClean_of_content env reader rest fileName fileSize st st1 tmp bytes ptr err
      hext htmp hdec hnot, hread.1, hread.2, hfail]
  refine ⟨?_, hok, hexEncode_hexOid _, ?_, ?_⟩
  rotate_left 2
  · intro tmp st1 htmp
    simp only [pointer.Clean, htmp, NewPointer]
  · intro asset st2 h
    cases htmp : TempFile env st with
    | mk r st1 =>
      cases r with
      | error e =>
          rw [PointerClean_of_TempFile_error env reader fileName fileSize st st1 [] e hext
            htmp] at h
          simp at h
      | ok tmp =>
          rw [PointerClean_of_content env reader rest fileName fileSize st st1 tmp bytes ptr
            err hext htmp hdec hnot, hread.1] at h
          cases hf : rest.failure with
          | some e => rw [hf] at h; simp at h
          | none =>
              rw [hf] at h
              simp only [Prod.mk.injEq, Except.ok.injEq] at h
              rw [← h.1]
              exact ⟨rfl, rfl, hsize, rfl⟩
  · intro asset cerr st2 h
    unfold pointer.Clean at h
    cases htmp : TempFile env st with
    | mk r st1 =>
      rw [htmp] at h
      cases r with
      | error e => simp at h
      | ok tmp =>
          simp only [Prod.mk.injEq, Option.some.injEq] at h
          rw [← h.1.1]
          exact ⟨rfl, rfl⟩

set_option maxRecDepth 10000 in
/-- C18 on an input of 600 bytes that is no pointer: the pointer `PointerClean`
returns has the digest of these 600 bytes in hexadecimal as oid, and size 600; so
has the pointer `Clean` of `pointer/clean.go` returns. -/
theorem PointerClean_hashes_exact_input_witness :
    (PointerClean plainCleanEnv { data := List.replicate 600 7 } "big.bin" 600
        { checkedTempDir := false, files := [] }).1.toOption.map
      (fun asset => (asset.Pointer.Oid, asset.Pointer.Size)) =
      some (hexEncode (sumDigest (List.replicate 600 7)), 600) ∧
      (pointer.Clean plainCleanEnv { data := List.replicate 600 7 }
        { checkedTempDir := false, files := [] }).1.1.map
      (fun asset => (asset.Pointer.Oid, asset.Pointer.Size)) =
      some (hexEncode (sumDigest (List.replicate 600 7)), 600) := by
  have h := PointerClean_hashes_exact_input plainCleanEnv { data := List.replicate 600 7 }
    { data := [] } "big.bin" 600 { checkedTempDir := false, files := [] }
    (List.replicate 600 7) none (some .NotAPointerError) rfl rfl ⟨rfl, rfl⟩
    (by decide)
  constructor
  · rw [h.2.1 "t" { checkedTempDir := true, files := [("t", [])] } rfl rfl]
    rfl
  · rw [h.2.2.2.2 "t" { checkedTempDir := true, files := [("t", [])] } rfl]
    rfl

theorem PointerClean_of_pointer (env : CleanEnv) (reader rest : Reader) (fileName : String)
    (fileSize : Int) (st st1 : TempState) (extensions : List Extension) (tmp : String)
    (bytes : List Nat) (ptr : Option Pointer)
    (hext : env.SortExtensions = .ok extensions)
    (htmp : TempFile env st = (.ok tmp, st1))
    (hdec : env.DecodeFrom reader = ((bytes, ptr, none), rest))
    (hlen : bytes.length < 512) :
    PointerClean env reader fileName fileSize st =
      (.error (.CleanedPointerError ptr bytes), st1) := by
  simp only [PointerClean, hext,
    copyToTemp_of_pointer env reader rest fileSize st st1 tmp bytes ptr htmp hdec hlen]

theorem PointerClean_of_SortExtensions_error (env : CleanEnv) (reader : Reader)
    (fileName : String) (fileSize : Int) (st : TempState) (err : CleanError)
    (hext : env.SortExtensions = .error err) :
    PointerClean env reader fileName fileSize st = (.error err, st) := by
  simp only [PointerClean, hext]

/-- C19 (as stated, refuted): the input is the pointer record `ver`, which
`DecodeFrom` decodes without error from 3 bytes; `PointerClean` fails, and the error
is a `CleanedPointerError` holding the pointer and the bytes read, which is not
`NotAPointerError`. -/
theorem PointerClean_pointer_error_counterexample :
    plainCleanEnv.DecodeFrom { data := [118, 101, 114] } =
        (([118, 101, 114], some { Oid := "0a", Size := 1 }, none), { data := [] }) ∧
      (match (PointerClean plainCleanEnv { data := [118, 101, 114] } "a.bin" 3
          { checkedTempDir := false, files := [] }).1 with
        | .error err => some err
        | .ok _ => none) =
        some (.CleanedPointerError (some { Oid := "0a", Size := 1 }) [118, 101, 114]) ∧
      (match (PointerClean plainCleanEnv { data := [118, 101, 114] } "a.bin" 3
          { checkedTempDir := false, files := [] }).1 with
        | .error err => some err
        | .ok _ => none) ≠ some .NotAPointerError := by
  decide

/-- C19 (amended): whenever the input stream already is an encoded pointer record
(`DecodeFrom` decodes its first bytes without error and fewer than 512 bytes were
read), `PointerClean` returns no cleaned asset; once the extensions are sorted and
the temporary file is created, the error is the `CleanedPointerError` that holds the
pointer decoded and the bytes read, not `NotAPointerError`, and nothing has been
written to the temporary file. -/
theorem PointerClean_rejects_pointer_input (env : CleanEnv) (reader rest : Reader)
    (fileName : String) (fileSize : Int) (st : TempState) (bytes : List Nat)
    (ptr : Option Pointer)
    (hdec : env.DecodeFrom reader = ((bytes, ptr, none), rest))
    (hlen : bytes.length < 512) :
    (∃ err st2, PointerClean env reader fileName fileSize st = (.error err, st2)) ∧
      (∀ extensions tmp st1, env.SortExtensions = .ok extensions →
        TempFile env st = (.ok tmp, st1) →
        PointerClean env reader fileName fileSize st =
            (.error (.CleanedPointerError ptr bytes), st1) ∧
          CleanError.CleanedPointerError ptr bytes ≠ .NotAPointerError ∧
          st1.files = st.files ++ [(tmp, [])]) := by
  constructor
  · cases hext : env.SortExtensions with
    | error e =>
        exact ⟨e, st, PointerClean_of_SortExtensions_error env reader fileName fileSize st e
          hext⟩
    | ok extensions =>
        cases htmp : TempFile env st with
        | mk r st1 =>
          cases r with
          | error e =>
              exact ⟨e, st1, PointerClean_of_TempFile_error env reader fileName fileSize st
                st1 extensions e hext htmp⟩
          | ok tmp =>
              exact ⟨_, st1, PointerClean_of_pointer env reader rest fileName fileSize st st1
                extensions tmp bytes ptr hext htmp hdec hlen⟩
  · intro extensions tmp st1 hext htmp
    refine ⟨PointerClean_of_pointer env reader rest fileName fileSize st st1 extensions tmp
      bytes ptr hext htmp hdec hlen, by simp, ?_⟩
    rw [TempFile_ok htmp]

/-- C19 (amended) on the pointer record `ver`. -/
theorem PointerClean_rejects_pointer_input_witness :
    (∃ err st2, PointerClean plainCleanEnv { data := [118, 101, 114] } "a.bin" 3
        { checkedTempDir := false, files := [] } = (.error err, st2)) ∧
      (∀ extensions tmp st1, plainCleanEnv.SortExtensions = .ok extensions →
        TempFile plainCleanEnv { checkedTempDir := false, files := [] } = (.ok tmp, st1) →
        PointerClean plainCleanEnv { data := [118, 101, 114] } "a.bin" 3
            { checkedTempDir := false, files := [] } =
            (.error (.CleanedPointerError (some { Oid := "0a", Size := 1 })
              [118, 101, 114]), st1) ∧
          CleanError.CleanedPointerError (some { Oid := "0a", Size := 1 }) [118, 101, 114] ≠
            .NotAPointerError ∧
          st1.files = ([] : List (String × List Nat)) ++ [(tmp, [])]) :=
  PointerClean_rejects_pointer_input plainCleanEnv { data := [118, 101, 114] } { data := [] }
    "a.bin" 3 { checkedTempDir := false, files := [] } [118, 101, 114]
    (some { Oid := "0a", Size := 1 }) rfl (by decide)

theorem names_after_write (st st1 : TempState) (tmp : String) (bytes : List Nat)
    (h : st1 = { checkedTempDir := true, files := st.files ++ [(tmp, [])] }) :
    (writeFile st1 tmp bytes).files.map Prod.fst = st.files.map Prod.fst ++ [tmp] := by
  rw [writeFile_names, h]
  simp

theorem remove_after_write (files : List (String × List Nat)) (tmp : String)
    (bytes : List Nat) (hfresh : ∀ f ∈ files, f.1 ≠ tmp) :
    ((files ++ [(tmp, [])]).map
        (fun (f : String × List Nat) => if f.1 = tmp then (f.1, f.2 ++ bytes) else f)).filter
      (fun f => f.1 ≠ tmp) = files := by
  have hmap : files.map (fun f => if f.1 = tmp then (f.1, f.2 ++ bytes) else f) = files := by
    conv_rhs => rw [← List.map_id files]
    apply List.map_congr_left
    intro f hf
    simp [hfresh f hf]
  rw [List.map_append, List.filter_append, hmap]
  have hkeep : files.filter (fun f => f.1 ≠ tmp) = files := by
    rw [List.filter_eq_self]
    intro f hf
    simpa using hfresh f hf
  rw [hkeep]
  simp

/-- C20 (as stated, refuted): `PointerClean` is given a pointer record while the
temporary directory is empty; it returns an error, and afterwards the directory
holds the temporary file `t` that `copyToTemp` created. -/
theorem PointerClean_leaves_temp_file_counterexample :
    (match (PointerClean plainCleanEnv { data := [118, 101, 114] } "a.bin" 3
        { checkedTempDir := false, files := [] }).1 with
      | .error _ => true
      | .ok _ => false) = true ∧
      (PointerClean plainCleanEnv { data := [118, 101, 114] } "a.bin" 3
        { checkedTempDir := false, files := [] }).2.files = [("t", [])] ∧
      (PointerClean plainCleanEnv { data := [118, 101, 114] } "a.bin" 3
        { checkedTempDir := false, files := [] }).2.files ≠ [] := by
  decide

/-- C20 (amended): `PointerClean` removes no temporary file on failure. When it
returns an error after `copyToTemp` has created the temporary file (the input is
already a pointer, the copy fails, the file cannot be reopened), the directory holds
the files of before and that file; after a failure in the extension chain it is as
`pipeExtensions` left it. The directory has the files of before only when the
failure precedes the creation (the extensions cannot be sorted, `TempFile` fails).
The file goes away with `Teardown` on an asset that was returned. -/
theorem PointerClean_failure_keeps_temp_file (env : CleanEnv) (reader rest : Reader)
    (fileName : String) (fileSize : Int) (st : TempState) (bytes : List Nat)
    (ptr : Option Pointer) (derr : Option CleanError)
    (hdec : env.DecodeFrom reader = ((bytes, ptr, derr), rest)) :
    (∀ err st2 e, PointerClean env reader fileName fileSize st = (.error err, st2) →
        env.SortExtensions = .error e → st2 = st) ∧
      (∀ err st2 extensions e st1,
        PointerClean env reader fileName fileSize st = (.error err, st2) →
        env.SortExtensions = .ok extensions → TempFile env st = (.error e, st1) →
        st2.files = st.files) ∧
      (∀ err st2 extensions tmp st1,
        PointerClean env reader fileName fileSize st = (.error err, st2) →
        env.SortExtensions = .ok extensions → TempFile env st = (.ok tmp, st1) →
        st2.files.map Prod.fst = st.files.map Prod.fst ++ [tmp] ∨
          (0 < extensions.length ∧
            st2 = (env.pipeExtensions tmp (hexEncode (env.sha256 (bytes ++ rest.data)))
              fileName extensions (writeFile st1 tmp (bytes ++ rest.data))).2)) ∧
      (∀ asset st2 tmp st1,
        PointerClean env reader fileName fileSize st = (.ok asset, st2) →
        env.SortExtensions = .ok [] → TempFile env st = (.ok tmp, st1) →
        (∀ f ∈ st.files, f.1 ≠ tmp) →
        asset.Teardown st2 = (none, { checkedTempDir := true, files := st.files })) := by
  refine ⟨?_, ?_, ?_, ?_⟩
  · intro err st2 e h hext
    rw [PointerClean_of_SortExtensions_error env reader fileName fileSize st e hext] at h
    simp only [Prod.mk.injEq] at h
    exact h.2.symm
  · intro err st2 extensions e st1 h hext htmp
    rw [PointerClean_of_TempFile_error env reader fileName fileSize st st1 extensions e hext
      htmp] at h
    simp only [Prod.mk.injEq] at h
    rw [← h.2]
    exact TempFile_error htmp
  · intro err st2 extensions tmp st1 h hext htmp
    have hst1 := TempFile_ok htmp
    by_cases hp : derr = none ∧ bytes.length < 512
    · obtain ⟨hd, hlen⟩ := hp
      subst hd
      rw [PointerClean_of_pointer env reader rest fileName fileSize st st1 extensions tmp
        bytes ptr hext htmp hdec hlen] at h
      simp only [Prod.mk.injEq] at h
      left
      rw [← h.2, hst1]
      simp
    · have hc := copyToTemp_of_content env reader rest fileSize st st1 tmp bytes ptr derr
        htmp hdec hp
      simp only [PointerClean, hext, hc] at h
      have hn := names_after_write st st1 tmp (bytes ++ rest.data) hst1
      cases hf : rest.failure with
      | some e =>
          rw [hf] at h
          simp only [Prod.mk.injEq] at h
          left
          rw [← h.2]
          exact hn
      | none =>
          rw [hf] at h
          simp only at h
          by_cases hx : extensions.length > 0
          · simp only [hx, if_true] at h
            cases ho : env.Open tmp (writeFile st1 tmp (bytes ++ rest.data)) with
            | some e =>
                rw [ho] at h
                simp only [Prod.mk.injEq] at h
                left
                rw [← h.2]
                exact hn
            | none =>
                rw [ho] at h
                simp only at h
                right
                refine ⟨hx, ?_⟩
                rcases hpipe : env.pipeExtensions tmp
                  (hexEncode (env.sha256 (bytes ++ rest.data))) fileName extensions
                  (writeFile st1 tmp (bytes ++ rest.data)) with ⟨r, st3⟩
                rw [hpipe] at h
                cases r with
                | error e =>
                    simp only [Prod.mk.injEq] at h
                    exact h.2.symm
                | ok v =>
                    obtain ⟨oid2, tmp2, exts⟩ := v
                    simp only at h
                    cases hs : env.Stat tmp2 st3 with
                    | error e =>
                        rw [hs] at h
                        simp only [Prod.mk.injEq] at h
                        exact h.2.symm
                    | ok size2 =>
                        rw [hs] at h
                        simp at h
          · simp only [hx, if_false] at h
            simp at h
  · intro asset st2 tmp st1 h hext htmp hfresh
    have hst1 := TempFile_ok htmp
    by_cases hp : derr = none ∧ bytes.length < 512
    · obtain ⟨hd, hlen⟩ := hp
      subst hd
      rw [PointerClean_of_pointer env reader rest fileName fileSize st st1 [] tmp
        bytes ptr hext htmp hdec hlen] at h
      simp at h
    · rw [PointerClean_of_content env reader rest fileName fileSize st st1 tmp bytes ptr derr
        hext htmp hdec hp] at h
      cases hf : rest.failure with
      | some e => rw [hf] at h; simp at h
      | none =>
          rw [hf] at h
          simp only [Prod.mk.injEq, Except.ok.injEq] at h
          rw [← h.1, ← h.2, hst1]
          simp only [cleanedAsset.Teardown, writeFile]
          rw [remove_after_write st.files tmp (bytes ++ rest.data) hfresh]
          simp

/-- C20 (amended) on a pointer record given while the directory holds one file:
after the failure it holds that file and the new temporary file. -/
theorem PointerClean_failure_keeps_temp_file_witness :
    List.map Prod.fst
        (PointerClean plainCleanEnv { data := [118, 101, 114] } "a.bin" 3
          { checkedTempDir := true, files := [("t", [1, 2])] }).2.files =
      List.map Prod.fst [("t", [1, 2])] ++ ["tt"] := by
  have h := (PointerClean_failure_keeps_temp_file plainCleanEnv { data := [118, 101, 114] }
    { data := [] } "a.bin" 3 { checkedTempDir := true, files := [("t", [1, 2])] }
    [118, 101, 114] (some { Oid := "0a", Size := 1 }) none rfl).2.2.1
    (.CleanedPointerError (some { Oid := "0a", Size := 1 }) [118, 101, 114])
    (PointerClean plainCleanEnv { data := [118, 101, 114] } "a.bin" 3
      { checkedTempDir := true, files := [("t", [1, 2])] }).2
    [] "tt" { checkedTempDir := true, files := [("t", [1, 2]), ("tt", [])] } rfl rfl rfl
  rcases h with h | ⟨h0, _⟩
  · exact h
  · exact absurd h0 (by decide)

/-! ## The prune tasks as given -/

theorem prune_eq_afterBarrier_empty {σ : Type} (env : PruneEnv σ) (vr dr vb : Bool) (s : σ) :
    prune env vr dr vb s =
      pruneAfterBarrier env vr dr vb (env.AllLocalObjectsChan s) NewStringSet NewStringSet s := by
  simp only [prune, pruneRetaining, pruneTaskGetLocalObjects_eq, pruneTaskCollectRetained,
    pruneTaskGetRetainedCurrentCheckout, pruneTaskGetRetainedRecentRefs,
    pruneTaskGetRetainedUnpushed, pruneTaskGetRetainedWorktree, pruneTaskGetReachableObjects,
    List.append_nil, List.foldl_nil, ite_self]

theorem pruneCheckVerified_of_nothing_reachable (prunable : List String)
    (verified : StringSet) : pruneCheckVerified prunable NewStringSet verified = none := by
  cases h : pruneCheckVerified prunable NewStringSet verified with
  | none => rfl
  | some msg =>
      have hs : (pruneCheckVerified prunable NewStringSet verified).isSome = true := by
        rw [h]; rfl
      obtain ⟨oid, _, _, hmem⟩ := (pruneCheckVerified_isSome_iff _ _ _).1 hs
      simp [NewStringSet] at hmem

theorem pruneAfterBarrier_of_nothing_reachable {σ : Type} (env : PruneEnv σ) (vr vb : Bool)
    (localObjects : List Pointer) (retained : StringSet) (s : σ) :
    (pruneAfterBarrier env vr false vb localObjects retained NewStringSet s).deleted =
        some (pruneDeleteFiles env
          ((localObjects.filter (fun p => decide (p.Oid ∉ retained))).map Pointer.Oid) s) ∧
      (pruneAfterBarrier env vr false vb localObjects retained NewStringSet s).exit =
        (pruneDeleteFiles env
          ((localObjects.filter (fun p => decide (p.Oid ∉ retained))).map Pointer.Oid) s).exit := by
  have hp := pruneAfterBarrier_prunable env vr false vb localObjects retained NewStringSet s
  have hs := (pruneAfterBarrier_scan env vr false vb localObjects retained NewStringSet s).1
  rw [hp] at hs
  simp only [pruneAfterBarrier, pruneCheckVerified_of_nothing_reachable, ite_self, ← hs,
    Bool.false_eq_true, if_false]
  exact ⟨trivial, trivial⟩

/-- C28: in the prune code as given, each of the four retention-source tasks sends
nothing on the retention channel, so the collector leaves the retained set empty,
the prunable list is the list of the oids of all local objects, and a prune that is
no dry run calls `pruneDeleteFiles` on all of them: one deletion attempt for each
locally stored object. -/
theorem prune_as_given_prunes_every_local_object {σ : Type} (env : PruneEnv σ)
    (verifyRemote dryRun verbose : Bool) (s : σ) :
    pruneTaskGetRetainedCurrentCheckout = [] ∧ pruneTaskGetRetainedRecentRefs = [] ∧
      pruneTaskGetRetainedUnpushed = [] ∧ pruneTaskGetRetainedWorktree = [] ∧
      pruneTaskCollectRetained
        (pruneTaskGetRetainedCurrentCheckout ++ pruneTaskGetRetainedRecentRefs ++
          pruneTaskGetRetainedUnpushed ++ pruneTaskGetRetainedWorktree) = NewStringSet ∧
      (prune env verifyRemote dryRun verbose s).prunableObjects =
        (env.AllLocalObjectsChan s).map Pointer.Oid ∧
      (prune env verifyRemote false verbose s).deleted =
        some (pruneDeleteFiles env ((env.AllLocalObjectsChan s).map Pointer.Oid) s) ∧
      (deleteOutcomes env ((env.AllLocalObjectsChan s).map Pointer.Oid) s).length =
        (env.AllLocalObjectsChan s).length := by
  refine ⟨rfl, rfl, rfl, rfl, rfl, ?_, ?_, ?_⟩
  · rw [prune_eq_afterBarrier_empty, pruneAfterBarrier_prunable]
    simp [NewStringSet]
  · rw [prune_eq_afterBarrier_empty,
      (pruneAfterBarrier_of_nothing_reachable env verifyRemote verbose _ NewStringSet s).1]
    simp [NewStringSet]
  · rw [deleteOutcomes_length, List.length_map]

/-- C29: in the prune code as given, `pruneTaskGetReachableObjects` leaves the
reachable set empty, so `pruneCheckVerified` returns without `Exit` for every
prunable list and every verified set, the empty one included, and a verify-remote
prune that is no dry run always reaches the deletion phase: it calls
`pruneDeleteFiles`, and only that call can end the run through `Exit`. -/
theorem prune_as_given_gate_never_aborts {σ : Type} (env : PruneEnv σ) (verbose : Bool)
    (s : σ) :
    pruneTaskGetReachableObjects NewStringSet = NewStringSet ∧
      (∀ (prunableObjects : List String) (verifiedObjects : StringSet),
        pruneCheckVerified prunableObjects (pruneTaskGetReachableObjects NewStringSet)
          verifiedObjects = none) ∧
      (prune env true false verbose s).deleted =
        some (pruneDeleteFiles env ((prune env true false verbose s).prunableObjects) s) ∧
      (prune env true false verbose s).exit =
        (pruneDeleteFiles env ((prune env true false verbose s).prunableObjects) s).exit := by
  refine ⟨rfl, fun p v => pruneCheckVerified_of_nothing_reachable p v, ?_, ?_⟩
  · rw [prune_eq_afterBarrier_empty, pruneAfterBarrier_prunable,
      (pruneAfterBarrier_of_nothing_reachable env true verbose _ NewStringSet s).1]
  · rw [prune_eq_afterBarrier_empty, pruneAfterBarrier_prunable,
      (pruneAfterBarrier_of_nothing_reachable env true verbose _ NewStringSet s).2]

/-! ## Error context -/

theorem Header_Get_cons (kv : String × String) (h : Header) (key : String) :
    Header.Get (kv :: h) key = if kv.1 = key then kv.2 else Header.Get h key := by
  by_cases hk : kv.1 = key
  · simp [Header.Get, List.find?, hk]
  · have hb : (kv.1 == key) = false := by simpa using hk
    simp [Header.Get, List.find?, hk, hb]

theorem Header_Get_of_not_mem (h : Header) (key : String) (hn : key ∉ h.map Prod.fst) :
    Header.Get h key = "" := by
  induction h with
  | nil => rfl
  | cons kv rest ih =>
      simp only [List.map_cons, List.mem_cons, not_or] at hn
      rw [Header_Get_cons, if_neg (fun e => hn.1 e.symm), ih hn.2]

theorem Header_Get_map_set (h : Header) (key value k : String) :
    Header.Get (h.map (fun kv => if kv.1 == key then (key, value) else kv)) k =
      if k = key then (if key ∈ h.map Prod.fst then value else "") else Header.Get h k := by
  induction h with
  | nil =>
      by_cases hk : k = key <;> simp [Header.Get, hk]
  | cons kv rest ih =>
      rw [List.map_cons, Header_Get_cons, ih, Header_Get_cons]
      by_cases h1 : kv.1 = key
      · have hb : (kv.1 == key) = true := by simpa using h1
        by_cases hk : k = key
        · simp [hb, hk, h1]
        · have hk2 : ¬ key = k := fun e => hk e.symm
          have hk3 : ¬ kv.1 = k := fun e => hk (e.symm.trans h1)
          simp [hb, hk, hk2, hk3]
      · have hb : (kv.1 == key) = false := by simpa using h1
        have h1b : ¬ key = kv.1 := fun e => h1 e.symm
        by_cases hk : k = key
        · subst hk
          have hiff : (k ∈ (kv :: rest).map Prod.fst) ↔ k ∈ rest.map Prod.fst := by
            simp only [List.map_cons, List.mem_cons]
            exact ⟨fun h => h.resolve_left h1b, Or.inr⟩
          by_cases hm : k ∈ rest.map Prod.fst
          · rw [if_pos rfl, if_pos rfl, if_pos hm, if_pos (hiff.2 hm)]
            simp [hb, h1]
          · rw [if_pos rfl, if_pos rfl, if_neg hm, if_neg (fun h => hm (hiff.1 h))]
            simp [hb, h1]
        · simp [hb, hk]

theorem Header_Get_Set (h : Header) (key value k : String) :
    Header.Get (Header.Set h key value) k = if k = key then value else Header.Get h k := by
  unfold Header.Set
  by_cases hany : h.any (fun kv => kv.1 == key) = true
  · rw [if_pos hany, Header_Get_map_set]
    have hmem : key ∈ h.map Prod.fst := by
      rw [List.any_eq_true] at hany
      obtain ⟨kv, hkv, hk⟩ := hany
      have : kv.1 = key := by simpa using hk
      exact List.mem_map.2 ⟨kv, hkv, this⟩
    simp [hmem]
  · rw [if_neg hany]
    have hmem : key ∉ h.map Prod.fst := by
      intro hm
      apply hany
      rw [List.any_eq_true]
      obtain ⟨kv, hkv, hk⟩ := List.mem_map.1 hm
      exact ⟨kv, hkv, by simpa using hk⟩
    induction h with
    | nil =>
        by_cases hk : k = key
        · simp [Header.Get, hk]
        · have hk2 : ¬ key = k := fun e => hk e.symm
          simp [Header.Get, hk, hk2]
    | cons kv rest ih =>
        simp only [List.map_cons, List.mem_cons, not_or] at hmem
        have hany2 : ¬ rest.any (fun kv => kv.1 == key) = true := by
          intro h2
          apply hany
          simp only [List.any_cons, Bool.or_eq_true]
          exact Or.inr h2
        rw [List.cons_append, Header_Get_cons, ih hany2 hmem.2, Header_Get_cons]
        by_cases hk : k = key
        · have : ¬ kv.1 = k := fun e => hmem.1 (hk ▸ e.symm)
          simp [hk, this]
          intro e
          exact absurd e.symm hmem.1
        · simp [hk]

theorem contextKey_injective (pfx a b : String) (h : pfx ++ ":" ++ a = pfx ++ ":" ++ b) :
    a = b := by
  have hd := congrArg String.data h
  simp only [String.data_append, List.append_assoc, List.append_cancel_left_eq] at hd
  exact String.ext hd

theorem setErrorHeaderContext_fold (pfx : String) (get : String → String) (l : Header)
    (key : String) :
    ∀ err : WrappedError,
      Header.Get (l.foldl
        (fun (e : WrappedError) kv =>
          if kv.1 ∈ hiddenHeaders then e.Set (pfx ++ ":" ++ kv.1) "--"
          else e.Set (pfx ++ ":" ++ kv.1) (get kv.1)) err).context (pfx ++ ":" ++ key) =
        if key ∈ l.map Prod.fst then (if key ∈ hiddenHeaders then "--" else get key)
        else Header.Get err.context (pfx ++ ":" ++ key) := by
  induction l with
  | nil => intro err; simp
  | cons kv rest ih =>
      intro err
      rw [List.foldl_cons, ih]
      by_cases hr : key ∈ rest.map Prod.fst
      · simp [hr]
      · rw [if_neg hr]
        by_cases hk : kv.1 = key
        · subst hk
          by_cases hh : kv.1 ∈ hiddenHeaders
          · simp [hh, WrappedError.Set, Header_Get_Set]
          · simp [hh, WrappedError.Set, Header_Get_Set]
        · have hne : ¬ pfx ++ ":" ++ key = pfx ++ ":" ++ kv.1 :=
            fun e => hk (contextKey_injective pfx key kv.1 e).symm
          have hk2 : ¬ key = kv.1 := fun e => hk e.symm
          have hmem : key ∉ (kv :: rest).map Prod.fst := by
            simp only [List.map_cons, List.mem_cons, not_or]
            exact ⟨hk2, hr⟩
          rw [if_neg hmem]
          by_cases hh : kv.1 ∈ hiddenHeaders
          · simp [hh, WrappedError.Set, Header_Get_Set, hne]
          · simp [hh, WrappedError.Set, Header_Get_Set, hne]

theorem setErrorHeaderContext_fold_other (pfx : String) (get : String → String) (l : Header)
    (ck : String) (hck : ∀ key ∈ l.map Prod.fst, ck ≠ pfx ++ ":" ++ key) :
    ∀ err : WrappedError,
      Header.Get (l.foldl
        (fun (e : WrappedError) kv =>
          if kv.1 ∈ hiddenHeaders then e.Set (pfx ++ ":" ++ kv.1) "--"
          else e.Set (pfx ++ ":" ++ kv.1) (get kv.1)) err).context ck =
        Header.Get err.context ck := by
  induction l with
  | nil => intro err; rfl
  | cons kv rest ih =>
      intro err
      have hrest : ∀ key ∈ rest.map Prod.fst, ck ≠ pfx ++ ":" ++ key :=
        fun key hkey => hck key (by simp only [List.map_cons]; exact List.mem_cons_of_mem _ hkey)
      have hne : ¬ ck = pfx ++ ":" ++ kv.1 := hck kv.1 (by simp)
      rw [List.foldl_cons, ih hrest]
      by_cases hh : kv.1 ∈ hiddenHeaders
      · simp [hh, WrappedError.Set, Header_Get_Set, hne]
      · simp [hh, WrappedError.Set, Header_Get_Set, hne]

theorem setErrorHeaderContext_key (err : WrappedError) (pfx : String) (head : Header)
    (key : String) (hkey : key ∈ head.map Prod.fst) :
    Header.Get (setErrorHeaderContext err pfx head).context (pfx ++ ":" ++ key) =
      if key ∈ hiddenHeaders then "--" else head.Get key := by
  unfold setErrorHeaderContext
  rw [setErrorHeaderContext_fold pfx head.Get head key err, if_pos hkey]

theorem setErrorHeaderContext_other (err : WrappedError) (pfx : String) (head : Header)
    (ck : String) (hck : ∀ key ∈ head.map Prod.fst, ck ≠ pfx ++ ":" ++ key) :
    Header.Get (setErrorHeaderContext err pfx head).context ck = Header.Get err.context ck := by
  unfold setErrorHeaderContext
  exact setErrorHeaderContext_fold_other pfx head.Get head ck hck err

/-- C30: for every header map and every header key of it, `setErrorHeaderContext`
records `--` under the context key of `Authorization` and the value of the header
under the context key of every other header, and leaves the rest of the context as
it was; so two header maps with the same keys that differ only in the value of
`Authorization` give the same error context. -/
theorem setErrorHeaderContext_hides_Authorization (err : WrappedError) (pfx : String)
    (head : Header) :
    hiddenHeaders = [ "Authorization" ] ∧
      (∀ key ∈ head.map Prod.fst,
        Header.Get (setErrorHeaderContext err pfx head).context (pfx ++ ":" ++ key) =
          if key = "Authorization" then "--" else head.Get key) ∧
      (∀ ck, (∀ key ∈ head.map Prod.fst, ck ≠ pfx ++ ":" ++ key) →
        Header.Get (setErrorHeaderContext err pfx head).context ck =
          Header.Get err.context ck) ∧
      (∀ head2 : Header, (∀ key, key ∈ head.map Prod.fst ↔ key ∈ head2.map Prod.fst) →
        (∀ key, key ≠ "Authorization" → head.Get key = head2.Get key) →
        ∀ ck, Header.Get (setErrorHeaderContext err pfx head).context ck =
          Header.Get (setErrorHeaderContext err pfx head2).context ck) := by
  have hhid : ∀ key : String, key ∈ hiddenHeaders ↔ key = "Authorization" := by
    intro key
    simp [hiddenHeaders]
  refine ⟨rfl, ?_, setErrorHeaderContext_other err pfx head, ?_⟩
  · intro key hkey
    rw [setErrorHeaderContext_key err pfx head key hkey]
    by_cases h : key = "Authorization"
    · rw [if_pos ((hhid key).2 h), if_pos h]
    · rw [if_neg (fun hm => h ((hhid key).1 hm)), if_neg h]
  · intro head2 hkeys hvals ck
    by_cases hex : ∃ key ∈ head.map Prod.fst, ck = pfx ++ ":" ++ key
    · obtain ⟨key, hkey, rfl⟩ := hex
      rw [setErrorHeaderContext_key err pfx head key hkey,
        setErrorHeaderContext_key err pfx head2 key ((hkeys key).1 hkey)]
      by_cases h : key = "Authorization"
      · rw [if_pos ((hhid key).2 h), if_pos ((hhid key).2 h)]
      · rw [if_neg (fun hm => h ((hhid key).1 hm)), if_neg (fun hm => h ((hhid key).1 hm)),
          hvals key h]
    · have h1 : ∀ key ∈ head.map Prod.fst, ck ≠ pfx ++ ":" ++ key :=
        fun key hkey e => hex ⟨key, hkey, e⟩
      have h2 : ∀ key ∈ head2.map Prod.fst, ck ≠ pfx ++ ":" ++ key :=
        fun key hkey e => hex ⟨key, (hkeys key).2 hkey, e⟩
      rw [setErrorHeaderContext_other err pfx head ck h1,
        setErrorHeaderContext_other err pfx head2 ck h2]

/-! ## The prune and checkout commands -/

theorem pruneFlags_target (f : BoolFlag) (hf : f ∈ pruneFlags) : f.target = .pruneDryRunArg := by
  simp only [pruneFlags, List.mem_cons, List.mem_singleton, List.not_mem_nil, or_false] at hf
  rcases hf with h | h | h | h <;> rw [h]

theorem parseFlags_step_others (arg : String) (flags : List BoolFlag)
    (hflags : ∀ f ∈ flags, f.target = .pruneDryRunArg) :
    ∀ a : PruneArgs,
      (flags.foldl (fun a f => if f.matches arg then a.store f.target true else a)
          a).pruneVerboseArg = a.pruneVerboseArg ∧
        (flags.foldl (fun a f => if f.matches arg then a.store f.target true else a)
          a).pruneVerifyArg = a.pruneVerifyArg ∧
        (flags.foldl (fun a f => if f.matches arg then a.store f.target true else a)
          a).pruneDoNotVerifyArg = a.pruneDoNotVerifyArg ∧
        ((flags.foldl (fun a f => if f.matches arg then a.store f.target true else a)
          a).pruneDryRunArg = true ↔
          a.pruneDryRunArg = true ∨ ∃ f ∈ flags, f.matches arg = true) := by
  induction flags with
  | nil => intro a; simp
  | cons f rest ih =>
      intro a
      have hrest : ∀ g ∈ rest, g.target = .pruneDryRunArg :=
        fun g hg => hflags g (List.mem_cons_of_mem _ hg)
      have hf := hflags f (List.mem_cons_self _ _)
      obtain ⟨h1, h2, h3, h4⟩ := ih hrest (if f.matches arg then a.store f.target true else a)
      rw [List.foldl_cons]
      refine ⟨?_, ?_, ?_, ?_⟩
      · rw [h1]; split
        · rw [hf]; rfl
        · rfl
      · rw [h2]; split
        · rw [hf]; rfl
        · rfl
      · rw [h3]; split
        · rw [hf]; rfl
        · rfl
      · rw [h4]
        by_cases hm : f.matches arg = true
        · simp [hm, hf, PruneArgs.store]
        · simp [hm]

theorem parseFlags_pruneFlags (args : List String) :
    (parseFlags pruneFlags args).pruneVerboseArg = false ∧
      (parseFlags pruneFlags args).pruneVerifyArg = false ∧
      (parseFlags pruneFlags args).pruneDoNotVerifyArg = false ∧
      ((parseFlags pruneFlags args).pruneDryRunArg = true ↔
        ∃ arg ∈ args, ∃ f ∈ pruneFlags, f.matches arg = true) := by
  unfold parseFlags
  have key : ∀ (l : List String) (a : PruneArgs),
      (l.foldl (fun a arg =>
          pruneFlags.foldl (fun a f => if f.matches arg then a.store f.target true else a) a)
          a).pruneVerboseArg = a.pruneVerboseArg ∧
        (l.foldl (fun a arg =>
          pruneFlags.foldl (fun a f => if f.matches arg then a.store f.target true else a) a)
          a).pruneVerifyArg = a.pruneVerifyArg ∧
        (l.foldl (fun a arg =>
          pruneFlags.foldl (fun a f => if f.matches arg then a.store f.target true else a) a)
          a).pruneDoNotVerifyArg = a.pruneDoNotVerifyArg ∧
        ((l.foldl (fun a arg =>
          pruneFlags.foldl (fun a f => if f.matches arg then a.store f.target true else a) a)
          a).pruneDryRunArg = true ↔
          a.pruneDryRunArg = true ∨ ∃ arg ∈ l, ∃ f ∈ pruneFlags, f.matches arg = true) := by
    intro l
    induction l with
    | nil => intro a; simp
    | cons arg rest ih =>
        intro a
        obtain ⟨s1, s2, s3, s4⟩ := parseFlags_step_others arg pruneFlags pruneFlags_target a
        obtain ⟨h1, h2, h3, h4⟩ := ih
          (pruneFlags.foldl (fun a f => if f.matches arg then a.store f.target true else a) a)
        rw [List.foldl_cons]
        refine ⟨by rw [h1, s1], by rw [h2, s2], by rw [h3, s3], ?_⟩
        rw [h4, s4]
        constructor
        · rintro ((h | h) | ⟨x, hx, h⟩)
          · exact Or.inl h
          · exact Or.inr ⟨arg, List.mem_cons_self _ _, h⟩
          · exact Or.inr ⟨x, List.mem_cons_of_mem _ hx, h⟩
        · rintro (h | ⟨x, hx, h⟩)
          · exact Or.inl (Or.inl h)
          · rcases List.mem_cons.1 hx with hx | hx
            · subst hx
              exact Or.inl (Or.inr h)
            · exact Or.inr ⟨x, hx, h⟩
  obtain ⟨h1, h2, h3, h4⟩ := key args
    (pruneFlags.foldl (fun a f => a.store f.target false)
      { pruneDryRunArg := false, pruneVerboseArg := false, pruneVerifyArg := false,
        pruneDoNotVerifyArg := false })
  refine ⟨by rw [h1]; rfl, by rw [h2]; rfl, by rw [h3]; rfl, ?_⟩
  rw [h4]
  constructor
  · rintro (h | h)
    · exact absurd h (by decide)
    · exact h
  · exact Or.inr

/-- C24 (the code as given): `init` registers all four flags of prune with the
variable `pruneDryRunArg`. A run with only `--verbose` is a dry run without verbose
output; a run with `--verify-remote` is a dry run without remote verification; and
for every command line prune is never verbose, verifies the remote exactly when the
configuration always asks for it, never ends on the conflict of the two verify
flags, and is a dry run exactly when some flag is given. -/
theorem runPruneCmd_every_flag_sets_dryRun :
    runPruneCmd false [ "--verbose" ] = .prune false true false ∧
      runPruneCmd false [ "--verify-remote" ] = .prune false true false ∧
      runPruneCmd true [ "--no-verify-remote" ] = .prune true true false ∧
      (∀ (PruneVerifyRemoteAlways : Bool) (args : List String),
        runPruneCmd PruneVerifyRemoteAlways args =
          .prune PruneVerifyRemoteAlways
            (decide (∃ arg ∈ args, ∃ f ∈ pruneFlags, f.matches arg = true)) false) := by
  refine ⟨by decide, by decide, by decide, ?_⟩
  intro always args
  obtain ⟨h1, h2, h3, h4⟩ := parseFlags_pruneFlags args
  simp only [runPruneCmd, pruneCommand, h1, h2, h3, Bool.and_false, Bool.false_eq_true,
    if_false, Bool.not_false, Bool.or_false, Bool.true_and]
  congr 1
  by_cases hd : (parseFlags pruneFlags args).pruneDryRunArg = true
  · rw [hd, eq_comm, decide_eq_true_iff]
    exact h4.1 hd
  · have hf : (parseFlags pruneFlags args).pruneDryRunArg = false := by
      simpa using hd
    rw [hf, eq_comm, decide_eq_false_iff_not]
    exact fun h => hd (h4.2 h)

theorem foldl_append_singleton {α β : Type} (g : β → α) (l : List β) :
    ∀ init : List α, l.foldl (fun acc x => acc ++ [g x]) init = init ++ l.map g := by
  induction l with
  | nil => intro init; simp
  | cons x rest ih => intro init; rw [List.foldl_cons, ih]; simp

/-- C26 (the code as given): the include list `checkoutCommand` hands to
`checkoutWithIncludeExclude` starts with one empty string for each argument, which
the conversions of the arguments follow; for the one argument `a.bin` it has two
entries, the first of them empty. -/
theorem checkoutCommand_include_starts_with_empty_strings :
    (∀ (convert : String → String) (args : List String),
        checkoutCommand (.ok convert) args =
          .checkoutWithIncludeExclude (List.replicate args.length "" ++ args.map convert)) ∧
      checkoutCommand (.ok (fun path => "sub/" ++ path)) [ "a.bin" ] =
        .checkoutWithIncludeExclude [ "", "sub/a.bin" ] := by
  constructor
  · intro convert args
    simp only [checkoutCommand, foldl_append_singleton]
  · decide

theorem fileMissingOrSamePointer_iff (r : DecodeFileResult) (oid : String) :
    fileMissingOrSamePointer r oid = true ↔
      (∃ err, r = .notExist err) ∨ ∃ filepointer, r = .pointer filepointer ∧
        filepointer.Oid = oid := by
  cases r with
  | notExist e => simp [fileMissingOrSamePointer]
  | pointer fp => simp [fileMissingOrSamePointer]
  | NotAPointerError => simp [fileMissingOrSamePointer]
  | otherError e => simp [fileMissingOrSamePointer]

theorem checkoutStep_of_panic {σ : Type} (env : CheckoutEnv σ) (toCwd : String → String)
    (acc : CheckoutLoop σ) (pointer : WrappedPointer) (h : acc.panic.isSome = true) :
    checkoutStep env toCwd acc pointer = acc := by
  simp [checkoutStep, h]

theorem checkoutFold_of_panic {σ : Type} (env : CheckoutEnv σ) (toCwd : String → String) :
    ∀ (pointers : List WrappedPointer) (acc : CheckoutLoop σ), acc.panic.isSome = true →
      pointers.foldl (checkoutStep env toCwd) acc = acc := by
  intro pointers
  induction pointers with
  | nil => intro acc _; rfl
  | cons p rest ih =>
      intro acc h
      rw [List.foldl_cons, checkoutStep_of_panic env toCwd acc p h]
      exact ih acc h

theorem checkoutStep_of_wanted {σ : Type} (env : CheckoutEnv σ) (toCwd : String → String)
    (acc : CheckoutLoop σ) (pointer : WrappedPointer) (hpanic : acc.panic = none)
    (h : fileMissingOrSamePointer (env.DecodePointerFromFile pointer.Name acc.state)
      pointer.Pointer.Oid = true) :
    checkoutStep env toCwd acc pointer = checkoutWrite env toCwd acc pointer := by
  have hp : acc.panic.isSome = false := by rw [hpanic]; rfl
  cases hd : env.DecodePointerFromFile pointer.Name acc.state with
  | notExist e => simp [checkoutStep, hp, hd]
  | pointer fp =>
      rw [hd] at h
      have hoid : fp.Oid = pointer.Pointer.Oid := by simpa [fileMissingOrSamePointer] using h
      simp [checkoutStep, hp, hd, hoid]
  | NotAPointerError => rw [hd] at h; simp [fileMissingOrSamePointer] at h
  | otherError e => rw [hd] at h; simp [fileMissingOrSamePointer] at h

theorem checkoutStep_of_unwanted {σ : Type} (env : CheckoutEnv σ) (toCwd : String → String)
    (acc : CheckoutLoop σ) (pointer : WrappedPointer) (hpanic : acc.panic = none)
    (h : fileMissingOrSamePointer (env.DecodePointerFromFile pointer.Name acc.state)
      pointer.Pointer.Oid = false) :
    checkoutStep env toCwd acc pointer =
      match env.DecodePointerFromFile pointer.Name acc.state with
      | .otherError _ => { acc with panic := some ("Problem accessing " ++ pointer.Name) }
      | _ => acc := by
  have hp : acc.panic.isSome = false := by rw [hpanic]; rfl
  cases hd : env.DecodePointerFromFile pointer.Name acc.state with
  | notExist e => rw [hd] at h; simp [fileMissingOrSamePointer] at h
  | pointer fp =>
      rw [hd] at h
      have hoid : fp.Oid ≠ pointer.Pointer.Oid := by
        simpa [fileMissingOrSamePointer] using h
      simp [checkoutStep, hp, hd, hoid]
  | NotAPointerError => simp [checkoutStep, hp, hd]
  | otherError e => simp [checkoutStep, hp, hd]

theorem checkoutWrite_withCheckoutLog {σ : Type} (env : CheckoutEnv σ)
    (toCwd : String → String) (acc : CheckoutLoop (σ × List CheckoutEvent))
    (pointer : WrappedPointer) :
    (checkoutWrite (withCheckoutLog env) toCwd acc pointer).state =
        ((env.PointerSmudgeToFile (toCwd pointer.Name) pointer.Pointer acc.state.1).2,
          acc.state.2 ++ [.smudge (toCwd pointer.Name) pointer.Pointer]) ∧
      (((env.PointerSmudgeToFile (toCwd pointer.Name) pointer.Pointer acc.state.1).1 = none ∧
          (checkoutWrite (withCheckoutLog env) toCwd acc pointer).panic = none ∧
          (checkoutWrite (withCheckoutLog env) toCwd acc pointer).indexInput =
            acc.indexInput ++ [toCwd pointer.Name ++ "\n"]) ∨
        ((env.PointerSmudgeToFile (toCwd pointer.Name) pointer.Pointer acc.state.1).1 ≠ none ∧
          (checkoutWrite (withCheckoutLog env) toCwd acc pointer).panic =
            some "Could not checkout file" ∧
          (checkoutWrite (withCheckoutLog env) toCwd acc pointer).indexInput =
            acc.indexInput)) := by
  unfold checkoutWrite withCheckoutLog
  simp only
  rcases h : env.PointerSmudgeToFile (toCwd pointer.Name) pointer.Pointer acc.state.1 with
    ⟨r, s1⟩
  cases r with
  | none => exact ⟨rfl, Or.inl ⟨rfl, rfl, rfl⟩⟩
  | some e => exact ⟨rfl, Or.inr ⟨by simp, rfl, rfl⟩⟩

theorem checkoutEvents_fold {σ : Type} (env : CheckoutEnv σ) (toCwd : String → String)
    (finish : CheckoutLoop (σ × List CheckoutEvent) → CheckoutLoop (σ × List CheckoutEvent))
    (hstop : ∀ r, r.panic.isSome = true → finish r = r)
    (hwait : ∀ r, r.panic = none →
      (finish r).state.2 = r.state.2 ++ [.updateIndex r.indexInput]) :
    ∀ (pointers : List WrappedPointer) (acc : CheckoutLoop (σ × List CheckoutEvent)),
      acc.panic = none →
      (finish (pointers.foldl (checkoutStep (withCheckoutLog env) toCwd) acc)).state.2 =
        acc.state.2 ++ checkoutEvents env toCwd pointers acc.indexInput acc.state.1 := by
  intro pointers
  induction pointers with
  | nil =>
      intro acc hpanic
      simpa [checkoutEvents] using hwait acc hpanic
  | cons p rest ih =>
      intro acc hpanic
      rw [List.foldl_cons]
      cases hw : fileMissingOrSamePointer (env.DecodePointerFromFile p.Name acc.state.1)
          p.Pointer.Oid with
      | true =>
          rw [checkoutStep_of_wanted (withCheckoutLog env) toCwd acc p hpanic hw]
          obtain ⟨hst, hcase⟩ := checkoutWrite_withCheckoutLog env toCwd acc p
          rcases hcase with ⟨hres, hpan, hidx⟩ | ⟨hres, hpan, hidx⟩
          · rw [ih _ hpan, hst, hidx]
            rcases hsm : env.PointerSmudgeToFile (toCwd p.Name) p.Pointer acc.state.1 with
              ⟨r, s1⟩
            rw [hsm] at hres
            simp only at hres
            subst hres
            simp [checkoutEvents, hw, hsm]
          · have hsome : (checkoutWrite (withCheckoutLog env) toCwd acc p).panic.isSome =
                true := by rw [hpan]; rfl
            rw [checkoutFold_of_panic _ _ rest _ hsome, hstop _ hsome, hst]
            rcases hsm : env.PointerSmudgeToFile (toCwd p.Name) p.Pointer acc.state.1 with
              ⟨r, s1⟩
            rw [hsm] at hres
            cases r with
            | none => exact absurd rfl hres
            | some e => simp [checkoutEvents, hw, hsm]
      | false =>
          rw [checkoutStep_of_unwanted (withCheckoutLog env) toCwd acc p hpanic hw]
          cases hd : env.DecodePointerFromFile p.Name acc.state.1 with
          | otherError e =>
              have hd2 : (withCheckoutLog env).DecodePointerFromFile p.Name acc.state =
                  .otherError e := hd
              have hsome : ({ acc with panic := some ("Problem accessing " ++ p.Name) } :
                  CheckoutLoop (σ × List CheckoutEvent)).panic.isSome = true := rfl
              rw [hd2]
              simp only
              rw [checkoutFold_of_panic _ _ rest _ hsome, hstop _ hsome]
              rw [hd] at hw
              simp [checkoutEvents, hw, hd]
          | notExist e =>
              have hd2 : (withCheckoutLog env).DecodePointerFromFile p.Name acc.state =
                  .notExist e := hd
              rw [hd2]
              simp only
              rw [ih acc hpanic]
              rw [hd] at hw
              simp [checkoutEvents, hw, hd]
          | NotAPointerError =>
              have hd2 : (withCheckoutLog env).DecodePointerFromFile p.Name acc.state =
                  .NotAPointerError := hd
              rw [hd2]
              simp only
              rw [ih acc hpanic]
              rw [hd] at hw
              simp [checkoutEvents, hw, hd]
          | pointer fp =>
              have hd2 : (withCheckoutLog env).DecodePointerFromFile p.Name acc.state =
                  .pointer fp := hd
              rw [hd2]
              simp only
              rw [ih acc hpanic]
              rw [hd] at hw
              simp [checkoutEvents, hw, hd]

/-- C23: `checkoutWithChan` writes an incoming pointer to its working-copy file if
and only if the file is missing or decodes to a pointer with the same oid. Once the
update-index command and the path converter are set up, the calls of
`PointerSmudgeToFile` and the input of `git update-index` that the environment sees
over a whole run are exactly those of `checkoutEvents`; for each pointer the loop
gets to, `PointerSmudgeToFile` is called on it if and only if
`DecodePointerFromFile` reports the file as missing or as a pointer of the same
oid, and then the working copy is the one `PointerSmudgeToFile` left; a file with
non-pointer content or a pointer of another oid leaves the run as it was, with
nothing written and nothing handed to the index. -/
theorem checkoutWithChan_writes_iff_missing_or_same_pointer {σ : Type}
    (env : CheckoutEnv σ) (toCwd : String → String) (pointers : List WrappedPointer) (s : σ)
    (hpipe : env.StdinPipe = none) (hstart : env.Start = none)
    (hconv : env.ConvertRepoFilesRelativeToCwd = .ok toCwd) :
    (checkoutWithChan (withCheckoutLog env) pointers (s, [])).state.2 =
        checkoutEvents env toCwd pointers [] s ∧
      ∀ (acc : CheckoutLoop (σ × List CheckoutEvent)) (pointer : WrappedPointer),
        acc.panic = none →
        (((checkoutStep (withCheckoutLog env) toCwd acc pointer).state.2 =
              acc.state.2 ++ [.smudge (toCwd pointer.Name) pointer.Pointer] ↔
            (∃ err, env.DecodePointerFromFile pointer.Name acc.state.1 = .notExist err) ∨
              ∃ filepointer,
                env.DecodePointerFromFile pointer.Name acc.state.1 = .pointer filepointer ∧
                  filepointer.Oid = pointer.Pointer.Oid) ∧
          ((∃ err, env.DecodePointerFromFile pointer.Name acc.state.1 = .notExist err) ∨
              (∃ filepointer,
                env.DecodePointerFromFile pointer.Name acc.state.1 = .pointer filepointer ∧
                  filepointer.Oid = pointer.Pointer.Oid) →
            (checkoutStep (withCheckoutLog env) toCwd acc pointer).state.1 =
                (env.PointerSmudgeToFile (toCwd pointer.Name) pointer.Pointer acc.state.1).2 ∧
              ((env.PointerSmudgeToFile (toCwd pointer.Name) pointer.Pointer
                    acc.state.1).1 = none →
                (checkoutStep (withCheckoutLog env) toCwd acc pointer).indexInput =
                    acc.indexInput ++ [toCwd pointer.Name ++ "\n"] ∧
                  (checkoutStep (withCheckoutLog env) toCwd acc pointer).panic = none)) ∧
          (env.DecodePointerFromFile pointer.Name acc.state.1 = .NotAPointerError ∨
              (∃ filepointer,
                env.DecodePointerFromFile pointer.Name acc.state.1 = .pointer filepointer ∧
                  filepointer.Oid ≠ pointer.Pointer.Oid) →
            checkoutStep (withCheckoutLog env) toCwd acc pointer = acc) ∧
          ((checkoutStep (withCheckoutLog env) toCwd acc pointer).state.2 ≠
              acc.state.2 ++ [.smudge (toCwd pointer.Name) pointer.Pointer] →
            (checkoutStep (withCheckoutLog env) toCwd acc pointer).state = acc.state ∧
              (checkoutStep (withCheckoutLog env) toCwd acc pointer).indexInput =
                acc.indexInput)) := by
  constructor
  · have hfold := checkoutEvents_fold env toCwd
      (fun r =>
        if r.panic.isSome then r
        else { r with state := (r.state.1, r.state.2 ++ [.updateIndex r.indexInput]) })
      (by intro r hr; simp [hr])
      (by intro r hr; simp [hr])
      pointers { indexInput := [], panic := none, state := (s, []) } rfl
    have hpipe2 : (withCheckoutLog env).StdinPipe = none := hpipe
    have hstart2 : (withCheckoutLog env).Start = none := hstart
    have hconv2 : (withCheckoutLog env).ConvertRepoFilesRelativeToCwd = .ok toCwd := hconv
    simp only [checkoutWithChan, hpipe2, hstart2, hconv2]
    simp only [List.nil_append] at hfold
    split
    · rename_i hp
      simpa [hp] using hfold
    · rename_i hp
      simp only [hp] at hfold
      split
      · rename_i e s1 heq
        have h2 := congrArg (fun r => r.2.2) heq
        simp only [withCheckoutLog] at h2
        simp only
        rw [← h2]
        simpa using hfold
      · rename_i s1 heq
        have h2 := congrArg (fun r => r.2.2) heq
        simp only [withCheckoutLog] at h2
        simp only
        rw [← h2]
        simpa using hfold
  · intro acc pointer hpanic
    have hgrow : ∀ l : List CheckoutEvent,
        l ≠ l ++ [.smudge (toCwd pointer.Name) pointer.Pointer] := by
      intro l h
      have := congrArg List.length h
      simp at this
    have hiff := fileMissingOrSamePointer_iff
      (env.DecodePointerFromFile pointer.Name acc.state.1) pointer.Pointer.Oid
    cases hw : fileMissingOrSamePointer (env.DecodePointerFromFile pointer.Name acc.state.1)
        pointer.Pointer.Oid with
    | true =>
        have hwant := hiff.1 hw
        rw [checkoutStep_of_wanted (withCheckoutLog env) toCwd acc pointer hpanic hw]
        obtain ⟨hst, hcase⟩ := checkoutWrite_withCheckoutLog env toCwd acc pointer
        have hlog : (checkoutWrite (withCheckoutLog env) toCwd acc pointer).state.2 =
            acc.state.2 ++ [.smudge (toCwd pointer.Name) pointer.Pointer] := by rw [hst]
        refine ⟨⟨fun _ => hwant, fun _ => hlog⟩, fun _ => ⟨by rw [hst], ?_⟩, ?_,
          fun h => absurd hlog h⟩
        · intro hnone
          rcases hcase with ⟨_, hpan, hidx⟩ | ⟨hres, _, _⟩
          · exact ⟨hidx, hpan⟩
          · exact absurd hnone hres
        · rintro (h | ⟨fp, hfp, hne⟩)
          · rw [h] at hw; simp [fileMissingOrSamePointer] at hw
          · rw [hfp] at hw
            simp [fileMissingOrSamePointer] at hw
            exact absurd hw hne
    | false =>
        have hnot : ¬ ((∃ err, env.DecodePointerFromFile pointer.Name acc.state.1 =
              .notExist err) ∨
            ∃ filepointer,
              env.DecodePointerFromFile pointer.Name acc.state.1 = .pointer filepointer ∧
                filepointer.Oid = pointer.Pointer.Oid) := by
          intro h
          rw [hiff.2 h] at hw
          cases hw
        rw [checkoutStep_of_unwanted (withCheckoutLog env) toCwd acc pointer hpanic hw]
        cases hd : env.DecodePointerFromFile pointer.Name acc.state.1 with
        | otherError e =>
            have hd2 : (withCheckoutLog env).DecodePointerFromFile pointer.Name acc.state =
                .otherError e := hd
            rw [hd2]
            rw [hd] at hnot
            refine ⟨⟨fun h => absurd h (hgrow _), fun h => absurd h hnot⟩,
              fun h => absurd h hnot, ?_, fun _ => ⟨rfl, rfl⟩⟩
            rintro (h | ⟨fp, hfp, _⟩)
            · cases h
            · cases hfp
        | notExist e =>
            rw [hd] at hnot
            exact absurd (Or.inl ⟨e, rfl⟩) hnot
        | NotAPointerError =>
            have hd2 : (withCheckoutLog env).DecodePointerFromFile pointer.Name acc.state =
                .NotAPointerError := hd
            rw [hd2]
            rw [hd] at hnot
            exact ⟨⟨fun h => absurd h (hgrow _), fun h => absurd h hnot⟩,
              fun h => absurd h hnot, fun _ => rfl, fun _ => ⟨rfl, rfl⟩⟩
        | pointer fp =>
            have hd2 : (withCheckoutLog env).DecodePointerFromFile pointer.Name acc.state =
                .pointer fp := hd
            rw [hd2]
            rw [hd] at hnot
            exact ⟨⟨fun h => absurd h (hgrow _), fun h => absurd h hnot⟩,
              fun h => absurd h hnot, fun _ => rfl, fun _ => ⟨rfl, rfl⟩⟩

/-- C23 on a working copy where `a` holds the pointer of the incoming oid, `b` a
pointer of another oid, `c` other content and `d` is missing: the environment sees
`a` and `d` written and handed to the index, and nothing of `b` and `c`, which keep
what they held. -/
theorem checkoutWithChan_writes_iff_missing_or_same_pointer_witness :
    (checkoutWithChan (withCheckoutLog listCheckoutEnv)
        [⟨"a", ⟨"o1", 1⟩⟩, ⟨"b", ⟨"o2", 1⟩⟩, ⟨"c", ⟨"o3", 1⟩⟩, ⟨"d", ⟨"o4", 1⟩⟩]
        ([("a", some "o1"), ("b", some "zz"), ("c", none)], [])).state.2 =
        [.smudge "a" ⟨"o1", 1⟩, .smudge "d" ⟨"o4", 1⟩, .updateIndex [ "a\n", "d\n" ]] ∧
      (checkoutWithChan (withCheckoutLog listCheckoutEnv)
        [⟨"a", ⟨"o1", 1⟩⟩, ⟨"b", ⟨"o2", 1⟩⟩, ⟨"c", ⟨"o3", 1⟩⟩, ⟨"d", ⟨"o4", 1⟩⟩]
        ([("a", some "o1"), ("b", some "zz"), ("c", none)], [])).state.1 =
        [("d", none), ("a", none), ("b", some "zz"), ("c", none)] :=
  ⟨(checkoutWithChan_writes_iff_missing_or_same_pointer listCheckoutEnv (fun path => path)
      [⟨"a", ⟨"o1", 1⟩⟩, ⟨"b", ⟨"o2", 1⟩⟩, ⟨"c", ⟨"o3", 1⟩⟩, ⟨"d", ⟨"o4", 1⟩⟩]
      [("a", some "o1"), ("b", some "zz"), ("c", none)] rfl rfl rfl).1.trans (by decide),
    by decide⟩

/-! ## Endpoint access -/

theorem toLower_append (a b : String) : toLower (a ++ b) = toLower a ++ toLower b := by
  apply String.ext
  simp [toLower, String.data_append]

theorem accessKey_lower (url : String) (h : toLower url = url) :
    toLower ("lfs." ++ url ++ ".access") = "lfs." ++ url ++ ".access" := by
  rw [toLower_append, toLower_append, h]
  have h1 : toLower "lfs." = "lfs." := by decide
  have h2 : toLower ".access" = ".access" := by decide
  rw [h1, h2]

theorem find_mapSet_self (m : List (String × String)) (key value : String) :
    (mapSet m key value).find? (fun kv => kv.1 == key) = some (key, value) := by
  unfold mapSet
  by_cases hany : m.any (fun kv => kv.1 == key) = true
  · rw [if_pos hany]
    induction m with
    | nil => simp at hany
    | cons kv rest ih =>
        by_cases hk : kv.1 = key
        · simp [List.find?, hk]
        · have hb : (kv.1 == key) = false := by simpa using hk
          have hrest : rest.any (fun kv => kv.1 == key) = true := by
            simpa [List.any_cons, hb] using hany
          simp only [List.map_cons, hb, Bool.false_eq_true, if_false, List.find?]
          exact ih hrest
  · rw [if_neg hany]
    induction m with
    | nil => simp [List.find?]
    | cons kv rest ih =>
        have hb : (kv.1 == key) = false := by
          cases h : (kv.1 == key)
          · rfl
          · exact absurd (by simp [List.any_cons, h]) hany
        have hrest : ¬ rest.any (fun kv => kv.1 == key) = true := by
          intro h
          exact hany (by simp only [List.any_cons, Bool.or_eq_true]; exact Or.inr h)
        simp only [List.cons_append, List.find?, hb]
        exact ih hrest

theorem find_mapDelete_self (m : List (String × String)) (key : String) :
    (mapDelete m key).find? (fun kv => kv.1 == key) = none := by
  unfold mapDelete
  rw [List.find?_eq_none]
  intro kv hkv
  have := (List.mem_filter.1 hkv).2
  simpa using this

theorem EndpointAccess_after_set (output : String) (m : List (String × String))
    (e : Endpoint) (hlower : toLower e.Url = e.Url) :
    (EndpointAccess output { gitConfig := some (mapSet m ("lfs." ++ e.Url ++ ".access")
        AuthTypeBasic) } e).1 = AuthTypeBasic := by
  simp only [EndpointAccess, GitConfig, loadGitConfig, Option.getD_some,
    accessKey_lower e.Url hlower, find_mapSet_self]
  have hlen : AuthTypeBasic.length > 0 := by decide
  have hl : toLower AuthTypeBasic = AuthTypeBasic := by decide
  simp only [hlen, and_self, if_true, hl]

theorem EndpointAccess_after_unset (output : String) (m : List (String × String))
    (e : Endpoint) (hlower : toLower e.Url = e.Url) :
    (EndpointAccess output { gitConfig := some (mapDelete m ("lfs." ++ e.Url ++ ".access")) }
        e).1 = AuthTypeNone := by
  simp only [EndpointAccess, GitConfig, loadGitConfig, Option.getD_some,
    accessKey_lower e.Url hlower, find_mapDelete_self]
  simp

/-- C22 (the code as given): `SetEndpointAccess` stores and deletes the access under
the key as it is written, while `GitConfig` reads under the key in lower case. For
the endpoint `https://Git.Example/Repo` on a loaded configuration,
`EndpointAccess` returns `none` after `SetEndpointAccess(e, basic)`, and still
returns `basic` after `SetEndpointAccess(e, none)` when the access was loaded as
`basic`. For an endpoint whose URL is in lower case both calls are seen. -/
theorem SetEndpointAccess_not_seen_for_mixed_case_url :
    (SetEndpointAccess { gitConfig := some [] }
        { Url := "https://Git.Example/Repo", SshUserAndHost := "" } AuthTypeBasic).map
      (fun c => (EndpointAccess "" c
        { Url := "https://Git.Example/Repo", SshUserAndHost := "" }).1) = some AuthTypeNone ∧
      (EndpointAccess ""
        (loadGitConfig "lfs.https://Git.Example/Repo.access=basic" { gitConfig := none })
        { Url := "https://Git.Example/Repo", SshUserAndHost := "" }).1 = AuthTypeBasic ∧
      (SetEndpointAccess
        (loadGitConfig "lfs.https://Git.Example/Repo.access=basic" { gitConfig := none })
        { Url := "https://Git.Example/Repo", SshUserAndHost := "" } AuthTypeNone).map
      (fun c => (EndpointAccess "" c
        { Url := "https://Git.Example/Repo", SshUserAndHost := "" }).1) = some AuthTypeBasic ∧
      (∀ (output : String) (m : List (String × String)) (e : Endpoint),
        toLower e.Url = e.Url →
        (SetEndpointAccess { gitConfig := some m } e AuthTypeBasic).map
            (fun c => (EndpointAccess output c e).1) = some AuthTypeBasic ∧
          (SetEndpointAccess { gitConfig := some m } e AuthTypeNone).map
            (fun c => (EndpointAccess output c e).1) = some AuthTypeNone) := by
  refine ⟨by decide, by decide, by decide, ?_⟩
  intro output m e hlower
  constructor
  · have hne : ¬ AuthTypeBasic = AuthTypeNone := by decide
    simp only [SetEndpointAccess, hne, if_false, Option.map_some',
      EndpointAccess_after_set output m e hlower]
  · simp only [SetEndpointAccess, if_true, Option.map_some', Option.map_some',
      EndpointAccess_after_unset output m e hlower]

/-! ## Credentials of the batch request -/

theorem doAPIRequest_of_post {σ : Type} (env : ClientEnv σ) (fuel : Nat) (req : Request)
    (s : σ) (hpost : req.Method = "POST") :
    doAPIRequest env fuel req s = doApiRequestWithRedirects env fuel req [] true s := by
  have h : ¬ (req.Method = "GET" ∨ req.Method = "HEAD") := by
    rw [hpost]
    decide
  simp only [doAPIRequest, h, if_false]

theorem Batch_of_no_creds {σ : Type} (env : ClientEnv σ) (fuel : Nat)
    (objects : List objectResource) (operation body : String) (req0 : Request)
    (s s1 : σ) (err : GoError)
    (hne : objects ≠ [])
    (hm : env.codec.marshalBatch objects operation = .ok body)
    (hreq : newBatchApiRequest env s = .ok req0)
    (hcreds : env.getCredsForAPI (batchRequest req0 body) s = (.error err, s1)) :
    Batch env (fuel + 1) objects operation s =
      some (.error (Error env.errorPanic err), s1) := by
  have hpost : (batchRequest req0 body).Method = "POST" :=
    newBatchApiRequest_method env s req0 hreq
  have hlen : ¬ objects.length = 0 := by
    simpa [List.length_eq_zero] using hne
  have hc : apiCreds env true (batchRequest req0 body) s = (.error err, s1) := by
    simp only [apiCreds, if_true, hcreds]
  have hdo : doApiBatchRequest env (fuel + 1) (batchRequest req0 body) s =
      some ({ res := none, objs := [], wErr := some (Error env.errorPanic err) }, s1) := by
    simp only [doApiBatchRequest, doAPIRequest_of_post env (fuel + 1) _ s hpost,
      doApiRequestWithRedirects_of_no_creds env fuel _ [] true s s1 err hc]
  simp only [Batch, hlen, if_false, hm, hreq, hdo]

/-- C21 (the code as given): `doAPIRequest` asks `Config.PrivateAccess()` only for
GET and HEAD requests, and the batch request is a POST, so credentials are
retrieved for it whatever the access of the endpoint is. On an endpoint that is not
marked private and for which no credentials can be had, `Batch` fails on the
retrieval of the credentials before any request is sent. -/
theorem Batch_fetches_credentials_without_private_access :
    (∀ {σ : Type} (env : ClientEnv σ) (fuel : Nat) (req : Request) (s : σ),
        req.Method = "POST" →
        doAPIRequest env fuel req s = doApiRequestWithRedirects env fuel req [] true s) ∧
      (∀ {σ : Type} (env : ClientEnv σ) (fuel : Nat) (objects : List objectResource)
        (operation body : String) (req0 : Request) (s s1 : σ) (err : GoError),
        objects ≠ [] → env.codec.marshalBatch objects operation = .ok body →
        newBatchApiRequest env s = .ok req0 → env.PrivateAccess s = false →
        env.getCredsForAPI (batchRequest req0 body) s = (.error err, s1) →
        Batch env (fuel + 1) objects operation s =
          some (.error (Error env.errorPanic err), s1)) ∧
      (Batch (scriptedTransferEnv false).client 1
          [{ Oid := "deadbeef", Size := 10, Actions := none, Links := none, Error := none }]
          "download"
          { answers := [{ StatusCode := 200, Header := [], Body := "" }], sent := [],
            privateAccess := false }).map
        (fun r => (match r.1 with
            | .error wErr => some wErr.Err
            | .ok _ => none,
          r.2.sent.length, r.2.privateAccess)) =
        some (some (.plain "credentials unavailable"), 0, false) := by
  refine ⟨fun env fuel req s hpost => doAPIRequest_of_post env fuel req s hpost, ?_, by decide⟩
  intro σ env fuel objects operation body req0 s s1 err hne hm hreq _ hcreds
  exact Batch_of_no_creds env fuel objects operation body req0 s s1 err hne hm hreq hcreds

/-! ## Classification of the batch answer -/

theorem handleResponse_none_lt_400 {σ : Type} (env : ClientEnv σ) (res : Response)
    (creds : Option Creds) (s s1 : σ) (h : handleResponse env res creds s = (none, s1)) :
    res.StatusCode < 400 := by
  by_contra hge
  obtain ⟨w, hw, _⟩ := handleResponse_of_ge_400 env res creds s (by omega)
  rw [hw] at h
  simp at h

theorem doHttpRequest_no_error_lt_400 {σ : Type} (env : ClientEnv σ) (req : Request)
    (creds : Option Creds) (s s2 : σ) (res : Response)
    (h : doHttpRequest env req creds s = ((res, none), s2)) : res.StatusCode < 400 := by
  unfold doHttpRequest at h
  rcases hdo : env.Do req s with ⟨⟨resOpt, err⟩, s1⟩
  rw [hdo] at h
  cases err with
  | some e => simp at h
  | none =>
      cases resOpt with
      | none =>
          simp only at h
          rcases hh : handleResponse env
            { StatusCode := 0, Status := "", Header := [], Body := "", Request := req }
            creds s1 with ⟨w, s3⟩
          rw [hh] at h
          cases w with
          | some w => simp at h
          | none =>
              simp only [Prod.mk.injEq, and_true] at h
              rw [← h.1]
              show (0 : Int) < 400
              decide
      | some r =>
          simp only at h
          rcases hh : handleResponse env r creds s1 with ⟨w, s3⟩
          rw [hh] at h
          cases w with
          | some w => simp at h
          | none =>
              simp only [Prod.mk.injEq, and_true] at h
              rw [← h.1]
              exact handleResponse_none_lt_400 env r creds s1 s3 hh

theorem doApiRequestWithRedirects_ok_lt_400 {σ : Type} (env : ClientEnv σ) (fuel : Nat) :
    ∀ (req : Request) (via : List Request) (useCreds : Bool) (s s2 : σ) (res : Response),
      doApiRequestWithRedirects env fuel req via useCreds s = some (.ok res, s2) →
      res.StatusCode < 400 := by
  induction fuel with
  | zero =>
      intro req via useCreds s s2 res h
      simp [doApiRequestWithRedirects] at h
  | succ n ih =>
      intro req via useCreds s s2 res h
      rcases hc : apiCreds env useCreds req s with ⟨c, s1⟩
      cases c with
      | error e =>
          rw [doApiRequestWithRedirects_of_no_creds env n req via useCreds s s1 e hc] at h
          simp at h
      | ok creds =>
          rcases hd : doHttpRequest env req creds s1 with ⟨⟨r, w⟩, s3⟩
          cases w with
          | some w =>
              rw [doApiRequestWithRedirects_of_error env n req via useCreds s s1 s3 creds r w
                hc hd] at h
              simp at h
          | none =>
              have hlt := doHttpRequest_no_error_lt_400 env req creds s1 s3 r hd
              by_cases h307 : r.StatusCode = 307
              · rw [doApiRequestWithRedirects_of_307 env n req via useCreds s s1 s3 creds r
                  hc hd h307] at h
                split at h
                · simp at h
                · split at h
                  · split at h
                    · simp at h
                    · exact ih _ _ _ _ _ _ h
                  · simp at h
                  · simp at h
              · rw [doApiRequestWithRedirects_of_ok env n req via useCreds s s1 s3 creds r hc
                  hd h307] at h
                simp only [Option.some.injEq, Prod.mk.injEq, ApiOutcome.ok.injEq] at h
                rw [← h.1]
                exact hlt


theorem doApiBatchRequest_error_status {σ : Type} (env : ClientEnv σ) (fuel : Nat)
    (req : Request) (s s1 : σ) (out : BatchOutcome) (res : Response)
    (h : doApiBatchRequest env fuel req s = some (out, s1)) (hres : out.res = some res)
    (hge : 400 ≤ res.StatusCode) : out.wErr.isSome = true := by
  unfold doApiBatchRequest at h
  cases hd : doAPIRequest env fuel req s with
  | none => rw [hd] at h; simp at h
  | some r =>
      obtain ⟨o, s2⟩ := r
      rw [hd] at h
      cases o with
      | failed r w =>
          simp only [Option.some.injEq, Prod.mk.injEq] at h
          rw [← h.1]
          rfl
      | ok r =>
          have hlt : r.StatusCode < 400 := by
            unfold doAPIRequest at hd
            exact doApiRequestWithRedirects_ok_lt_400 env fuel _ _ _ _ _ _ hd
          simp only at h
          split at h
          · simp only [Option.some.injEq, Prod.mk.injEq] at h
            rw [← h.1]
            rfl
          · simp only [Option.some.injEq, Prod.mk.injEq] at h
            rw [← h.1] at hres
            simp only [Option.some.injEq] at hres
            rw [hres] at hlt
            omega

theorem Batch_of_outcome {σ : Type} (env : ClientEnv σ) (fuel : Nat)
    (objects : List objectResource) (operation body : String) (req0 : Request)
    (s s1 : σ) (out : BatchOutcome) (res : Response)
    (hne : objects ≠ [])
    (hm : env.codec.marshalBatch objects operation = .ok body)
    (hreq : newBatchApiRequest env s = .ok req0)
    (hdo : doApiBatchRequest env (fuel + 1) (batchRequest req0 body) s = some (out, s1))
    (hres : out.res = some res) :
    Batch env (fuel + 1) objects operation s =
      if res.StatusCode = 401 ∧ out.wErr.isSome then
        Batch env fuel objects operation (env.SetPrivateAccess s1)
      else if res.StatusCode = 404 ∨ res.StatusCode = 410 then
        some (.error (Error env.errorPanic newNotImplError), s1)
      else if res.StatusCode ≠ 200 then
        some (.error (Error env.errorPanic (.plain
          ("Invalid status for " ++ (batchRequest req0 body).Method ++ " " ++
            (batchRequest req0 body).URL ++ ": " ++ toString res.StatusCode))), s1)
      else some (.ok out.objs, s1) := by
  have hlen : ¬ objects.length = 0 := by
    simpa [List.length_eq_zero] using hne
  simp only [Batch, hlen, if_false, hm, hreq, hdo, hres]
  by_cases h401 : res.StatusCode = 401
  · have hw := doApiBatchRequest_error_status env (fuel + 1) _ s s1 out res hdo hres
      (by omega)
    simp [h401, hw]
  · by_cases h404 : res.StatusCode = 404 ∨ res.StatusCode = 410
    · have hw := doApiBatchRequest_error_status env (fuel + 1) _ s s1 out res hdo hres
        (by omega)
      simp [h401, h404, hw]
    · simp [h401, h404]

/-- C27 (as stated, refuted): the batch request gets the answer 401, a non-200 status
other than 404 and 410, and `Batch` yields no error: it runs the call again, gets
200 and returns the objects, after two requests. -/
theorem Batch_401_then_200_counterexample :
    (Batch (scriptedEnv plainCodec) 2
        [{ Oid := "deadbeef", Size := 10, Actions := none, Links := none, Error := none }]
        "download"
        { answers := [{ StatusCode := 401, Header := [], Body := "" },
                      { StatusCode := 200,
                        Header := [("Content-Type", "application/vnd.git-lfs+json")],
                        Body := "deadbeef" }],
          sent := [], privateAccess := false }).map
      (fun r => (r.1.toBool, r.2.sent.length)) = some (true, 2) := by
  decide

/-- C27 (amended): for every non-empty object list and every response `res` that the
batch request produced, when the status is not 401 `Batch` returns an error
recognised by `isNotImplError` if and only if the status is 404 or 410; every other
status but 200 gives an error that `isNotImplError` does not recognise, and 200
gives the objects. On a 401 `Batch` marks the endpoint private and runs the call
again, so that the later response is classified. An empty object list returns
(nil, nil) and sends no request. -/
theorem Batch_not_implemented_iff_404_410 {σ : Type} (env : ClientEnv σ) (fuel : Nat)
    (objects : List objectResource) (operation body : String) (req0 : Request)
    (s s1 : σ) (out : BatchOutcome) (res : Response)
    (hne : objects ≠ [])
    (hm : env.codec.marshalBatch objects operation = .ok body)
    (hreq : newBatchApiRequest env s = .ok req0)
    (hdo : doApiBatchRequest env (fuel + 1) (batchRequest req0 body) s = some (out, s1))
    (hres : out.res = some res) :
    (res.StatusCode ≠ 401 →
        ∃ r, Batch env (fuel + 1) objects operation s = some (r, s1) ∧
          ((∃ e, r = .error e ∧ isNotImplError e = true) ↔
            (res.StatusCode = 404 ∨ res.StatusCode = 410)) ∧
          (res.StatusCode ≠ 200 → res.StatusCode ≠ 404 → res.StatusCode ≠ 410 →
            ∃ e, r = .error e ∧ isNotImplError e = false) ∧
          (res.StatusCode = 200 → r = .ok out.objs)) ∧
      (res.StatusCode = 401 →
        Batch env (fuel + 1) objects operation s =
          Batch env fuel objects operation (env.SetPrivateAccess s1)) ∧
      (∀ log : List Request,
        Batch (withRequestLog env) (fuel + 1) [] operation (s, log) =
          some (.ok [], (s, log))) := by
  have hB := Batch_of_outcome env fuel objects operation body req0 s s1 out res hne hm hreq
    hdo hres
  refine ⟨?_, ?_, ?_⟩
  · intro h401
    have h401b : ¬ (res.StatusCode = 401 ∧ out.wErr.isSome = true) := fun h => h401 h.1
    rw [if_neg h401b] at hB
    by_cases h404 : res.StatusCode = 404 ∨ res.StatusCode = 410
    · rw [if_pos h404] at hB
      refine ⟨_, hB, ⟨fun _ => h404, fun _ => ⟨_, rfl, rfl⟩⟩, ?_, ?_⟩
      · intro _ h1 h2
        rcases h404 with h | h
        · exact absurd h h1
        · exact absurd h h2
      · intro h200
        rcases h404 with h | h <;> omega
    · rw [if_neg h404] at hB
      by_cases h200 : res.StatusCode = 200
      · have hn : ¬ res.StatusCode ≠ 200 := fun h => h h200
        rw [if_neg hn] at hB
        refine ⟨_, hB, ⟨?_, fun h => absurd h h404⟩, fun h => absurd h200 h, fun _ => rfl⟩
        rintro ⟨e, he, _⟩
        cases he
      · rw [if_pos h200] at hB
        refine ⟨_, hB, ⟨?_, fun h => absurd h h404⟩, fun _ _ _ => ⟨_, rfl, rfl⟩,
          fun h => absurd h h200⟩
        rintro ⟨e, he, hn⟩
        simp only [Except.error.injEq] at he
        rw [← he] at hn
        simp [isNotImplError, Error, Errorf] at hn
  · intro h401
    have hw := doApiBatchRequest_error_status env (fuel + 1) _ s s1 out res hdo hres
      (by omega)
    rw [if_pos ⟨h401, hw⟩] at hB
    exact hB
  · intro log
    simp [Batch]

/-- C27 (amended) on the server that answers 404 to the batch request: the error is
recognised by `isNotImplError`. -/
theorem Batch_not_implemented_iff_404_410_witness :
    ∃ e after, Batch (scriptedEnv plainCodec) (0 + 1)
        [{ Oid := "deadbeef", Size := 10, Actions := none, Links := none, Error := none }]
        "download"
        { answers := [{ StatusCode := 404, Header := [], Body := "" }], sent := [],
          privateAccess := false } = some (.error e, after) ∧
      isNotImplError e = true := by
  obtain ⟨r, hr, hiff, _, _⟩ :=
    (Batch_not_implemented_iff_404_410 (scriptedEnv plainCodec) 0
      [{ Oid := "deadbeef", Size := 10, Actions := none, Links := none, Error := none }]
      "download" "download"
      (match newBatchApiRequest (scriptedEnv plainCodec)
          { answers := [{ StatusCode := 404, Header := [], Body := "" }], sent := [],
            privateAccess := false } with
        | .ok req => req
        | .error _ => seekablePost)
      { answers := [{ StatusCode := 404, Header := [], Body := "" }], sent := [],
        privateAccess := false }
      { answers := [],
        sent := [batchRequest
          (match newBatchApiRequest (scriptedEnv plainCodec)
              { answers := [{ StatusCode := 404, Header := [], Body := "" }], sent := [],
                privateAccess := false } with
            | .ok req => req
            | .error _ => seekablePost) "download"],
        privateAccess := false }
      (match doApiBatchRequest (scriptedEnv plainCodec) 1
          (batchRequest
            (match newBatchApiRequest (scriptedEnv plainCodec)
                { answers := [{ StatusCode := 404, Header := [], Body := "" }], sent := [],
                  privateAccess := false } with
              | .ok req => req
              | .error _ => seekablePost) "download")
          { answers := [{ StatusCode := 404, Header := [], Body := "" }], sent := [],
            privateAccess := false } with
        | some (out, _) => out
        | none => { res := none, objs := [], wErr := none })
      { StatusCode := 404, Status := "", Header := [], Body := "",
        Request := batchRequest
          (match newBatchApiRequest (scriptedEnv plainCodec)
              { answers := [{ StatusCode := 404, Header := [], Body := "" }], sent := [],
                privateAccess := false } with
            | .ok req => req
            | .error _ => seekablePost) "download" }
      (by decide) rfl rfl rfl rfl).1 (by decide)
  obtain ⟨e, he, hn⟩ := hiff.2 (Or.inl rfl)
  exact ⟨e, _, by rw [hr, he], hn⟩

/-! ## The barrier of prune -/

theorem StringSet_mem_Add (s : StringSet) (oid x : String) :
    x ∈ StringSet.Add s oid ↔ x = oid ∨ x ∈ s := by
  unfold StringSet.Add
  split
  · rename_i h
    constructor
    · exact Or.inr
    · rintro (h1 | h1)
      · rw [h1]; exact h
      · exact h1
  · rw [List.mem_append, List.mem_singleton]
    exact Or.comm

theorem running_set_some (l : List (Option (List String))) :
    ∀ (i : Nat) (x y : List String), l[i]? = some (some x) →
      ((l.set i (some y)).filter Option.isSome).length = (l.filter Option.isSome).length := by
  induction l with
  | nil => intro i x y h; simp at h
  | cons p rest ih =>
      intro i x y h
      cases i with
      | zero =>
          simp only [List.getElem?_cons_zero, Option.some.injEq] at h
          rw [h]
          simp [List.filter]
      | succ n =>
          simp only [List.getElem?_cons_succ] at h
          have := ih n x y h
          cases p with
          | none => simpa [List.filter] using this
          | some v => simpa [List.filter] using this

theorem running_set_none (l : List (Option (List String))) :
    ∀ (i : Nat) (x : List String), l[i]? = some (some x) →
      ((l.set i none).filter Option.isSome).length + 1 = (l.filter Option.isSome).length := by
  induction l with
  | nil => intro i x h; simp at h
  | cons p rest ih =>
      intro i x h
      cases i with
      | zero =>
          simp only [List.getElem?_cons_zero, Option.some.injEq] at h
          rw [h]
          simp [List.filter]
      | succ n =>
          simp only [List.getElem?_cons_succ] at h
          have := ih n x h
          cases p with
          | none => simpa [List.filter] using this
          | some v =>
              simp only [List.set_cons_succ, List.filter, Option.isSome_some, List.length_cons]
              omega

theorem running_zero (l : List (Option (List String)))
    (h : (l.filter Option.isSome).length = 0) : ∀ p ∈ l, p = none := by
  intro p hp
  cases p with
  | none => rfl
  | some v =>
      have hm : some v ∈ l.filter Option.isSome := List.mem_filter.2 ⟨hp, rfl⟩
      rw [List.length_eq_zero] at h
      rw [h] at hm
      simp at hm

theorem not_running_of_all_none (l : List (Option (List String))) (i : Nat)
    (x : List String) (h : l[i]? = some (some x)) (hall : ∀ p ∈ l, p = none) : False := by
  have hm : some x ∈ l := List.getElem?_mem h
  have := hall _ hm
  simp at this

theorem PruneTasks.start_invariant (a b c d : List String) (verifyRemote : Bool) :
    PruneTasks.Invariant [a, b, c, d] (PruneTasks.start a b c d verifyRemote) := by
  refine
    { pending := ?_, sound := ⟨?_, ?_, ?_⟩, counted := ?_, waited := ?_, closedAt := ?_,
      drained := ?_, retainCounted := ?_, released := ?_ }
  · intro i script hi oid hoid
    refine Or.inr (Or.inr ⟨script, ?_, hoid⟩)
    match i, hi with
    | 0, hi => simpa [PruneTasks.start] using hi
    | 1, hi => simpa [PruneTasks.start] using hi
    | 2, hi => simpa [PruneTasks.start] using hi
    | 3, hi => simpa [PruneTasks.start] using hi
    | n + 4, hi => simp at hi
  · intro oid h
    simp [PruneTasks.start, NewStringSet] at h
  · intro oid h
    simp [PruneTasks.start] at h
  · intro i rest hi oid hoid
    match i, hi with
    | 0, hi =>
        have : a = rest := by simpa [PruneTasks.start] using hi
        exact ⟨a, by simp, this ▸ hoid⟩
    | 1, hi =>
        have : b = rest := by simpa [PruneTasks.start] using hi
        exact ⟨b, by simp, this ▸ hoid⟩
    | 2, hi =>
        have : c = rest := by simpa [PruneTasks.start] using hi
        exact ⟨c, by simp, this ▸ hoid⟩
    | 3, hi =>
        have : d = rest := by simpa [PruneTasks.start] using hi
        exact ⟨d, by simp, this ▸ hoid⟩
    | n + 4, hi => simp [PruneTasks.start] at hi
  · cases verifyRemote <;> simp [PruneTasks.start, List.filter]
  · intro h
    simp [PruneTasks.start] at h
  · simp [PruneTasks.start]
  · intro h
    simp [PruneTasks.start] at h
  · simp [PruneTasks.start]
  · intro h
    simp [PruneTasks.start] at h

theorem PruneTasks.invariant_step (scripts : List (List String)) (st st2 : PruneTasks)
    (inv : PruneTasks.Invariant scripts st) (hstep : PruneTasks.Step st st2) :
    PruneTasks.Invariant scripts st2 := by
  cases hstep with
  | send i oid rest h1 h2 h3 =>
      have hlt : i < st.producers.length := by
        by_contra hn
        rw [List.getElem?_eq_none (by omega)] at h1
        simp at h1
      refine
        { pending := ?_, sound := ⟨inv.sound.1, ?_, ?_⟩, counted := ?_, waited := ?_,
          closedAt := inv.closedAt, drained := ?_, retainCounted := inv.retainCounted,
          released := inv.released }
      · intro j script hj x hx
        rcases inv.pending j script hj x hx with h | h | ⟨rem, hrem, hxr⟩
        · exact Or.inl h
        · exact Or.inr (Or.inl (List.mem_append_left _ h))
        · by_cases hji : i = j
          · subst hji
            rw [h1] at hrem
            simp only [Option.some.injEq] at hrem
            rw [← hrem] at hxr
            rcases List.mem_cons.1 hxr with hx1 | hx1
            · exact Or.inr (Or.inl (by rw [hx1]; simp))
            · refine Or.inr (Or.inr ⟨rest, ?_, hx1⟩)
              simp [List.getElem?_set, hlt]
          · refine Or.inr (Or.inr ⟨rem, ?_, hxr⟩)
            simp only [List.getElem?_set_ne hji]
            exact hrem
      · intro x hx
        rcases List.mem_append.1 hx with h | h
        · exact inv.sound.2.1 x h
        · simp only [List.mem_singleton] at h
          rw [h]
          exact inv.sound.2.2 i _ h1 oid (List.mem_cons_self _ _)
      · intro j rem hj x hx
        by_cases hji : i = j
        · subst hji
          simp only [List.getElem?_set, hlt, if_true, Option.some.injEq] at hj
          rw [← hj] at hx
          exact inv.sound.2.2 i _ h1 x (List.mem_cons_of_mem _ hx)
        · simp only [List.getElem?_set_ne hji] at hj
          exact inv.sound.2.2 j rem hj x hx
      · show st.taskwait =
          ((st.producers.set i (some rest)).filter Option.isSome).length + st.others
        rw [running_set_some st.producers i (oid :: rest) rest h1]
        exact inv.counted
      · intro hm
        exact absurd (inv.waited hm) (fun hall => not_running_of_all_none _ i _ h1 hall)
      · intro hc
        have := (inv.drained hc).1
        rw [h3] at this
        simp at this
  | producerDone i h1 =>
      have hlt : i < st.producers.length := by
        by_contra hn
        rw [List.getElem?_eq_none (by omega)] at h1
        simp at h1
      refine
        { pending := ?_, sound := ⟨inv.sound.1, inv.sound.2.1, ?_⟩, counted := ?_,
          waited := ?_, closedAt := inv.closedAt, drained := inv.drained,
          retainCounted := inv.retainCounted, released := inv.released }
      · intro j script hj x hx
        rcases inv.pending j script hj x hx with h | h | ⟨rem, hrem, hxr⟩
        · exact Or.inl h
        · exact Or.inr (Or.inl h)
        · by_cases hji : i = j
          · subst hji
            rw [h1] at hrem
            simp only [Option.some.injEq] at hrem
            rw [← hrem] at hxr
            simp at hxr
          · refine Or.inr (Or.inr ⟨rem, ?_, hxr⟩)
            simp only [List.getElem?_set_ne hji]
            exact hrem
      · intro j rem hj x hx
        by_cases hji : i = j
        · subst hji
          simp [List.getElem?_set, hlt] at hj
        · simp only [List.getElem?_set_ne hji] at hj
          exact inv.sound.2.2 j rem hj x hx
      · show st.taskwait - 1 =
          ((st.producers.set i none).filter Option.isSome).length + st.others
        have h := running_set_none st.producers i [] h1
        have hc := inv.counted
        omega
      · intro hm
        exact absurd (inv.waited hm) (fun hall => not_running_of_all_none _ i _ h1 hall)
  | otherProgress h1 h2 =>
      exact
        { pending := inv.pending, sound := inv.sound, counted := inv.counted,
          waited := inv.waited, closedAt := inv.closedAt, drained := inv.drained,
          retainCounted := inv.retainCounted, released := inv.released }
  | otherDone h1 =>
      refine
        { pending := inv.pending, sound := inv.sound, counted := ?_,
          waited := inv.waited, closedAt := inv.closedAt, drained := inv.drained,
          retainCounted := inv.retainCounted, released := inv.released }
      show st.taskwait - 1 = (st.producers.filter Option.isSome).length + (st.others - 1)
      have hc := inv.counted
      omega
  | collect oid rest h1 h2 =>
      refine
        { pending := ?_, sound := ⟨?_, ?_, inv.sound.2.2⟩, counted := inv.counted,
          waited := inv.waited, closedAt := inv.closedAt, drained := ?_,
          retainCounted := ?_, released := ?_ }
      · intro j script hj x hx
        rcases inv.pending j script hj x hx with h | h | h
        · exact Or.inl ((StringSet_mem_Add _ _ _).2 (Or.inr h))
        · rw [h2] at h
          rcases List.mem_cons.1 h with hx1 | hx1
          · exact Or.inl ((StringSet_mem_Add _ _ _).2 (Or.inl hx1))
          · exact Or.inr (Or.inl hx1)
        · exact Or.inr (Or.inr h)
      · intro x hx
        rcases (StringSet_mem_Add _ _ _).1 hx with h | h
        · rw [h]
          exact inv.sound.2.1 oid (by rw [h2]; exact List.mem_cons_self _ _)
        · exact inv.sound.1 x h
      · intro x hx
        exact inv.sound.2.1 x (by rw [h2]; exact List.mem_cons_of_mem _ hx)
      · intro hc
        cases hc
      · have := inv.retainCounted
        rw [h1] at this
        simpa using this
      · intro hm
        have := inv.released hm
        rw [h1] at this
        cases this
  | report h1 h2 =>
      refine
        { pending := inv.pending, sound := inv.sound, counted := inv.counted,
          waited := inv.waited, closedAt := inv.closedAt, drained := ?_,
          retainCounted := ?_, released := ?_ }
      · intro hc
        cases hc
      · have := inv.retainCounted
        rw [h1] at this
        simpa using this
      · intro hm
        have := inv.released hm
        rw [h1] at this
        cases this
  | collectorDone h1 h2 h3 =>
      refine
        { pending := inv.pending, sound := inv.sound, counted := inv.counted,
          waited := inv.waited, closedAt := inv.closedAt, drained := fun _ => ⟨h3, h2⟩,
          retainCounted := ?_, released := fun _ => rfl }
      have := inv.retainCounted
      rw [h1] at this
      show st.retainwait - 1 = _
      simp only [if_true]
      simp at this
      omega
  | display h1 =>
      exact
        { pending := inv.pending, sound := inv.sound, counted := inv.counted,
          waited := inv.waited, closedAt := inv.closedAt, drained := inv.drained,
          retainCounted := inv.retainCounted, released := inv.released }
  | tasksDone h1 h2 =>
      refine
        { pending := inv.pending, sound := inv.sound, counted := inv.counted,
          waited := ?_, closedAt := ?_, drained := inv.drained,
          retainCounted := inv.retainCounted, released := ?_ }
      · intro _
        have hc := inv.counted
        exact running_zero st.producers (by omega)
      · have hc := inv.closedAt
        rw [h1] at hc
        show st.closed = true ↔ _
        rw [hc]
        simp
      · intro hm
        cases hm
  | close h1 =>
      refine
        { pending := inv.pending, sound := inv.sound, counted := inv.counted,
          waited := ?_, closedAt := ?_, drained := ?_,
          retainCounted := inv.retainCounted, released := ?_ }
      · intro _
        exact inv.waited (by rw [h1]; simp)
      · show true = true ↔ _
        simp
      · intro hc
        have h := (inv.drained hc).1
        have h2 := inv.closedAt.1 h
        rw [h1] at h2
        simp at h2
      · intro hm
        cases hm
  | retainDone h1 h2 =>
      refine
        { pending := inv.pending, sound := inv.sound, counted := inv.counted,
          waited := ?_, closedAt := ?_, drained := inv.drained,
          retainCounted := inv.retainCounted, released := ?_ }
      · intro _
        exact inv.waited (by rw [h1]; simp)
      · have hc := inv.closedAt.2 (Or.inl h1)
        show st.closed = true ↔ _
        simp [hc]
      · intro _
        have h := inv.retainCounted
        rw [h2] at h
        by_contra hn
        show False
        rw [if_neg hn] at h
        omega

theorem PruneTasks.invariant_reachable (a b c d : List String) (verifyRemote : Bool)
    (st : PruneTasks)
    (hreach : Relation.ReflTransGen PruneTasks.Step (PruneTasks.start a b c d verifyRemote) st) :
    PruneTasks.Invariant [a, b, c, d] st := by
  induction hreach with
  | refl => exact PruneTasks.start_invariant a b c d verifyRemote
  | tail _ hstep ih => exact PruneTasks.invariant_step _ _ _ ih hstep

theorem mem_foldl_Add (l : List String) :
    ∀ (acc : StringSet) (x : String), x ∈ l.foldl StringSet.Add acc ↔ x ∈ acc ∨ x ∈ l := by
  induction l with
  | nil => intro acc x; simp
  | cons y rest ih =>
      intro acc x
      rw [List.foldl_cons, ih, StringSet_mem_Add, List.mem_cons]
      constructor
      · rintro ((h | h) | h)
        · exact Or.inr (Or.inl h)
        · exact Or.inl h
        · exact Or.inr (Or.inr h)
      · rintro (h | h | h)
        · exact Or.inl (Or.inr h)
        · exact Or.inl (Or.inl h)
        · exact Or.inr h

/-- C25: barrier completeness in prune. In every state the goroutines of `prune` can
reach, whatever the order of their steps and whatever the four retention-source
tasks send: `retainChan` is closed only after every retention-source task has
finished; the difference step starts only after the collector has found the closed
channel empty and ended; and when the difference step starts the retained set holds
every oid the retention-source tasks had to send, and nothing else, so it has the
members `pruneTaskCollectRetained` gives for all of them. -/
theorem prune_barrier_completeness
    (currentCheckout recentRefs unpushed worktree : List String) (verifyRemote : Bool)
    (st : PruneTasks)
    (hreach : Relation.ReflTransGen PruneTasks.Step
      (PruneTasks.start currentCheckout recentRefs unpushed worktree verifyRemote) st) :
    (st.closed = true → ∀ p ∈ st.producers, p = none) ∧
      (st.main = .difference →
        st.collector = .finished ∧ st.closed = true ∧ st.retainChan = []) ∧
      (st.main = .difference →
        ∀ oid, (oid ∈ currentCheckout ∨ oid ∈ recentRefs ∨ oid ∈ unpushed ∨ oid ∈ worktree) ↔
          st.retainedObjects.Contains oid = true) ∧
      (st.main = .difference →
        ∀ oid, oid ∈ st.retainedObjects ↔
          oid ∈ pruneTaskCollectRetained
            (currentCheckout ++ recentRefs ++ unpushed ++ worktree)) := by
  have inv := PruneTasks.invariant_reachable currentCheckout recentRefs unpushed worktree
    verifyRemote st hreach
  have hmem : st.main = .difference →
      ∀ oid, (oid ∈ currentCheckout ∨ oid ∈ recentRefs ∨ oid ∈ unpushed ∨ oid ∈ worktree) ↔
        oid ∈ st.retainedObjects := by
    intro hm oid
    have hfin := inv.released hm
    have hdr := inv.drained hfin
    have hnone := inv.waited (by rw [hm]; simp)
    constructor
    · intro h
      have key : ∀ (i : Nat) (script : List String),
          [currentCheckout, recentRefs, unpushed, worktree][i]? = some script →
          oid ∈ script → oid ∈ st.retainedObjects := by
        intro i script hi hoid
        rcases inv.pending i script hi oid hoid with h1 | h1 | ⟨rest, hrest, _⟩
        · exact h1
        · rw [hdr.2] at h1
          simp at h1
        · exact absurd hnone (fun hall => not_running_of_all_none _ i _ hrest hall)
      rcases h with h | h | h | h
      · exact key 0 _ rfl h
      · exact key 1 _ rfl h
      · exact key 2 _ rfl h
      · exact key 3 _ rfl h
    · intro h
      obtain ⟨script, hs, hoid⟩ := inv.sound.1 oid h
      simp only [List.mem_cons, List.mem_singleton, List.not_mem_nil, or_false] at hs
      rcases hs with hs | hs | hs | hs
      · exact Or.inl (hs ▸ hoid)
      · exact Or.inr (Or.inl (hs ▸ hoid))
      · exact Or.inr (Or.inr (Or.inl (hs ▸ hoid)))
      · exact Or.inr (Or.inr (Or.inr (hs ▸ hoid)))
  refine ⟨?_, ?_, ?_, ?_⟩
  · intro hc
    apply inv.waited
    rcases inv.closedAt.1 hc with h | h <;> rw [h] <;> simp
  · intro hm
    have hfin := inv.released hm
    exact ⟨hfin, (inv.drained hfin).1, (inv.drained hfin).2⟩
  · intro hm oid
    rw [hmem hm oid]
    simp [StringSet.Contains]
  · intro hm oid
    rw [← hmem hm oid]
    unfold pruneTaskCollectRetained
    rw [mem_foldl_Add]
    simp [NewStringSet, List.mem_append, or_assoc]

/-- C25 on a run in which the current-checkout task sends the oid `a` and the other
tasks send nothing: the tasks get to the difference step, and the retained set holds
`a` there. -/
theorem prune_barrier_completeness_witness :
    Relation.ReflTransGen PruneTasks.Step (PruneTasks.start [ "a" ] [] [] [] false)
        { producers := [none, none, none, none], others := 0, taskwait := 0,
          retainChan := [], closed := true, collector := .finished,
          retainedObjects := [ "a" ], retainwait := 0, progressChan := 1,
          main := .difference } ∧
      StringSet.Contains [ "a" ] "a" = true := by
  have hreach : Relation.ReflTransGen PruneTasks.Step (PruneTasks.start [ "a" ] [] [] [] false)
      { producers := [none, none, none, none], others := 0, taskwait := 0,
        retainChan := [], closed := true, collector := .finished,
        retainedObjects := [ "a" ], retainwait := 0, progressChan := 1,
        main := .difference } := by
    refine Relation.ReflTransGen.head
      (PruneTasks.Step.send _ 0 "a" [] rfl (by decide) rfl) ?_
    refine Relation.ReflTransGen.head (PruneTasks.Step.collect _ "a" [] rfl rfl) ?_
    refine Relation.ReflTransGen.head (PruneTasks.Step.report _ rfl (by decide)) ?_
    refine Relation.ReflTransGen.head (PruneTasks.Step.producerDone _ 0 rfl) ?_
    refine Relation.ReflTransGen.head (PruneTasks.Step.producerDone _ 1 rfl) ?_
    refine Relation.ReflTransGen.head (PruneTasks.Step.producerDone _ 2 rfl) ?_
    refine Relation.ReflTransGen.head (PruneTasks.Step.producerDone _ 3 rfl) ?_
    refine Relation.ReflTransGen.head (PruneTasks.Step.otherDone _ (by decide)) ?_
    refine Relation.ReflTransGen.head (PruneTasks.Step.tasksDone _ rfl rfl) ?_
    refine Relation.ReflTransGen.head (PruneTasks.Step.close _ rfl) ?_
    refine Relation.ReflTransGen.head (PruneTasks.Step.collectorDone _ rfl rfl rfl) ?_
    refine Relation.ReflTransGen.head (PruneTasks.Step.retainDone _ rfl rfl) ?_
    exact Relation.ReflTransGen.refl
  exact ⟨hreach,
    ((prune_barrier_completeness [ "a" ] [] [] [] false _ hreach).2.2.1 rfl "a").1
      (Or.inl (List.mem_singleton.2 rfl))⟩


end GitLfs
